import Mathlib

/-! # Output chunks of the linker (output_chunks.cc)

A shallow embedding of the output-assembly code of `output_chunks.cc`:
the program-header builder, the `.rela.dyn` sizing and emission, the dynamic
symbol table, the SysV hash table, the dynamic string table, the section name
table, the GOT, PLT and copy-relocation requests, the PLT stubs, the
output-section registry and the unwind-frame section.

Conventions of the embedding

* Pointers to `Symbol` objects are symbol identifiers (`SymId`); the objects
  themselves live in a store `SymId → Symbol`, so that two vector slots holding
  the same pointer alias the same object.
* Unsigned fixed-width fields (`u32`, `u64`) are natural numbers; every
  operation that can wrap is followed by an explicit reduction modulo `2^32`
  or `2^64`.
* C++ `int` values are integers; a conversion to `int` is `toI32`.
* Byte strings (`std::string_view`) are lists of bytes.
* An output buffer is a function from the byte offset, counted from the base
  `out::buf + shdr.sh_offset` of the section, to the byte stored there.
* A failed `assert` is the result `none`.
-/

namespace Mold

/-! ## Machine arithmetic -/

/-- Truncation to an unsigned 32-bit value. -/
def u32 (x : Nat) : Nat := x % 2 ^ 32

/-- Truncation to an unsigned 64-bit value. -/
def u64 (x : Nat) : Nat := x % 2 ^ 64

/-- Subtraction of unsigned 64-bit values, wrapping modulo `2^64`. -/
def sub64 (a b : Nat) : Nat := (a + (2 ^ 64 - b % 2 ^ 64)) % 2 ^ 64

/-- Addition of unsigned 64-bit values, wrapping modulo `2^64`. -/
def add64 (a b : Nat) : Nat := (a + b) % 2 ^ 64

/-- Conversion of an integer to a C++ `int` (32-bit, two's complement). -/
def toI32 (x : Int) : Int := (x + 2 ^ 31) % 2 ^ 32 - 2 ^ 31

/-- Conversion of a C++ `int` to an unsigned 64-bit value (sign extension). -/
def intToU64 (x : Int) : Nat := (x % 2 ^ 64).toNat

/-- Byte strings, the contents of a `std::string_view`. -/
abbrev Bytes := List UInt8

/-- Identity of a `Symbol` object (the pointer `Symbol *`). -/
abbrev SymId := Nat

/-! ## Constants

The ELF constants come from `mold.h` and `elf.h`, which are not part of the
translated file; they carry their values from the ELF specification. -/

/-- Modelled from the spec: `sizeof(ElfRela)`, 24 bytes (section 6). -/
def sizeof_ElfRela : Nat := 24
/-- Modelled from the spec: `sizeof(ElfSym)`, 24 bytes (section 6). -/
def sizeof_ElfSym : Nat := 24
/-- Modelled from the spec: `GOT_SIZE`, 8 bytes per GOT entry (section 4.7). -/
def GOT_SIZE : Nat := 8
/-- Modelled from the spec: `PLT_SIZE`, 16 bytes per PLT entry (section 4.7). -/
def PLT_SIZE : Nat := 16
/-- Modelled from the spec: `PAGE_SIZE`, the PT_LOAD alignment 4096 (section 4.2). -/
def PAGE_SIZE : Nat := 4096

/-- Modelled from the spec: section flag `SHF_WRITE` of elf.h. -/
def SHF_WRITE : Nat := 0x1
/-- Modelled from the spec: section flag `SHF_ALLOC` of elf.h. -/
def SHF_ALLOC : Nat := 0x2
/-- Modelled from the spec: section flag `SHF_EXECINSTR` of elf.h. -/
def SHF_EXECINSTR : Nat := 0x4
/-- Modelled from the spec: section flag `SHF_TLS` of elf.h. -/
def SHF_TLS : Nat := 0x400

/-- Modelled from the spec: section type `SHT_NOTE` of elf.h. -/
def SHT_NOTE : Nat := 7
/-- Modelled from the spec: section type `SHT_NOBITS` of elf.h. -/
def SHT_NOBITS : Nat := 8
/-- Modelled from the spec: section type `SHT_PROGBITS` of elf.h. -/
def SHT_PROGBITS : Nat := 1
/-- Modelled from the spec: section type `SHT_SYMTAB` of elf.h. -/
def SHT_SYMTAB : Nat := 2

/-- Modelled from the spec: segment flag `PF_X` of elf.h. -/
def PF_X : Nat := 1
/-- Modelled from the spec: segment flag `PF_W` of elf.h. -/
def PF_W : Nat := 2
/-- Modelled from the spec: segment flag `PF_R` of elf.h. -/
def PF_R : Nat := 4

/-- Modelled from the spec: segment type `PT_LOAD` of elf.h. -/
def PT_LOAD : Nat := 1
/-- Modelled from the spec: segment type `PT_DYNAMIC` of elf.h. -/
def PT_DYNAMIC : Nat := 2
/-- Modelled from the spec: segment type `PT_INTERP` of elf.h. -/
def PT_INTERP : Nat := 3
/-- Modelled from the spec: segment type `PT_NOTE` of elf.h. -/
def PT_NOTE : Nat := 4
/-- Modelled from the spec: segment type `PT_PHDR` of elf.h. -/
def PT_PHDR : Nat := 6
/-- Modelled from the spec: segment type `PT_TLS` of elf.h. -/
def PT_TLS : Nat := 7
/-- Modelled from the spec: segment type `PT_GNU_STACK` of elf.h. -/
def PT_GNU_STACK : Nat := 0x6474e551

/-- Modelled from the spec: symbol binding `STB_LOCAL` of elf.h. -/
def STB_LOCAL : Nat := 0
/-- Modelled from the spec: symbol binding `STB_GLOBAL` of elf.h. -/
def STB_GLOBAL : Nat := 1

/-- Modelled from the spec: relocation type `R_X86_64_COPY` of elf.h. -/
def R_X86_64_COPY : Nat := 5
/-- Modelled from the spec: relocation type `R_X86_64_GLOB_DAT` of elf.h. -/
def R_X86_64_GLOB_DAT : Nat := 6
/-- Modelled from the spec: relocation type `R_X86_64_RELATIVE` of elf.h. -/
def R_X86_64_RELATIVE : Nat := 8
/-- Modelled from the spec: relocation type `R_X86_64_DTPMOD64` of elf.h. -/
def R_X86_64_DTPMOD64 : Nat := 16
/-- Modelled from the spec: relocation type `R_X86_64_DTPOFF64` of elf.h. -/
def R_X86_64_DTPOFF64 : Nat := 17
/-- Modelled from the spec: relocation type `R_X86_64_TPOFF32` of elf.h. -/
def R_X86_64_TPOFF32 : Nat := 23

/-! ## Data model -/

/-- The fields of `Symbol` (and of the input symbol record `esym` it points
to) that the translated functions read or write.  `is_relative` is the result
of the method `Symbol::is_relative()` and `esym_is_undef` that of
`esym->is_undef()`; the `*_addr` fields are the results of the accessors
`get_addr()`, `get_got_addr()`, `get_gotplt_addr()`, `get_plt_addr()`,
`get_tlsgd_addr()` and `get_gottpoff_addr()`, all declared in `mold.h`.
`has_input_section` tells whether the pointer `input_section` is non-null and
`output_shndx` is `input_section->output_section->shndx`. -/
structure Symbol where
  name : Bytes := []
  st_type : Nat := 0
  esym_st_bind : Nat := 0
  esym_st_size : Nat := 0
  dynsym_idx : Int := -1
  got_idx : Int := -1
  gotplt_idx : Int := -1
  gottpoff_idx : Int := -1
  tlsgd_idx : Int := -1
  plt_idx : Int := -1
  is_imported : Bool := false
  has_copyrel : Bool := false
  has_relplt : Bool := false
  value : Nat := 0
  is_relative : Bool := false
  addr : Nat := 0
  got_addr : Nat := 0
  tlsgd_addr : Nat := 0
  gottpoff_addr : Nat := 0
  gotplt_addr : Nat := 0
  plt_addr : Nat := 0
  esym_is_undef : Bool := false
  has_input_section : Bool := false
  output_shndx : Nat := 0
  deriving DecidableEq, Inhabited

/-- An `ElfRela` record, in the order of its brace initialiser
`{r_offset, r_type, r_sym, r_addend}`. -/
structure ElfRela where
  r_offset : Nat
  r_type : Nat
  r_sym : Int
  r_addend : Int
  deriving DecidableEq, Inhabited

/-- The state of `GotSection` used by the relocation table: the three symbol
vectors, `tlsld_idx` and the result of `get_tlsld_addr()`. -/
structure GotSection where
  sh_size : Nat := 0
  got_syms : List SymId := []
  gottpoff_syms : List SymId := []
  tlsgd_syms : List SymId := []
  tlsld_idx : Int := -1
  tlsld_addr : Nat := 0
  deriving DecidableEq, Inhabited

/-- The fields of `ObjectFile` used by `RelDynSection::update_shdr`. -/
structure ObjectFile where
  num_dynrel : Nat := 0
  reldyn_offset : Nat := 0
  deriving DecidableEq, Inhabited

/-- The section header fields that `RelDynSection::update_shdr` writes. -/
structure RelDynSection where
  sh_link : Nat := 0
  sh_size : Nat := 0
  deriving DecidableEq, Inhabited

/-! ## RelDynSection -/

/-- The first loop of `RelDynSection::update_shdr`: `n++` for every GOT symbol
that is imported, or relative under PIE. -/
def RelDynSection.count_got (pie : Bool) (syms : SymId → Symbol) :
    List SymId → Int → Int
  | [], n => n
  | s :: rest, n =>
    if (syms s).is_imported || (pie && (syms s).is_relative) then
      RelDynSection.count_got pie syms rest (toI32 (n + 1))
    else
      RelDynSection.count_got pie syms rest n

/-- The last loop of `RelDynSection::update_shdr`: every file gets
`reldyn_offset = n * sizeof(ElfRela)` and `n` grows by its `num_dynrel`. -/
def RelDynSection.reserve_files : List ObjectFile → Int → List ObjectFile × Int
  | [], n => ([], n)
  | f :: rest, n =>
    let r := RelDynSection.reserve_files rest (toI32 (n + f.num_dynrel))
    ({ f with reldyn_offset := intToU64 (n * sizeof_ElfRela) } :: r.1, r.2)

/-- `RelDynSection::update_shdr`: the number `n` of records, computed in
the order of the source, and the section header and files it leaves. -/
def RelDynSection.update_shdr (pie : Bool) (syms : SymId → Symbol) (got : GotSection)
    (copyrel_symbols : List SymId) (objs : List ObjectFile) (dynsym_shndx : Nat)
    (_self : RelDynSection) : RelDynSection × List ObjectFile :=
  let n : Int := 0
  let n := RelDynSection.count_got pie syms got.got_syms n
  let n := toI32 (n + got.tlsgd_syms.length * 2)
  let n := toI32 (n + copyrel_symbols.length)
  let n := if got.tlsld_idx ≠ -1 then toI32 (n + 1) else n
  let r := RelDynSection.reserve_files objs n
  ({ sh_link := dynsym_shndx, sh_size := intToU64 (r.2 * sizeof_ElfRela) }, r.1)

/-- The records that the first loop of `RelDynSection::copy_buf` writes for one
GOT symbol. -/
def RelDynSection.got_records (pie : Bool) (sym : Symbol) : List ElfRela :=
  if sym.is_imported then
    [⟨sym.got_addr, R_X86_64_GLOB_DAT, sym.dynsym_idx, 0⟩]
  else if pie && sym.is_relative then
    [⟨sym.got_addr, R_X86_64_RELATIVE, 0, sym.addr⟩]
  else []

/-- `RelDynSection::copy_buf`: the sequence of records written through
`*rel++`, starting at the section's `sh_offset`. -/
def RelDynSection.copy_buf (pie : Bool) (syms : SymId → Symbol) (got : GotSection)
    (copyrel_symbols : List SymId) : List ElfRela :=
  (got.got_syms.map fun s => RelDynSection.got_records pie (syms s)).flatten
  ++ (got.tlsgd_syms.map fun s =>
        [(⟨(syms s).tlsgd_addr, R_X86_64_DTPMOD64, (syms s).dynsym_idx, 0⟩ : ElfRela),
         ⟨u64 ((syms s).tlsgd_addr + GOT_SIZE), R_X86_64_DTPOFF64, (syms s).dynsym_idx, 0⟩]).flatten
  ++ (if got.tlsld_idx ≠ -1 then [⟨got.tlsld_addr, R_X86_64_DTPMOD64, 0, 0⟩] else [])
  ++ ((got.gottpoff_syms.filter fun s => (syms s).is_imported).map fun s =>
        (⟨(syms s).gottpoff_addr, R_X86_64_TPOFF32, (syms s).dynsym_idx, 0⟩ : ElfRela))
  ++ (copyrel_symbols.map fun s =>
        (⟨(syms s).addr, R_X86_64_COPY, (syms s).dynsym_idx, 0⟩ : ElfRela))

/-- The record count that the relocation-count property of the specification
assigns to a state: GOT symbols needing a relocation, two per TLSGD symbol, one
for TLSLD, imported GOTTPOFF symbols, copy relocations and the per-file
reservations. -/
def RelDynSection.expected_count (pie : Bool) (syms : SymId → Symbol) (got : GotSection)
    (copyrel_symbols : List SymId) (objs : List ObjectFile) : Nat :=
  (got.got_syms.countP fun s => (syms s).is_imported || (pie && (syms s).is_relative))
  + 2 * got.tlsgd_syms.length
  + (if got.tlsld_idx ≠ -1 then 1 else 0)
  + (got.gottpoff_syms.countP fun s => (syms s).is_imported)
  + copyrel_symbols.length
  + (objs.map ObjectFile.num_dynrel).sum

/-- A store in which every symbol is an imported symbol. -/
def importedStore : SymId → Symbol := fun _ => { is_imported := true }

/-- A GOT holding one imported GOTTPOFF symbol and nothing else. -/
def gotOneGottpoff : GotSection := { sh_size := 8, gottpoff_syms := [0] }

/-! ## Program headers -/

/-- The fields of the section header record `ElfShdr`. -/
structure ElfShdr where
  sh_name : Nat := 0
  sh_type : Nat := 0
  sh_flags : Nat := 0
  sh_addr : Nat := 0
  sh_offset : Nat := 0
  sh_size : Nat := 0
  sh_link : Nat := 0
  sh_info : Nat := 0
  sh_addralign : Nat := 0
  sh_entsize : Nat := 0
  deriving DecidableEq, Inhabited

/-- An output chunk: its name and its section header. -/
structure OutputChunk where
  name : Bytes := []
  shdr : ElfShdr := {}
  deriving DecidableEq, Inhabited

/-- The program header record `ElfPhdr`; `vec.push_back({})` creates it with
every field zero. -/
structure ElfPhdr where
  p_type : Nat := 0
  p_flags : Nat := 0
  p_offset : Nat := 0
  p_vaddr : Nat := 0
  p_paddr : Nat := 0
  p_filesz : Nat := 0
  p_memsz : Nat := 0
  p_align : Nat := 0
  deriving DecidableEq, Inhabited

/-- An element of the vector `vec` of `create_phdr`, together with two ghost
fields that the C++ code does not store: `requested`, the alignment argument
of the `define` call that created the element, and `members`, the chunks passed
to that `define` call and to the `append` calls that followed it, in call
order. -/
structure Segment where
  phdr : ElfPhdr := {}
  requested : Nat := 0
  members : List OutputChunk := []
  deriving DecidableEq, Inhabited

/-- The globals that `create_phdr` reads: `out::phdr`, `out::interp`,
`out::chunks` and `out::dynamic` (a null pointer is `none`). -/
structure PhdrInput where
  phdr : OutputChunk := {}
  interp : Option OutputChunk := none
  chunks : List OutputChunk := []
  dynamic : Option OutputChunk := none
  deriving DecidableEq, Inhabited

/-- The function `to_phdr_flags`. -/
def to_phdr_flags (chunk : OutputChunk) : Nat :=
  let ret := PF_R
  let ret := if chunk.shdr.sh_flags &&& SHF_WRITE ≠ 0 then ret ||| PF_W else ret
  let ret := if chunk.shdr.sh_flags &&& SHF_EXECINSTR ≠ 0 then ret ||| PF_X else ret
  ret

/-- The lambda `define` of `create_phdr`: the element it pushes on `vec`.  The
parameter `align` has type `u32`.  (The side effect `starts_new_ptload = true`
on the chunk is read nowhere in `create_phdr` and is left out.) -/
def define (type flags align : Nat) (chunk : OutputChunk) : Segment :=
  { phdr :=
      { p_type := type
        p_flags := flags
        p_align := max (u32 align) chunk.shdr.sh_addralign
        p_offset := chunk.shdr.sh_offset
        p_filesz := if chunk.shdr.sh_type = SHT_NOBITS then 0 else chunk.shdr.sh_size
        p_vaddr := chunk.shdr.sh_addr
        p_paddr := chunk.shdr.sh_addr
        p_memsz := chunk.shdr.sh_size }
    requested := u32 align
    members := [chunk] }

/-- The lambda `append` of `create_phdr`, applied to `vec.back()`. -/
def append (seg : Segment) (chunk : OutputChunk) : Segment :=
  { seg with
    phdr :=
      { seg.phdr with
        p_align := max seg.phdr.p_align chunk.shdr.sh_addralign
        p_filesz :=
          if chunk.shdr.sh_type = SHT_NOBITS then
            sub64 chunk.shdr.sh_offset seg.phdr.p_offset
          else
            sub64 (add64 chunk.shdr.sh_offset chunk.shdr.sh_size) seg.phdr.p_offset
        p_memsz := sub64 (add64 chunk.shdr.sh_addr chunk.shdr.sh_size) seg.phdr.p_vaddr }
    members := seg.members ++ [chunk] }

/-- The lambda `is_bss` of `create_phdr`. -/
def is_bss (chunk : OutputChunk) : Bool :=
  chunk.shdr.sh_type = SHT_NOBITS && !(chunk.shdr.sh_flags &&& SHF_TLS ≠ 0)

/-- A loop `while (i < end && p(out::chunks[i])) append(out::chunks[i++]);`
run on the chunks from index `i` on: the updated `vec.back()` and the chunks
from the final index on. -/
def append_while (p : OutputChunk → Bool) : Segment → List OutputChunk →
    Segment × List OutputChunk
  | seg, [] => (seg, [])
  | seg, c :: cs => if p c then append_while p (append seg c) cs else (seg, c :: cs)

/-- One iteration of the PT_NOTE loop of `create_phdr` for a first chunk of
type SHT_NOTE: the `define` call and the inner `while`.  Returns the finished
element and the chunks from the final index `i` on. -/
def note_group (first : OutputChunk) (rest : List OutputChunk) :
    Segment × List OutputChunk :=
  let flags := to_phdr_flags first
  let alignment := u32 first.shdr.sh_addralign
  append_while
    (fun c => c.shdr.sh_type = SHT_NOTE && to_phdr_flags c = flags
              && c.shdr.sh_addralign = alignment)
    (define PT_NOTE flags alignment first) rest

/-- The PT_NOTE loop of `create_phdr` on the chunks from index `i` on; the
first argument bounds the number of iterations of the outer loop. -/
def note_loop : Nat → List OutputChunk → List Segment
  | 0, _ => []
  | _ + 1, [] => []
  | fuel + 1, first :: rest =>
    if first.shdr.sh_type ≠ SHT_NOTE then note_loop fuel rest
    else (note_group first rest).1 :: note_loop fuel (note_group first rest).2

/-- One iteration of the PT_LOAD loop of `create_phdr` for a first chunk with
SHF_ALLOC: the `define` call and the two inner `while` loops.  Returns the
finished element and the chunks from the final index `i` on. -/
def load_group (first : OutputChunk) (rest : List OutputChunk) :
    Segment × List OutputChunk :=
  let flags := to_phdr_flags first
  let seg := define PT_LOAD flags PAGE_SIZE first
  let r1 :=
    if !is_bss first then
      append_while (fun c => !is_bss c && to_phdr_flags c = flags) seg rest
    else (seg, rest)
  append_while (fun c => is_bss c && to_phdr_flags c = flags) r1.1 r1.2

/-- The PT_LOAD loop of `create_phdr` on the chunks from index `i` on; the
first argument bounds the number of iterations of the outer loop.  The `break`
at a first chunk without SHF_ALLOC ends the loop. -/
def load_loop : Nat → List OutputChunk → List Segment
  | 0, _ => []
  | _ + 1, [] => []
  | fuel + 1, first :: rest =>
    if first.shdr.sh_flags &&& SHF_ALLOC = 0 then []
    else (load_group first rest).1 :: load_loop fuel (load_group first rest).2

/-- One iteration of the PT_TLS loop of `create_phdr` for a chunk with
SHF_TLS: the `define` call and the inner `while`. -/
def tls_group (c : OutputChunk) (rest : List OutputChunk) : Segment × List OutputChunk :=
  append_while (fun d => d.shdr.sh_flags &&& SHF_TLS ≠ 0)
    (define PT_TLS (to_phdr_flags c) 1 c) rest

/-- The PT_TLS loop of `create_phdr` on the chunks from index `i` on.  After
the inner `while`, the `i++` of the `for` statement skips one more chunk. -/
def tls_loop : Nat → List OutputChunk → List Segment
  | 0, _ => []
  | _ + 1, [] => []
  | fuel + 1, c :: rest =>
    if c.shdr.sh_flags &&& SHF_TLS = 0 then tls_loop fuel rest
    else (tls_group c rest).1 :: tls_loop fuel ((tls_group c rest).2.drop 1)

/-- The marker element PT_GNU_STACK pushed at the end of `create_phdr`. -/
def gnu_stack : Segment :=
  { phdr := { p_type := PT_GNU_STACK, p_flags := PF_R ||| PF_W } }

/-- The function `create_phdr`, with the ghost fields of `Segment` kept. -/
def create_phdr_traced (inp : PhdrInput) : List Segment :=
  [define PT_PHDR PF_R 8 inp.phdr]
  ++ (match inp.interp with
      | some c => [define PT_INTERP PF_R 1 c]
      | none => [])
  ++ note_loop inp.chunks.length inp.chunks
  ++ load_loop inp.chunks.length inp.chunks
  ++ tls_loop inp.chunks.length inp.chunks
  ++ (match inp.dynamic with
      | some d => [define PT_DYNAMIC (PF_R ||| PF_W) d.shdr.sh_addralign d]
      | none => [])
  ++ [gnu_stack]

/-- The function `create_phdr`: the vector of program headers. -/
def create_phdr (inp : PhdrInput) : List ElfPhdr :=
  (create_phdr_traced inp).map Segment.phdr

/-- The PT_LOAD elements of the vector that `create_phdr` returns. -/
def pt_loads (inp : PhdrInput) : List Segment :=
  (create_phdr_traced inp).filter fun S => S.phdr.p_type = PT_LOAD


/-- The end of the file image of a chunk, `sh_offset + (NOBITS ? 0 : sh_size)`,
in unsigned 64-bit arithmetic. -/
def file_end (L : OutputChunk) : Nat :=
  add64 L.shdr.sh_offset (if L.shdr.sh_type = SHT_NOBITS then 0 else L.shdr.sh_size)

/-- The per-segment formulas of the program header table, for a segment whose
first member is `F`: offset and addresses are those of `F`, the alignment is
the maximum of the requested one and of the members' alignments, and sizes
reach to the end of the last member. -/
def Segment.Spans (S : Segment) (F : OutputChunk) : Prop :=
  S.members.head? = some F
  ∧ S.phdr.p_offset = F.shdr.sh_offset
  ∧ S.phdr.p_vaddr = F.shdr.sh_addr
  ∧ S.phdr.p_paddr = F.shdr.sh_addr
  ∧ S.phdr.p_align
      = max S.requested ((S.members.map fun c => c.shdr.sh_addralign).foldr max 0)
  ∧ (F.shdr.sh_size < 2 ^ 64 → ∀ L, S.members.getLast? = some L →
      S.phdr.p_filesz = sub64 (file_end L) S.phdr.p_offset
      ∧ S.phdr.p_memsz = sub64 (add64 L.shdr.sh_addr L.shdr.sh_size) S.phdr.p_vaddr)

/-- The layout precondition of the PT_LOAD loop: every chunk with SHF_ALLOC
precedes every chunk without it. -/
def alloc_chunks_first (chunks : List OutputChunk) : Bool :=
  (chunks.dropWhile fun c => c.shdr.sh_flags &&& SHF_ALLOC ≠ 0).all
    fun c => c.shdr.sh_flags &&& SHF_ALLOC = 0

/-! ### Concrete chunk lists -/

/-- A writable `.data` chunk of 0x10 bytes at file offset 0x1000. -/
def dataChunk : OutputChunk :=
  { name := [0x2e, 0x64, 0x61, 0x74, 0x61]
    shdr := { sh_type := SHT_PROGBITS, sh_flags := SHF_ALLOC ||| SHF_WRITE,
              sh_addr := 0x201000, sh_offset := 0x1000, sh_size := 0x10,
              sh_addralign := 8 } }

/-- A `.bss` chunk laid out directly behind `dataChunk`. -/
def bssChunk : OutputChunk :=
  { name := [0x2e, 0x62, 0x73, 0x73]
    shdr := { sh_type := SHT_NOBITS, sh_flags := SHF_ALLOC ||| SHF_WRITE,
              sh_addr := 0x201010, sh_offset := 0x1010, sh_size := 0x40,
              sh_addralign := 8 } }

/-- A `.bss` chunk aligned to 32 bytes, which leaves 0x10 bytes of padding
behind `dataChunk`. -/
def bssChunkPadded : OutputChunk :=
  { name := [0x2e, 0x62, 0x73, 0x73]
    shdr := { sh_type := SHT_NOBITS, sh_flags := SHF_ALLOC ||| SHF_WRITE,
              sh_addr := 0x201020, sh_offset := 0x1020, sh_size := 0x40,
              sh_addralign := 32 } }

/-- A read-only `.rodata` chunk. -/
def rodataChunk : OutputChunk :=
  { name := [0x2e, 0x72, 0x6f, 0x64, 0x61, 0x74, 0x61]
    shdr := { sh_type := SHT_PROGBITS, sh_flags := SHF_ALLOC,
              sh_addr := 0x202000, sh_offset := 0x2000, sh_size := 0x100,
              sh_addralign := 16 } }

/-- A `.symtab` chunk: no SHF_ALLOC, no address. -/
def symtabChunk : OutputChunk :=
  { name := [0x2e, 0x73, 0x79, 0x6d, 0x74, 0x61, 0x62]
    shdr := { sh_type := SHT_SYMTAB, sh_flags := 0,
              sh_addr := 0, sh_offset := 0x2100, sh_size := 0x30,
              sh_addralign := 8 } }

/-- A read-only chunk whose file offset runs 0x1000 ahead of `rodataChunk` while
its address runs only 0x100 ahead. -/
def farChunk : OutputChunk :=
  { shdr := { sh_type := SHT_PROGBITS, sh_flags := SHF_ALLOC,
              sh_addr := 0x202100, sh_offset := 0x3000, sh_size := 0x10,
              sh_addralign := 16 } }

/-- Scenario S3: `.data`, `.bss`, `.rodata` with `.bss` directly behind `.data`. -/
def s3Input : PhdrInput := { chunks := [dataChunk, bssChunk, rodataChunk] }

/-- Scenario S3 with alignment padding between `.data` and `.bss`. -/
def s3PaddedInput : PhdrInput := { chunks := [dataChunk, bssChunkPadded, rodataChunk] }

/-- A chunk list that meets the layout precondition: `.rodata`, then `.symtab`. -/
def rodataSymtabInput : PhdrInput := { chunks := [rodataChunk, symtabChunk] }

/-- Two read-only chunks whose file offsets advance faster than their addresses. -/
def farInput : PhdrInput := { chunks := [rodataChunk, farChunk] }

/-! ## Dynamic string table -/

/-- The state of `DynstrSection`: `shdr.sh_size` and the vector `contents`.
A fresh section has `sh_size = 1` (the leading NUL) and no contents. -/
structure DynstrSection where
  sh_size : Nat := 1
  contents : List Bytes := []
  deriving DecidableEq, Inhabited

/-- `DynstrSection::add_string`: the returned `u32` and the new state. -/
def DynstrSection.add_string (self : DynstrSection) (str : Bytes) : Nat × DynstrSection :=
  let ret := u32 self.sh_size
  (ret, { sh_size := u64 (self.sh_size + (str.length + 1))
          contents := self.contents ++ [str] })

/-- The loop of `DynstrSection::find_string` over the remaining contents, with
the running `u32 i`; `none` stands for reaching `unreachable()`. -/
def DynstrSection.find_string_loop (str : Bytes) : List Bytes → Nat → Option Nat
  | [], _ => none
  | s :: rest, i =>
    if s = str then some i
    else DynstrSection.find_string_loop str rest (u32 (i + (s.length + 1)))

/-- `DynstrSection::find_string`; `none` stands for reaching `unreachable()`. -/
def DynstrSection.find_string (self : DynstrSection) (str : Bytes) : Option Nat :=
  DynstrSection.find_string_loop str self.contents 1

/-- Modelled from the spec: the helper `write_string` of mold.h, which is not
part of the translated file; it writes the bytes of the string followed by a
NUL ("appends name + NUL", "as a NUL-terminated string").  The buffer is
addressed by the offset from the section's base `out::buf + shdr.sh_offset`. -/
def write_string (buf : Int → UInt8) (off : Int) (str : Bytes) : Int → UInt8 :=
  fun a =>
    if off ≤ a ∧ a < off + str.length then str.getD (a - off).toNat 0
    else if a = off + str.length then 0
    else buf a

/-- The loop of `DynstrSection::copy_buf` over the remaining contents, with the
running `int i`. -/
def DynstrSection.copy_buf_loop : List Bytes → Int → (Int → UInt8) → (Int → UInt8)
  | [], _, buf => buf
  | s :: rest, i, buf =>
    DynstrSection.copy_buf_loop rest (toI32 (i + (s.length + 1))) (write_string buf i s)

/-- `DynstrSection::copy_buf`: the buffer, addressed from the section's base,
after `base[0] = 0` and the loop. -/
def DynstrSection.copy_buf (self : DynstrSection) (buf : Int → UInt8) : Int → UInt8 :=
  DynstrSection.copy_buf_loop self.contents 1 (fun a => if a = 0 then 0 else buf a)

/-- A sequence of `add_string` calls: the values returned, in call order, and
the final state. -/
def DynstrSection.add_strings : DynstrSection → List Bytes → List Nat × DynstrSection
  | self, [] => ([], self)
  | self, s :: rest =>
    let r := DynstrSection.add_strings (self.add_string s).2 rest
    ((self.add_string s).1 :: r.1, r.2)

/-- The size of a string table holding the given strings: the leading NUL and
every string with its terminating NUL. -/
def strtab_size (strs : List Bytes) : Nat := 1 + (strs.map fun t => t.length + 1).sum

/-- The fresh `.dynstr` section: `sh_size = 1`, no contents. -/
def DynstrSection.init : DynstrSection := { sh_size := 1, contents := [] }

/-- The sum of `|t| + 1` over a list of strings. -/
def total_size (strs : List Bytes) : Nat := (strs.map fun t => t.length + 1).sum

/-- The bytes of `libc`. -/
def libcName : Bytes := [0x6c, 0x69, 0x62, 0x63]

/-- The bytes of `libm`. -/
def libmName : Bytes := [0x6c, 0x69, 0x62, 0x6d]

/-! ## Dynamic symbol table -/

/-- The state of `DynsymSection`: the vectors `symbols` and `name_indices` and
the section header fields it writes. -/
structure DynsymSection where
  symbols : List SymId := []
  name_indices : List Nat := []
  sh_info : Nat := 0
  sh_link : Nat := 0
  sh_size : Nat := 0
  deriving DecidableEq, Inhabited

/-- `DynsymSection::add_symbol`: the symbol store, `out::dynstr` and the
section after the call. -/
def DynsymSection.add_symbol (syms : SymId → Symbol) (dynstr : DynstrSection)
    (self : DynsymSection) (sym : SymId) :
    (SymId → Symbol) × DynstrSection × DynsymSection :=
  if (syms sym).dynsym_idx ≠ -1 then (syms, dynstr, self)
  else
    let syms1 := Function.update syms sym { syms sym with dynsym_idx := -2 }
    let r := dynstr.add_string (syms1 sym).name
    (syms1, r.2,
      { self with symbols := self.symbols ++ [sym]
                  name_indices := self.name_indices ++ [r.1] })

/-- A sequence of `DynsymSection::add_symbol` calls. -/
def DynsymSection.add_symbols (syms : SymId → Symbol) (dynstr : DynstrSection)
    (self : DynsymSection) : List SymId → (SymId → Symbol) × DynstrSection × DynsymSection
  | [] => (syms, dynstr, self)
  | sym :: rest =>
    let r := self.add_symbol syms dynstr sym
    DynsymSection.add_symbols r.1 r.2.1 r.2.2 rest

/-- The predicate of the `std::stable_partition` call of `sort_symbols`. -/
def is_local (syms : SymId → Symbol) (sym : SymId) : Bool :=
  (syms sym).esym_st_bind = STB_LOCAL

/-- The last loop of `DynsymSection::sort_symbols`: `sym->dynsym_idx = i++`
over the remaining symbols, with the running `int i`. -/
def DynsymSection.assign_idx : (SymId → Symbol) → List SymId → Int → (SymId → Symbol)
  | syms, [], _ => syms
  | syms, s :: rest, i =>
    DynsymSection.assign_idx (Function.update syms s { syms s with dynsym_idx := i })
      rest (toI32 (i + 1))

/-- `DynsymSection::sort_symbols`.  `std::stable_partition` moves the elements
that satisfy the predicate to the front and keeps the relative order in both
groups: `List.partition`.  The iterator difference `first_global - begin` is
the length of the first group; `sh_info` is a `u32`. -/
def DynsymSection.sort_symbols (syms : SymId → Symbol) (self : DynsymSection) :
    (SymId → Symbol) × DynsymSection :=
  let parts := self.symbols.partition (is_local syms)
  let symbols := parts.1 ++ parts.2
  (DynsymSection.assign_idx syms symbols 1,
   { self with symbols := symbols, sh_info := u32 (parts.1.length + 1) })

/-- The symbols of scenario S6: 0 is G-alpha, 1 is L-beta, 2 is G-gamma and 3
is L-delta; every other identifier is an unused global symbol. -/
def s6Store : SymId → Symbol := fun s =>
  match s with
  | 0 => { name := [0x61], esym_st_bind := STB_GLOBAL, dynsym_idx := -2 }
  | 1 => { name := [0x62], esym_st_bind := STB_LOCAL, dynsym_idx := -2 }
  | 2 => { name := [0x63], esym_st_bind := STB_GLOBAL, dynsym_idx := -2 }
  | 3 => { name := [0x64], esym_st_bind := STB_LOCAL, dynsym_idx := -2 }
  | _ => { esym_st_bind := STB_GLOBAL }

/-- The dynsym section of scenario S6 after the four insertions. -/
def s6Dynsym : DynsymSection := { symbols := [0, 1, 2, 3], name_indices := [1, 3, 5, 7] }

/-! ## SysV hash table -/

/-- The words that `HashSection::copy_buf` writes: the header `hdr[0]`, `hdr[1]`,
the array `buckets` and the array `chains`, both of `num_slots` words. -/
structure HashTable where
  nbucket : Nat := 0
  nchain : Nat := 0
  buckets : List Nat := []
  chains : List Nat := []
  deriving DecidableEq, Inhabited

/-- `HashSection::update_shdr`: the value of `shdr.sh_size`, computed with
`int` operands. -/
def HashSection.update_shdr (dynsym : DynsymSection) : Nat :=
  let header_size : Int := 8
  let num_slots : Int := toI32 (dynsym.symbols.length + 1)
  intToU64 (toI32 (header_size + toI32 (num_slots * 8)))

/-- The loop of `HashSection::copy_buf` over the remaining symbols.  The
function `elf_hash` is declared outside the translated file and is a parameter;
its result is a `u32`.  A store to `chains` outside the array is not modelled:
the result is `none`. -/
def HashSection.insert_loop (elf_hash : Bytes → Nat) (syms : SymId → Symbol)
    (num_slots : Nat) : List SymId → HashTable → Option HashTable
  | [], t => some t
  | s :: rest, t =>
    let i := u32 (elf_hash (syms s).name) % num_slots
    let idx := (syms s).dynsym_idx
    if 0 ≤ idx ∧ idx < num_slots then
      HashSection.insert_loop elf_hash syms num_slots rest
        { t with chains := t.chains.set idx.toNat (t.buckets.getD i 0)
                 buckets := t.buckets.set i idx.toNat }
    else none

/-- `HashSection::copy_buf`: the table written at the section's base after the
`memset` to zero, for a section sized by `HashSection::update_shdr` (the
`memset` over `sh_size` bytes then clears the header and both arrays).  A
non-positive `int num_slots` is not modelled (`none`). -/
def HashSection.copy_buf (elf_hash : Bytes → Nat) (syms : SymId → Symbol)
    (dynsym : DynsymSection) : Option HashTable :=
  let num_slots : Int := toI32 (dynsym.symbols.length + 1)
  if num_slots ≤ 0 then none
  else
    HashSection.insert_loop elf_hash syms num_slots.toNat dynsym.symbols
      { nbucket := num_slots.toNat, nchain := num_slots.toNat
        buckets := List.replicate num_slots.toNat 0
        chains := List.replicate num_slots.toNat 0 }

/-- The symbol indices that a SysV hash lookup visits: start at
`buckets[h % nbucket]` and follow `chains` until the terminator 0.  The walk
is cut after `fuel` steps. -/
def chain_walk (chains : List Nat) : Nat → Nat → List Nat
  | 0, _ => []
  | fuel + 1, y => if y = 0 then [] else y :: chain_walk chains fuel (chains.getD y 0)

/-- The indices visited by the lookup of hash value `h` in table `t`, cut after
`nchain` steps (a chain without repetition has fewer than `nchain` entries). -/
def HashTable.lookup (t : HashTable) (h : Nat) : List Nat :=
  chain_walk t.chains t.nchain (t.buckets.getD (h % t.nbucket) 0)

/-- The list `l` is the chain that starts at index `y`: its entries are
non-zero, each is followed by its `chains` entry, and the terminator 0 follows
the last one. -/
def IsChain (chains : List Nat) : Nat → List Nat → Prop
  | y, [] => y = 0
  | y, x :: l => y = x ∧ x ≠ 0 ∧ IsChain chains (chains.getD x 0) l

/-- A hash function for examples: the sum of the bytes. -/
def byteSum (name : Bytes) : Nat := (name.map UInt8.toNat).sum

/-- The store of scenario S6 after `sort_symbols`. -/
def s6Sorted : SymId → Symbol := (DynsymSection.sort_symbols s6Store s6Dynsym).1

/-- The dynsym section of scenario S6 after `sort_symbols`. -/
def s6SortedDynsym : DynsymSection := (DynsymSection.sort_symbols s6Store s6Dynsym).2

/-- The bucket of a symbol: `elf_hash(sym->name) % num_slots`. -/
def hash_slot (elf_hash : Bytes → Nat) (syms : SymId → Symbol) (num_slots : Nat)
    (s : SymId) : Nat :=
  u32 (elf_hash (syms s).name) % num_slots

/-- The indices of the symbols of `done` that fall into bucket `b`, the one
inserted last first. -/
def bucket_chain (elf_hash : Bytes → Nat) (syms : SymId → Symbol) (num_slots : Nat)
    (done : List SymId) (b : Nat) : List Nat :=
  (done.reverse.filter fun s => hash_slot elf_hash syms num_slots s = b).map
    fun s => (syms s).dynsym_idx.toNat

/-- A hash function that sends every name to bucket 0. -/
def constHash (_name : Bytes) : Nat := 0

/-- A store of three symbols with the indices 1, 2, 3 that `sort_symbols`
assigns. -/
def hashStore : SymId → Symbol := fun s =>
  match s with
  | 0 => { name := [0x61], dynsym_idx := 1 }
  | 1 => { name := [0x62], dynsym_idx := 2 }
  | 2 => { name := [0x63], dynsym_idx := 3 }
  | _ => {}

/-- The dynsym section holding the three symbols of `hashStore`. -/
def hashDynsym : DynsymSection := { symbols := [0, 1, 2], name_indices := [1, 3, 5] }

/-! ## Symbol requests: GOT, PLT and copy relocations -/

/-- The state of `PltSection`: `shdr.sh_size`, `shdr.sh_addr` and the vector
`symbols`. -/
structure PltSection where
  sh_size : Nat := 0
  sh_addr : Nat := 0
  symbols : List SymId := []
  deriving DecidableEq, Inhabited

/-- The state of `CopyrelSection`: `shdr.sh_size`, `shdr.sh_addralign` and the
vector `symbols`. -/
structure CopyrelSection where
  sh_size : Nat := 0
  sh_addralign : Nat := 0
  symbols : List SymId := []
  deriving DecidableEq, Inhabited

/-- The part of the process-wide state that the symbol requests change: the
symbol objects, `out::dynstr`, `out::dynsym`, `out::got`, `out::plt`,
`out::copyrel` and the sizes of `out::gotplt` and `out::relplt`. -/
structure Ctx where
  syms : SymId → Symbol
  dynstr : DynstrSection := {}
  dynsym : DynsymSection := {}
  got : GotSection := {}
  plt : PltSection := {}
  copyrel : CopyrelSection := {}
  gotplt_sh_size : Nat := 0
  relplt_sh_size : Nat := 0

/-- `DynsymSection::add_symbol` on the process-wide state. -/
def Ctx.dynsym_add_symbol (ctx : Ctx) (sym : SymId) : Ctx :=
  let r := ctx.dynsym.add_symbol ctx.syms ctx.dynstr sym
  { ctx with syms := r.1, dynstr := r.2.1, dynsym := r.2.2 }

/-- `GotSection::add_got_symbol`; a failed `assert` is `none`. -/
def GotSection.add_got_symbol (ctx : Ctx) (sym : SymId) : Option Ctx :=
  if (ctx.syms sym).got_idx ≠ -1 then none
  else
    some { ctx with
      syms := Function.update ctx.syms sym
        { ctx.syms sym with got_idx := toI32 (ctx.got.sh_size / GOT_SIZE : Nat) }
      got := { ctx.got with sh_size := u64 (ctx.got.sh_size + GOT_SIZE)
                            got_syms := ctx.got.got_syms ++ [sym] } }

/-- `GotSection::add_tlsld`. -/
def GotSection.add_tlsld (self : GotSection) : GotSection :=
  if self.tlsld_idx ≠ -1 then self
  else
    { self with tlsld_idx := toI32 (self.sh_size / GOT_SIZE : Nat)
                sh_size := u64 (self.sh_size + GOT_SIZE * 2) }

/-- `PltSection::add_symbol`; a failed `assert` is `none`. -/
def PltSection.add_symbol (ctx : Ctx) (sym : SymId) : Option Ctx :=
  if (ctx.syms sym).plt_idx ≠ -1 then none
  else
    let ctx1 : Ctx := { ctx with
      syms := Function.update ctx.syms sym
        { ctx.syms sym with plt_idx := toI32 (ctx.plt.sh_size / PLT_SIZE : Nat) }
      plt := { ctx.plt with sh_size := u64 (ctx.plt.sh_size + PLT_SIZE)
                            symbols := ctx.plt.symbols ++ [sym] } }
    if (ctx1.syms sym).got_idx = -1 then
      let ctx2 : Ctx := { ctx1 with
        syms := Function.update ctx1.syms sym
          { ctx1.syms sym with
            gotplt_idx := toI32 (ctx1.gotplt_sh_size / GOT_SIZE : Nat)
            has_relplt := true }
        gotplt_sh_size := u64 (ctx1.gotplt_sh_size + GOT_SIZE)
        relplt_sh_size := u64 (ctx1.relplt_sh_size + sizeof_ElfRela) }
      some (ctx2.dynsym_add_symbol sym)
    else some ctx1

/-- `CopyrelSection::add_symbol`; a failed `assert` is `none`.  The helper
`align_to` is declared outside the translated file and is a parameter. -/
def CopyrelSection.add_symbol (align_to : Nat → Nat → Nat) (ctx : Ctx) (sym : SymId) :
    Option Ctx :=
  if (ctx.syms sym).is_imported = false then none
  else if (ctx.syms sym).has_copyrel then some ctx
  else
    let size1 := align_to ctx.copyrel.sh_size ctx.copyrel.sh_addralign
    let ctx1 : Ctx := { ctx with
      syms := Function.update ctx.syms sym
        { ctx.syms sym with value := size1, has_copyrel := true }
      copyrel := { ctx.copyrel with
        sh_size := u64 (size1 + (ctx.syms sym).esym_st_size)
        symbols := ctx.copyrel.symbols ++ [sym] } }
    some (ctx1.dynsym_add_symbol sym)

/-- A sequence of `CopyrelSection::add_symbol` calls. -/
def CopyrelSection.add_symbols (align_to : Nat → Nat → Nat) : Ctx → List SymId → Option Ctx
  | ctx, [] => some ctx
  | ctx, sym :: rest =>
    match CopyrelSection.add_symbol align_to ctx sym with
    | some ctx1 => CopyrelSection.add_symbols align_to ctx1 rest
    | none => none

/-- A request to the GOT or to the PLT. -/
inductive GotPltCall where
  | got (sym : SymId)
  | plt (sym : SymId)
  deriving DecidableEq

/-- A sequence of `GotSection::add_got_symbol` and `PltSection::add_symbol`
calls; `none` when an assertion fails on the way. -/
def run_got_plt : Ctx → List GotPltCall → Option Ctx
  | ctx, [] => some ctx
  | ctx, GotPltCall.got sym :: rest =>
    match GotSection.add_got_symbol ctx sym with
    | some ctx1 => run_got_plt ctx1 rest
    | none => none
  | ctx, GotPltCall.plt sym :: rest =>
    match PltSection.add_symbol ctx sym with
    | some ctx1 => run_got_plt ctx1 rest
    | none => none

/-- No symbol is given to `add_got_symbol` after it was given to
`PltSection::add_symbol`. -/
def got_calls_first : List GotPltCall → Bool
  | [] => true
  | GotPltCall.got _ :: rest => got_calls_first rest
  | GotPltCall.plt sym :: rest =>
    !(rest.contains (GotPltCall.got sym)) && got_calls_first rest

/-- All GOT and PLT indices of the symbol are -1. -/
def Symbol.unallocated (sym : Symbol) : Prop :=
  sym.got_idx = -1 ∧ sym.gotplt_idx = -1 ∧ sym.plt_idx = -1
  ∧ sym.gottpoff_idx = -1 ∧ sym.tlsgd_idx = -1

/-- The dynsym vector holds no pointer twice and holds exactly the symbols
with `dynsym_idx != -1`. -/
def Ctx.dynsym_consistent (ctx : Ctx) : Prop :=
  ctx.dynsym.symbols.Nodup ∧ ∀ s, s ∈ ctx.dynsym.symbols ↔ (ctx.syms s).dynsym_idx ≠ -1

/-- The copyrel vector holds no pointer twice and holds exactly the symbols
with `has_copyrel`. -/
def Ctx.copyrel_consistent (ctx : Ctx) : Prop :=
  ctx.copyrel.symbols.Nodup ∧ ∀ s, s ∈ ctx.copyrel.symbols ↔ (ctx.syms s).has_copyrel = true

/-- Rounding up to a multiple of the alignment, for examples. -/
def round_up (val align : Nat) : Nat := (val + align - 1) / align * align

/-- A fresh state: no symbol has any index, `.plt` holds PLT[0], `.got.plt`
its three reserved entries, `.bss` is aligned to 32 bytes; every symbol is an
imported object of 12 bytes. -/
def freshCtx : Ctx :=
  { syms := fun _ => { name := [0x78], is_imported := true, esym_st_size := 12 }
    plt := { sh_size := 16 }
    gotplt_sh_size := 24
    copyrel := { sh_size := 0, sh_addralign := 32 } }

/-! ## Unwind frames -/

/-- The section header fields of an `InputSection` that
`EhFrameSection::finalize_contents` reads. -/
structure InputSection where
  sh_type : Nat := 0
  sh_size : Nat := 0
  deriving DecidableEq, Inhabited

/-- The state of `EhFrameSection`: the vectors `members` and `contents`. -/
structure EhFrameSection where
  members : List InputSection := []
  contents : List Bytes := []
  deriving DecidableEq, Inhabited

/-- `std::vector<u8>::resize(n)`: the first `n` bytes, padded with zeros. -/
def resize (b : Bytes) (n : Nat) : Bytes := b.take n ++ List.replicate (n - b.length) 0

/-- The loop of `EhFrameSection::finalize_contents` from index `i` on.  The
methods `copy_contents` and `apply_reloc_alloc` of `InputSection` are declared
outside the translated file: `render isec buf` is the buffer after both calls.
The statement `return` ends the loop. -/
def EhFrameSection.finalize_loop (render : InputSection → Bytes → Bytes) :
    List InputSection → Nat → List Bytes → List Bytes
  | [], _, contents => contents
  | isec :: rest, i, contents =>
    if isec.sh_type = SHT_NOBITS ∨ isec.sh_size = 0 then contents
    else
      EhFrameSection.finalize_loop render rest (i + 1)
        (contents.set i (render isec (resize (contents.getD i []) isec.sh_size)))

/-- `EhFrameSection::finalize_contents`. -/
def EhFrameSection.finalize_contents (render : InputSection → Bytes → Bytes)
    (self : EhFrameSection) : EhFrameSection :=
  { self with contents := EhFrameSection.finalize_loop render self.members 0 self.contents }

/-- The call `memcpy(base + off, src.data(), src.size())` on a buffer addressed
from the section's base. -/
def memcpy (buf : Int → UInt8) (off : Int) (src : Bytes) : Int → UInt8 :=
  fun a => if off ≤ a ∧ a < off + src.length then src.getD (a - off).toNat 0 else buf a

/-- The loop of `EhFrameSection::copy_buf` over the remaining buffers, with the
running `u64 offset`; `n` is `contents.size()`, the length of the outer
vector. -/
def EhFrameSection.copy_buf_loop (n : Nat) : List Bytes → Nat → (Int → UInt8) → (Int → UInt8)
  | [], _, buf => buf
  | b :: rest, offset, buf =>
    EhFrameSection.copy_buf_loop n rest (u64 (offset + n)) (memcpy buf offset b)

/-- `EhFrameSection::copy_buf`: the buffer, addressed from the section's base. -/
def EhFrameSection.copy_buf (self : EhFrameSection) (buf : Int → UInt8) : Int → UInt8 :=
  EhFrameSection.copy_buf_loop self.contents.length self.contents 0 buf

/-- The bytes of a buffer at the offsets `0 .. n - 1`. -/
def dump (buf : Int → UInt8) (n : Nat) : Bytes := (List.range n).map fun k => buf k

/-- An `.eh_frame` section with two members of three bytes each. -/
def ehTwoMembers : EhFrameSection :=
  { members := [{ sh_type := SHT_PROGBITS, sh_size := 3 },
                { sh_type := SHT_PROGBITS, sh_size := 3 }]
    contents := [[1, 2, 3], [4, 5, 6]] }

/-- An `.eh_frame` section whose first member is empty and whose second member
has four bytes, before `finalize_contents`. -/
def ehEmptyFirst : EhFrameSection :=
  { members := [{ sh_type := SHT_PROGBITS, sh_size := 0 },
                { sh_type := SHT_PROGBITS, sh_size := 4 }]
    contents := [[], []] }

/-- A rendering for examples: every byte of the member is 0xAA. -/
def renderFill (_isec : InputSection) (buf : Bytes) : Bytes := buf.map fun _ => 0xAA

/-! ## Emission of the dynamic symbol table -/

/-- Modelled from the spec: section index `SHN_UNDEF` of elf.h. -/
def SHN_UNDEF : Nat := 0
/-- Modelled from the spec: section index `SHN_ABS` of elf.h. -/
def SHN_ABS : Nat := 0xfff1
/-- Modelled from the spec: symbol type `STT_TLS` of elf.h. -/
def STT_TLS : Nat := 6

/-- The fields of an `ElfSym` record that `DynsymSection::copy_buf` writes;
`memset` leaves every field zero. -/
structure ElfSym where
  st_name : Nat := 0
  st_type : Nat := 0
  st_bind : Nat := 0
  st_size : Nat := 0
  st_shndx : Nat := 0
  st_value : Nat := 0
  deriving DecidableEq, Inhabited

/-- The record that one iteration of `DynsymSection::copy_buf` writes for the
symbol `sym` with the name offset `name_index`. -/
def DynsymSection.make_esym (copyrel_shndx tls_begin : Nat) (sym : Symbol)
    (name_index : Nat) : ElfSym :=
  let esym : ElfSym :=
    { st_name := name_index, st_type := sym.st_type, st_bind := sym.esym_st_bind
      st_size := sym.esym_st_size }
  if sym.has_copyrel then
    { esym with st_shndx := copyrel_shndx, st_value := sym.addr }
  else if sym.is_imported || sym.esym_is_undef then
    { esym with st_shndx := SHN_UNDEF }
  else if !sym.has_input_section then
    { esym with st_shndx := SHN_ABS, st_value := sym.addr }
  else if sym.st_type = STT_TLS then
    { esym with st_shndx := sym.output_shndx, st_value := sub64 sym.addr tls_begin }
  else
    { esym with st_shndx := sym.output_shndx, st_value := sym.addr }

/-- The loop of `DynsymSection::copy_buf` from index `i` on.  The table of
`ElfSym` records is addressed by the record index from the section's base: the
record of a symbol lies at `base + dynsym_idx * sizeof(ElfSym)`. -/
def DynsymSection.copy_buf_loop (syms : SymId → Symbol) (copyrel_shndx tls_begin : Nat)
    (name_indices : List Nat) : List SymId → Nat → (Int → ElfSym) → (Int → ElfSym)
  | [], _, table => table
  | s :: rest, i, table =>
    DynsymSection.copy_buf_loop syms copyrel_shndx tls_begin name_indices rest (i + 1)
      (Function.update table (syms s).dynsym_idx
        (DynsymSection.make_esym copyrel_shndx tls_begin (syms s) (name_indices.getD i 0)))

/-- `DynsymSection::copy_buf`: the table of records after the `memset` of
record 0 and the loop. -/
def DynsymSection.copy_buf (syms : SymId → Symbol) (copyrel_shndx tls_begin : Nat)
    (self : DynsymSection) (table : Int → ElfSym) : Int → ElfSym :=
  DynsymSection.copy_buf_loop syms copyrel_shndx tls_begin self.name_indices self.symbols 0
    (Function.update table 0 {})

/-- Two defined symbols, none in dynsym yet: 0 is the global `aa`, 1 is the
local `b`. -/
def mixedStore : SymId → Symbol := fun s =>
  match s with
  | 0 => { name := [0x61, 0x61], esym_st_bind := STB_GLOBAL, has_input_section := true }
  | 1 => { name := [0x62], esym_st_bind := STB_LOCAL, has_input_section := true }
  | _ => {}

/-- The state after `add_symbol` on the global `aa` and then on the local `b`. -/
def mixedAdded : (SymId → Symbol) × DynstrSection × DynsymSection :=
  DynsymSection.add_symbols mixedStore DynstrSection.init {} [0, 1]

/-- The state of `mixedAdded` after `sort_symbols`. -/
def mixedSorted : (SymId → Symbol) × DynsymSection :=
  DynsymSection.sort_symbols mixedAdded.1 mixedAdded.2.2

/-! ## Output-section interning -/

/-- Modelled from the spec: section type `SHT_X86_64_UNWIND` of elf.h. -/
def SHT_X86_64_UNWIND : Nat := 0x70000001
/-- Modelled from the spec: section flag `SHF_GROUP` of elf.h. -/
def SHF_GROUP : Nat := 0x200

/-- Modelled from the spec: the mask `~SHF_GROUP` on 64-bit flags.  The type of
the constant `SHF_GROUP` is declared outside the translated file; the mask
clears the SHF_GROUP bit and nothing else ("flags-without-SHF_GROUP"). -/
def not_group : Nat := 2 ^ 64 - 1 - SHF_GROUP

/-- The array `common_names` of `get_output_name`:
`.text.`, `.data.rel.ro.`, `.data.`, `.rodata.`, `.bss.rel.ro.`,
`.bss.`, `.init_array.`, `.fini_array.`, `.tbss.`, `.tdata.`. -/
def common_names : List Bytes :=
  [[0x2e, 0x74, 0x65, 0x78, 0x74, 0x2e],
   [0x2e, 0x64, 0x61, 0x74, 0x61, 0x2e, 0x72, 0x65, 0x6c, 0x2e, 0x72, 0x6f, 0x2e],
   [0x2e, 0x64, 0x61, 0x74, 0x61, 0x2e],
   [0x2e, 0x72, 0x6f, 0x64, 0x61, 0x74, 0x61, 0x2e],
   [0x2e, 0x62, 0x73, 0x73, 0x2e, 0x72, 0x65, 0x6c, 0x2e, 0x72, 0x6f, 0x2e],
   [0x2e, 0x62, 0x73, 0x73, 0x2e],
   [0x2e, 0x69, 0x6e, 0x69, 0x74, 0x5f, 0x61, 0x72, 0x72, 0x61, 0x79, 0x2e],
   [0x2e, 0x66, 0x69, 0x6e, 0x69, 0x5f, 0x61, 0x72, 0x72, 0x61, 0x79, 0x2e],
   [0x2e, 0x74, 0x62, 0x73, 0x73, 0x2e],
   [0x2e, 0x74, 0x64, 0x61, 0x74, 0x61, 0x2e]]

/-- The loop of `get_output_name` over the remaining common names. -/
def get_output_name_loop : List Bytes → Bytes → Bytes
  | [], name => name
  | s1 :: rest, name =>
    let s2 := s1.take (s1.length - 1)
    if s1.isPrefixOf name || name = s2 then s2 else get_output_name_loop rest name

/-- The function `get_output_name`. -/
def get_output_name (name : Bytes) : Bytes := get_output_name_loop common_names name

/-- The bytes of `.eh_frame`. -/
def ehFrameName : Bytes := [0x2e, 0x65, 0x68, 0x5f, 0x66, 0x72, 0x61, 0x6d, 0x65]

/-- An element of `OutputSection::instances`: the name and the section header
fields set by the constructor. -/
structure OutputSection where
  name : Bytes := []
  sh_type : Nat := 0
  sh_flags : Nat := 0
  deriving DecidableEq, Inhabited

/-- The key under which `get_instance` searches: the canonical name, the type
after the `.eh_frame` coercion and the flags without SHF_GROUP. -/
def section_key (name : Bytes) (type flags : Nat) : Bytes × Nat × Nat :=
  (get_output_name name,
   if name = ehFrameName ∧ type = SHT_X86_64_UNWIND then SHT_PROGBITS else type,
   flags &&& not_group)

/-- The key that the lambda `find` compares with: the name, the type and the
flags without SHF_GROUP of a registered section. -/
def OutputSection.key (osec : OutputSection) : Bytes × Nat × Nat :=
  (osec.name, osec.sh_type, osec.sh_flags &&& not_group)

/-- The lambda `find` of `OutputSection::get_instance`: the position in
`OutputSection::instances` of the first section that matches, `none` for
`nullptr`. -/
def OutputSection.find (name : Bytes) (type flags : Nat) : List OutputSection → Option Nat
  | [] => none
  | osec :: rest =>
    if name = osec.name ∧ type = osec.sh_type ∧ flags = osec.sh_flags &&& not_group then some 0
    else (OutputSection.find name type flags rest).map (· + 1)

/-- Modelled from the spec: the constructor `OutputSection(name, type, flags)`
of mold.h, which is not part of the translated file; it sets the name, the
type and the flags and registers the new section at the end of
`OutputSection::instances` ("retry-then-insert", section 4.10). -/
def OutputSection.create (instances : List OutputSection) (name : Bytes) (type flags : Nat) :
    Nat × List OutputSection :=
  (instances.length, instances ++ [{ name := name, sh_type := type, sh_flags := flags }])

/-- `OutputSection::get_instance`, run sequentially: the instance returned (its
position in `OutputSection::instances`) and the registry after the call.  The
lookup is made twice, under the shared and under the exclusive lock. -/
def OutputSection.get_instance (instances : List OutputSection) (name : Bytes)
    (type flags : Nat) : Nat × List OutputSection :=
  let type := if name = ehFrameName ∧ type = SHT_X86_64_UNWIND then SHT_PROGBITS else type
  let name := get_output_name name
  let flags := flags &&& not_group
  match OutputSection.find name type flags instances with
  | some osec => (osec, instances)
  | none =>
    match OutputSection.find name type flags instances with
    | some osec => (osec, instances)
    | none => OutputSection.create instances name type flags

/-- A sequence of `get_instance` calls, each given as name, type and flags:
the registry after the calls. -/
def OutputSection.get_instances : List OutputSection → List (Bytes × Nat × Nat) →
    List OutputSection
  | instances, [] => instances
  | instances, c :: rest =>
    OutputSection.get_instances (OutputSection.get_instance instances c.1 c.2.1 c.2.2).2 rest

/-- The bytes of `.text.foo`. -/
def textFooName : Bytes := [0x2e, 0x74, 0x65, 0x78, 0x74, 0x2e, 0x66, 0x6f, 0x6f]

/-- The bytes of `.text`. -/
def textName : Bytes := [0x2e, 0x74, 0x65, 0x78, 0x74]

/-! ## Section name table -/

/-- The loop of `ShstrtabSection::update_shdr` over the remaining chunks, with
the running `shdr.sh_size`: the chunks with their `sh_name` set, and the final
size.  The field `sh_name` is a `u32`. -/
def ShstrtabSection.update_shdr_loop : List OutputChunk → Nat → List OutputChunk × Nat
  | [], size => ([], size)
  | chunk :: rest, size =>
    if chunk.name ≠ [] then
      let r := ShstrtabSection.update_shdr_loop rest (u64 (size + (chunk.name.length + 1)))
      ({ chunk with shdr := { chunk.shdr with sh_name := u32 size } } :: r.1, r.2)
    else
      let r := ShstrtabSection.update_shdr_loop rest size
      (chunk :: r.1, r.2)

/-- `ShstrtabSection::update_shdr`: `out::chunks` with the name offsets set,
and `shdr.sh_size`. -/
def ShstrtabSection.update_shdr (chunks : List OutputChunk) : List OutputChunk × Nat :=
  ShstrtabSection.update_shdr_loop chunks 1

/-- The loop of `ShstrtabSection::copy_buf` over the remaining chunks, with
the running `int i`. -/
def ShstrtabSection.copy_buf_loop : List OutputChunk → Int → (Int → UInt8) → (Int → UInt8)
  | [], _, buf => buf
  | chunk :: rest, i, buf =>
    if chunk.name ≠ [] then
      ShstrtabSection.copy_buf_loop rest (toI32 (i + (chunk.name.length + 1)))
        (write_string buf i chunk.name)
    else ShstrtabSection.copy_buf_loop rest i buf

/-- `ShstrtabSection::copy_buf`: the buffer, addressed from the section's
base, after `base[0] = 0` and the loop. -/
def ShstrtabSection.copy_buf (chunks : List OutputChunk) (buf : Int → UInt8) : Int → UInt8 :=
  ShstrtabSection.copy_buf_loop chunks 1 (fun a => if a = 0 then 0 else buf a)

/-- The non-empty names of a chunk list, in order. -/
def chunk_names (chunks : List OutputChunk) : List Bytes :=
  (chunks.filter fun c => c.name ≠ []).map fun c => c.name

/-- The NUL-terminated string that starts at offset `off` of a buffer, read for
at most `fuel` bytes. -/
def read_cstring (buf : Int → UInt8) : Int → Nat → Bytes
  | _, 0 => []
  | off, fuel + 1 => if buf off = 0 then [] else buf off :: read_cstring buf (off + 1) fuel

/-- A chunk without a name, as the ELF header chunk. -/
def unnamedChunk : OutputChunk := { shdr := { sh_flags := SHF_ALLOC } }

/-! ## Procedure linkage table -/

/-- The four bytes of a 32-bit value in memory, least significant byte first
(the target is little-endian). -/
def le32 (v : Nat) : Bytes :=
  [UInt8.ofNat (v % 256), UInt8.ofNat (v / 256 % 256), UInt8.ofNat (v / 65536 % 256),
   UInt8.ofNat (v / 16777216 % 256)]

/-- The store `*(u32 *)(base + off) = v`. -/
def write_u32 (buf : Int → UInt8) (off : Int) (v : Nat) : Int → UInt8 :=
  memcpy buf off (le32 v)

/-- The 32-bit value held by the four bytes at `base + off`. -/
def read_u32 (buf : Int → UInt8) (off : Int) : Nat :=
  (buf off).toNat + 256 * (buf (off + 1)).toNat + 65536 * (buf (off + 2)).toNat
    + 16777216 * (buf (off + 3)).toNat

/-- Conversion of a C++ `int` to `u32`. -/
def intToU32 (x : Int) : Nat := (x % 2 ^ 32).toNat

/-- The array `plt0` of `PltSection::copy_buf`, 16 bytes. -/
def plt0 : Bytes :=
  [0xff, 0x35, 0, 0, 0, 0,
   0xff, 0x25, 0, 0, 0, 0,
   0x0f, 0x1f, 0x40, 0x00]

/-- The array `data` of the branch `gotplt_idx != -1`, 16 bytes. -/
def plt_lazy_stub : Bytes :=
  [0xff, 0x25, 0, 0, 0, 0,
   0x68, 0, 0, 0, 0,
   0xe9, 0, 0, 0, 0]

/-- The array `data` of the other branch, as written in the source: 6 bytes
and 11 bytes. -/
def plt_got_stub : Bytes :=
  [0xff, 0x25, 0, 0, 0, 0,
   0x66, 0x66, 0x66, 0x0f, 0x1f, 0x84, 0, 0, 0, 0, 0]

/-- The body of the loop of `PltSection::copy_buf` for one symbol: the buffer
after the stores, for the running `relplt_idx`.  `sh_addr` is the address of
`.plt`. -/
def PltSection.write_entry (sh_addr : Nat) (sym : Symbol) (relplt_idx : Int)
    (buf : Int → UInt8) : Int → UInt8 :=
  let ent : Int := sym.plt_idx * PLT_SIZE
  if sym.gotplt_idx ≠ -1 then
    let buf := memcpy buf ent plt_lazy_stub
    let buf := write_u32 buf (ent + 2) (u32 (sub64 (sub64 sym.gotplt_addr sym.plt_addr) 6))
    let buf := write_u32 buf (ent + 7) (intToU32 relplt_idx)
    write_u32 buf (ent + 12) (u32 (sub64 (sub64 sh_addr sym.plt_addr) 16))
  else
    let buf := memcpy buf ent plt_got_stub
    write_u32 buf (ent + 2) (u32 (sub64 (sub64 sym.got_addr sym.plt_addr) 6))

/-- The loop of `PltSection::copy_buf` over the remaining symbols, with the
running `int relplt_idx`. -/
def PltSection.copy_buf_loop (sh_addr : Nat) (syms : SymId → Symbol) :
    List SymId → Int → (Int → UInt8) → (Int → UInt8)
  | [], _, buf => buf
  | s :: rest, relplt_idx, buf =>
    PltSection.copy_buf_loop sh_addr syms rest
      (if (syms s).gotplt_idx ≠ -1 then toI32 (relplt_idx + 1) else relplt_idx)
      (PltSection.write_entry sh_addr (syms s) relplt_idx buf)

/-- `PltSection::copy_buf`: the buffer, addressed from the section's base.
`gotplt_sh_addr` is `out::gotplt->shdr.sh_addr`. -/
def PltSection.copy_buf (self : PltSection) (gotplt_sh_addr : Nat) (syms : SymId → Symbol)
    (buf : Int → UInt8) : Int → UInt8 :=
  let buf := memcpy buf 0 plt0
  let buf := write_u32 buf 2 (u32 (add64 (sub64 gotplt_sh_addr self.sh_addr) 2))
  let buf := write_u32 buf 8 (u32 (add64 (sub64 gotplt_sh_addr self.sh_addr) 4))
  PltSection.copy_buf_loop self.sh_addr syms self.symbols 0 buf

/-- A `.plt` at 0x1000 with two entries behind PLT[0]. -/
def pltTwo : PltSection := { sh_size := 48, sh_addr := 0x1000, symbols := [0, 1] }

/-- The symbols of `pltTwo`: 0 has a GOTPLT slot at 0x3018, 1 has a GOT slot
at 0x2ff8. -/
def pltStore : SymId → Symbol := fun s =>
  match s with
  | 0 => { plt_idx := 1, gotplt_idx := 3, has_relplt := true, plt_addr := 0x1010,
           gotplt_addr := 0x3018 }
  | 1 => { plt_idx := 2, got_idx := 0, plt_addr := 0x1020, got_addr := 0x2ff8 }
  | _ => {}

/-! ## Relocations of the PLT -/

/-- Modelled from the spec: relocation type `R_X86_64_JUMP_SLOT` of elf.h. -/
def R_X86_64_JUMP_SLOT : Nat := 7
/-- Modelled from the spec: relocation type `R_X86_64_IRELATIVE` of elf.h. -/
def R_X86_64_IRELATIVE : Nat := 37
/-- Modelled from the spec: symbol type `STT_GNU_IFUNC` of elf.h. -/
def STT_GNU_IFUNC : Nat := 10

/-- A sequence of `PltSection::add_symbol` calls; `none` when an assertion
fails on the way. -/
def PltSection.add_symbols : Ctx → List SymId → Option Ctx
  | ctx, [] => some ctx
  | ctx, sym :: rest =>
    match PltSection.add_symbol ctx sym with
    | some ctx1 => PltSection.add_symbols ctx1 rest
    | none => none

/-- The record that one iteration of `RelPltSection::copy_buf` leaves for a
symbol with `has_relplt`: all zero after the `memset`, then `r_sym`,
`r_offset`, `r_type` and, for an IFUNC, `r_addend`. -/
def RelPltSection.make_rela (sym : Symbol) : ElfRela :=
  if sym.st_type = STT_GNU_IFUNC then
    ⟨sym.gotplt_addr, R_X86_64_IRELATIVE, sym.dynsym_idx, sym.addr⟩
  else
    ⟨sym.gotplt_addr, R_X86_64_JUMP_SLOT, sym.dynsym_idx, 0⟩

/-- The loop of `RelPltSection::copy_buf` over the remaining symbols of
`out::plt->symbols`, with the running `int relplt_idx`.  The table of `ElfRela`
records is addressed by the record index from the section's base. -/
def RelPltSection.copy_buf_loop (syms : SymId → Symbol) :
    List SymId → Int → (Int → ElfRela) → (Int → ElfRela)
  | [], _, table => table
  | s :: rest, relplt_idx, table =>
    if (syms s).has_relplt = false then
      RelPltSection.copy_buf_loop syms rest relplt_idx table
    else
      RelPltSection.copy_buf_loop syms rest (toI32 (relplt_idx + 1))
        (Function.update table relplt_idx (RelPltSection.make_rela (syms s)))

/-- `RelPltSection::copy_buf`: the table of records after the `memset` over
`sh_size` bytes and the loop.  The `memset` clears the records that lie within
`sh_size` (which is a multiple of `sizeof(ElfRela)` whenever it was grown by
`PltSection::add_symbol` from zero). -/
def RelPltSection.copy_buf (sh_size : Nat) (syms : SymId → Symbol) (plt_symbols : List SymId)
    (table : Int → ElfRela) : Int → ElfRela :=
  RelPltSection.copy_buf_loop syms plt_symbols 0
    (fun i => if 0 ≤ i ∧ i < (sh_size / sizeof_ElfRela : Nat) then ⟨0, 0, 0, 0⟩ else table i)

/-- The invariant of the PLT requests, for the sizes `p0` of `.plt` and `g0`
of `.got.plt` at the start (in bytes): the sizes count the entries, a symbol
has `has_relplt` exactly when it has a GOTPLT slot, the PLT indices of the
symbols in `symbols` are pairwise different entries below the current size,
and only symbols in `symbols` have `has_relplt`. -/
def Ctx.plt_consistent (p0 g0 : Nat) (ctx : Ctx) : Prop :=
  ctx.plt.sh_size = p0 + 16 * ctx.plt.symbols.length
  ∧ ctx.gotplt_sh_size
      = g0 + 8 * ctx.plt.symbols.countP (fun s => (ctx.syms s).has_relplt)
  ∧ ctx.relplt_sh_size
      = 24 * ctx.plt.symbols.countP (fun s => (ctx.syms s).has_relplt)
  ∧ (∀ s, (ctx.syms s).has_relplt = true ↔ (ctx.syms s).gotplt_idx ≠ -1)
  ∧ (∀ s ∈ ctx.plt.symbols,
      0 ≤ (ctx.syms s).plt_idx ∧ (ctx.syms s).plt_idx < (ctx.plt.sh_size / 16 : Nat))
  ∧ (ctx.plt.symbols.map fun s => (ctx.syms s).plt_idx).Nodup
  ∧ (∀ s, (ctx.syms s).has_relplt = true → s ∈ ctx.plt.symbols)

/-- A state before any PLT request: symbol 1 has a GOT slot already; the
GOTPLT address of symbol 0 is 0x3018, that of the other symbols 0x3020. -/
def pltFreshCtx : Ctx :=
  { syms := fun s =>
      { name := [0x66], got_idx := if s = 1 then 0 else -1
        gotplt_addr := if s = 0 then 0x3018 else 0x3020, got_addr := 0x2ff8 }
    plt := { sh_size := 16, sh_addr := 0x1000 }
    gotplt_sh_size := 24 }

/-! ## GOT requests -/

/-- `GotSection::add_gottpoff_symbol`; a failed `assert` is `none`. -/
def GotSection.add_gottpoff_symbol (ctx : Ctx) (sym : SymId) : Option Ctx :=
  if (ctx.syms sym).gottpoff_idx ≠ -1 then none
  else
    some { ctx with
      syms := Function.update ctx.syms sym
        { ctx.syms sym with gottpoff_idx := toI32 (ctx.got.sh_size / GOT_SIZE : Nat) }
      got := { ctx.got with sh_size := u64 (ctx.got.sh_size + GOT_SIZE)
                            gottpoff_syms := ctx.got.gottpoff_syms ++ [sym] } }

/-- `GotSection::add_tlsgd_symbol`; a failed `assert` is `none`. -/
def GotSection.add_tlsgd_symbol (ctx : Ctx) (sym : SymId) : Option Ctx :=
  if (ctx.syms sym).tlsgd_idx ≠ -1 then none
  else
    some { ctx with
      syms := Function.update ctx.syms sym
        { ctx.syms sym with tlsgd_idx := toI32 (ctx.got.sh_size / GOT_SIZE : Nat) }
      got := { ctx.got with sh_size := u64 (ctx.got.sh_size + GOT_SIZE * 2)
                            tlsgd_syms := ctx.got.tlsgd_syms ++ [sym] } }

/-- A request to the GOT. -/
inductive GotCall where
  | got (sym : SymId)
  | gottpoff (sym : SymId)
  | tlsgd (sym : SymId)
  | tlsld
  deriving DecidableEq

/-- One request to the GOT: `add_got_symbol`, `add_gottpoff_symbol`,
`add_tlsgd_symbol` or `add_tlsld`. -/
def GotCall.run (ctx : Ctx) : GotCall → Option Ctx
  | GotCall.got sym => GotSection.add_got_symbol ctx sym
  | GotCall.gottpoff sym => GotSection.add_gottpoff_symbol ctx sym
  | GotCall.tlsgd sym => GotSection.add_tlsgd_symbol ctx sym
  | GotCall.tlsld => some { ctx with got := ctx.got.add_tlsld }

/-- A sequence of requests to the GOT; `none` when an assertion fails on the
way. -/
def run_got : Ctx → List GotCall → Option Ctx
  | ctx, [] => some ctx
  | ctx, c :: rest =>
    match c.run ctx with
    | some ctx1 => run_got ctx1 rest
    | none => none

/-- The GOT slots allocated in a state: `got_idx` of the symbols in
`got_syms`, `gottpoff_idx` of those in `gottpoff_syms`, `tlsgd_idx` and
`tlsgd_idx + 1` of those in `tlsgd_syms`, and `tlsld_idx`, `tlsld_idx + 1` when
`tlsld_idx != -1`. -/
def got_slots (ctx : Ctx) : List Int :=
  (ctx.got.got_syms.map fun s => (ctx.syms s).got_idx)
  ++ (ctx.got.gottpoff_syms.map fun s => (ctx.syms s).gottpoff_idx)
  ++ (ctx.got.tlsgd_syms.map fun s => [(ctx.syms s).tlsgd_idx, (ctx.syms s).tlsgd_idx + 1]).flatten
  ++ (if ctx.got.tlsld_idx ≠ -1 then [ctx.got.tlsld_idx, ctx.got.tlsld_idx + 1] else [])

/-- The slots `0 .. n - 1`. -/
def slot_range (n : Nat) : List Int := (List.range n).map Int.ofNat

/-- The invariant of the GOT requests: the section size counts the allocated
slots, which are the slots below the size, and the registered symbols have
their index set. -/
def Ctx.got_consistent (ctx : Ctx) : Prop :=
  ctx.got.sh_size = 8 * (got_slots ctx).length
  ∧ (got_slots ctx).Perm (slot_range (got_slots ctx).length)
  ∧ (∀ s ∈ ctx.got.got_syms, (ctx.syms s).got_idx ≠ -1)
  ∧ (∀ s ∈ ctx.got.gottpoff_syms, (ctx.syms s).gottpoff_idx ≠ -1)
  ∧ (∀ s ∈ ctx.got.tlsgd_syms, (ctx.syms s).tlsgd_idx ≠ -1)

/-- A state with an empty GOT and no index set on any symbol. -/
def gotFreshCtx : Ctx := { syms := fun _ => {} }

/-! # Theorems -/

/-- C1 (code defect): with one imported GOTTPOFF symbol and nothing else,
`RelDynSection::copy_buf` writes one record (the documented count is 1) while
`RelDynSection::update_shdr` sizes the section for zero records. -/
theorem reldyn_update_shdr_misses_gottpoff :
    (RelDynSection.update_shdr false importedStore gotOneGottpoff [] [] 0 {}).1.sh_size
        / sizeof_ElfRela = 0
    ∧ RelDynSection.expected_count false importedStore gotOneGottpoff [] [] = 1
    ∧ (RelDynSection.copy_buf false importedStore gotOneGottpoff []).length = 1 := by
  decide

/-! ## Machine arithmetic -/

theorem sub64_add64_self (a b : Nat) (hb : b < 2 ^ 64) : sub64 (add64 a b) a = b := by
  unfold sub64 add64
  omega

theorem sub64_add64_zero (a b : Nat) : sub64 (add64 a 0) b = sub64 a b := by
  unfold sub64 add64
  omega

/-! ## Program headers: what `define` and `append` maintain -/

theorem foldr_max_append (l : List Nat) (x : Nat) :
    (l ++ [x]).foldr max 0 = max (l.foldr max 0) x := by
  induction l with
  | nil => simp
  | cons a l ih => simp [ih, max_assoc]

theorem define_spans (t f a : Nat) (F : OutputChunk) : (define t f a F).Spans F := by
  refine ⟨rfl, rfl, rfl, rfl, ?_, ?_⟩
  · simp [define]
  · intro hF L hL
    have hLF : L = F := by simpa [define] using hL.symm
    subst hLF
    constructor
    · simp only [define, file_end]
      split_ifs with h
      · rw [sub64_add64_zero]; unfold sub64; omega
      · rw [sub64_add64_self _ _ hF]
    · simp only [define]
      rw [sub64_add64_self _ _ hF]

theorem append_spans (S : Segment) (F c : OutputChunk) (h : S.Spans F) :
    (append S c).Spans F := by
  obtain ⟨h1, h2, h3, h4, h5, _⟩ := h
  refine ⟨?_, h2, h3, h4, ?_, ?_⟩
  · cases hm : S.members with
    | nil => simp [hm] at h1
    | cons x xs => simpa [append, hm] using h1
  · simp only [append, List.map_append, List.map_cons, List.map_nil, foldr_max_append, h5,
      max_assoc]
  · intro _ L hL
    have hLc : L = c := by simpa [append] using hL.symm
    subst hLc
    constructor
    · simp only [append, file_end]
      split_ifs with h
      · rw [sub64_add64_zero]
      · rfl
    · simp only [append]

theorem append_while_spans (p : OutputChunk → Bool) (F : OutputChunk) :
    ∀ (cs : List OutputChunk) (S : Segment), S.Spans F → (append_while p S cs).1.Spans F := by
  intro cs
  induction cs with
  | nil => intro S h; simpa [append_while] using h
  | cons c cs ih =>
    intro S h
    simp only [append_while]
    split_ifs with hp
    · exact ih _ (append_spans S F c h)
    · exact h

theorem append_while_type (p : OutputChunk → Bool) :
    ∀ (cs : List OutputChunk) (S : Segment),
      (append_while p S cs).1.phdr.p_type = S.phdr.p_type
      ∧ (append_while p S cs).1.phdr.p_flags = S.phdr.p_flags
      ∧ (append_while p S cs).1.requested = S.requested := by
  intro cs
  induction cs with
  | nil => intro S; simp [append_while]
  | cons c cs ih =>
    intro S
    simp only [append_while]
    split_ifs with hp
    · simpa [append] using ih (append S c)
    · simp

theorem append_while_members (p : OutputChunk → Bool) :
    ∀ (cs : List OutputChunk) (S : Segment) (C : OutputChunk),
      C ∈ (append_while p S cs).1.members → C ∈ S.members ∨ p C = true := by
  intro cs
  induction cs with
  | nil => intro S C h; left; simpa [append_while] using h
  | cons c cs ih =>
    intro S C h
    simp only [append_while] at h
    split_ifs at h with hp
    · rcases ih _ _ h with h1 | h1
      · simp only [append, List.mem_append, List.mem_singleton] at h1
        rcases h1 with h1 | h1
        · exact Or.inl h1
        · right; rw [h1]; exact hp
      · exact Or.inr h1
    · exact Or.inl h

theorem append_while_length (p : OutputChunk → Bool) :
    ∀ (cs : List OutputChunk) (S : Segment), (append_while p S cs).2.length ≤ cs.length := by
  intro cs
  induction cs with
  | nil => intro S; simp [append_while]
  | cons c cs ih =>
    intro S
    simp only [append_while]
    split_ifs with hp
    · exact Nat.le_succ_of_le (ih _)
    · simp

/-! ## Program headers: the three grouping loops -/

theorem load_group_spec (first : OutputChunk) (rest : List OutputChunk) :
    (load_group first rest).1.Spans first
    ∧ (load_group first rest).1.phdr.p_type = PT_LOAD
    ∧ (load_group first rest).1.phdr.p_flags = to_phdr_flags first
    ∧ (load_group first rest).1.requested = PAGE_SIZE
    ∧ (∀ C ∈ (load_group first rest).1.members, to_phdr_flags C = to_phdr_flags first)
    ∧ (load_group first rest).2.length ≤ rest.length := by
  unfold load_group
  simp only []
  split_ifs with hb
  · refine ⟨?_, ?_, ?_, ?_, ?_, ?_⟩
    · exact append_while_spans _ _ _ _ (append_while_spans _ _ _ _ (define_spans _ _ _ _))
    · rw [(append_while_type _ _ _).1, (append_while_type _ _ _).1]; rfl
    · rw [(append_while_type _ _ _).2.1, (append_while_type _ _ _).2.1]; rfl
    · rw [(append_while_type _ _ _).2.2, (append_while_type _ _ _).2.2]; rfl
    · intro C hC
      rcases append_while_members _ _ _ _ hC with h | h
      · rcases append_while_members _ _ _ _ h with h | h
        · have : C = first := by simpa [define] using h
          rw [this]
        · simp only [Bool.and_eq_true, decide_eq_true_eq] at h
          exact h.2
      · simp only [Bool.and_eq_true, decide_eq_true_eq] at h
        exact h.2
    · exact le_trans (append_while_length _ _ _) (append_while_length _ _ _)
  · refine ⟨?_, ?_, ?_, ?_, ?_, ?_⟩
    · exact append_while_spans _ _ _ _ (define_spans _ _ _ _)
    · rw [(append_while_type _ _ _).1]; rfl
    · rw [(append_while_type _ _ _).2.1]; rfl
    · rw [(append_while_type _ _ _).2.2]; rfl
    · intro C hC
      rcases append_while_members _ _ _ _ hC with h | h
      · have : C = first := by simpa [define] using h
        rw [this]
      · simp only [Bool.and_eq_true, decide_eq_true_eq] at h
        exact h.2
    · exact append_while_length _ _ _

theorem load_loop_spec : ∀ (fuel : Nat) (cs : List OutputChunk) (S : Segment),
    S ∈ load_loop fuel cs →
      (∃ F, S.Spans F) ∧ S.phdr.p_type = PT_LOAD ∧ S.requested = PAGE_SIZE
      ∧ ∀ C ∈ S.members, to_phdr_flags C = S.phdr.p_flags := by
  intro fuel
  induction fuel with
  | zero => intro cs S h; simp [load_loop] at h
  | succ n ih =>
    intro cs S h
    cases cs with
    | nil => simp [load_loop] at h
    | cons first rest =>
      simp only [load_loop] at h
      split_ifs at h with ha
      · simp at h
      · rcases List.mem_cons.1 h with h | h
        · obtain ⟨h1, h2, h3, h4, h5, _⟩ := load_group_spec first rest
          subst h
          exact ⟨⟨first, h1⟩, h2, h4, fun C hC => by rw [h3]; exact h5 C hC⟩
        · exact ih _ _ h

theorem note_loop_spec : ∀ (fuel : Nat) (cs : List OutputChunk) (S : Segment),
    S ∈ note_loop fuel cs → (∃ F, S.Spans F) ∧ S.phdr.p_type = PT_NOTE := by
  intro fuel
  induction fuel with
  | zero => intro cs S h; simp [note_loop] at h
  | succ n ih =>
    intro cs S h
    cases cs with
    | nil => simp [note_loop] at h
    | cons first rest =>
      simp only [note_loop] at h
      split_ifs at h with ha
      · exact ih _ _ h
      · rcases List.mem_cons.1 h with h | h
        · subst h
          refine ⟨⟨first, ?_⟩, ?_⟩
          · exact append_while_spans _ _ _ _ (define_spans _ _ _ _)
          · unfold note_group
            rw [(append_while_type _ _ _).1]; rfl
        · exact ih _ _ h

theorem tls_loop_spec : ∀ (fuel : Nat) (cs : List OutputChunk) (S : Segment),
    S ∈ tls_loop fuel cs → (∃ F, S.Spans F) ∧ S.phdr.p_type = PT_TLS := by
  intro fuel
  induction fuel with
  | zero => intro cs S h; simp [tls_loop] at h
  | succ n ih =>
    intro cs S h
    cases cs with
    | nil => simp [tls_loop] at h
    | cons first rest =>
      simp only [tls_loop] at h
      split_ifs at h with ha
      · exact ih _ _ h
      · rcases List.mem_cons.1 h with h | h
        · subst h
          refine ⟨⟨first, ?_⟩, ?_⟩
          · exact append_while_spans _ _ _ _ (define_spans _ _ _ _)
          · unfold tls_group
            rw [(append_while_type _ _ _).1]; rfl
        · exact ih _ _ h

/-- The iteration bound `chunks.size()` given to the PT_LOAD loop is never
exhausted: any larger bound gives the same segments. -/
theorem load_loop_fuel : ∀ (fuel : Nat) (cs : List OutputChunk), cs.length ≤ fuel →
    load_loop fuel cs = load_loop cs.length cs := by
  intro fuel
  induction fuel using Nat.strong_induction_on with
  | _ fuel ih =>
    intro cs hlen
    cases cs with
    | nil => cases fuel <;> simp [load_loop]
    | cons first rest =>
      cases fuel with
      | zero => simp at hlen
      | succ n =>
        have hr : rest.length ≤ n := by simpa using hlen
        have hg := (load_group_spec first rest).2.2.2.2.2
        simp only [load_loop, List.length_cons]
        split_ifs with ha
        · rfl
        · rw [ih n (Nat.lt_succ_self n) _ (le_trans hg hr),
            ih rest.length (by omega) _ hg]

/-- The iteration bound given to the PT_NOTE loop is never exhausted. -/
theorem note_loop_fuel : ∀ (fuel : Nat) (cs : List OutputChunk), cs.length ≤ fuel →
    note_loop fuel cs = note_loop cs.length cs := by
  intro fuel
  induction fuel using Nat.strong_induction_on with
  | _ fuel ih =>
    intro cs hlen
    cases cs with
    | nil => cases fuel <;> simp [note_loop]
    | cons first rest =>
      cases fuel with
      | zero => simp at hlen
      | succ n =>
        have hr : rest.length ≤ n := by simpa using hlen
        have hg : (note_group first rest).2.length ≤ rest.length :=
          append_while_length _ _ _
        simp only [note_loop, List.length_cons]
        split_ifs with ha
        · exact ih n (Nat.lt_succ_self n) _ hr
        · rw [ih n (Nat.lt_succ_self n) _ (le_trans hg hr),
            ih rest.length (by omega) _ hg]

/-- The iteration bound given to the PT_TLS loop is never exhausted. -/
theorem tls_loop_fuel : ∀ (fuel : Nat) (cs : List OutputChunk), cs.length ≤ fuel →
    tls_loop fuel cs = tls_loop cs.length cs := by
  intro fuel
  induction fuel using Nat.strong_induction_on with
  | _ fuel ih =>
    intro cs hlen
    cases cs with
    | nil => cases fuel <;> simp [tls_loop]
    | cons first rest =>
      cases fuel with
      | zero => simp at hlen
      | succ n =>
        have hr : rest.length ≤ n := by simpa using hlen
        have hg : ((tls_group first rest).2.drop 1).length ≤ rest.length := by
          have := append_while_length (fun d => d.shdr.sh_flags &&& SHF_TLS ≠ 0) rest
            (define PT_TLS (to_phdr_flags first) 1 first)
          simp only [tls_group, List.length_drop]
          omega
        simp only [tls_loop, List.length_cons]
        split_ifs with ha
        · exact ih n (Nat.lt_succ_self n) _ hr
        · rw [ih n (Nat.lt_succ_self n) _ (le_trans hg hr),
            ih rest.length (by omega) _ hg]

theorem pt_loads_eq (inp : PhdrInput) :
    pt_loads inp = load_loop inp.chunks.length inp.chunks := by
  have hn : (note_loop inp.chunks.length inp.chunks).filter
      (fun S => S.phdr.p_type = PT_LOAD) = [] := by
    rw [List.filter_eq_nil_iff]
    intro S hS
    simp [(note_loop_spec _ _ _ hS).2, PT_NOTE, PT_LOAD]
  have ht : (tls_loop inp.chunks.length inp.chunks).filter
      (fun S => S.phdr.p_type = PT_LOAD) = [] := by
    rw [List.filter_eq_nil_iff]
    intro S hS
    simp [(tls_loop_spec _ _ _ hS).2, PT_TLS, PT_LOAD]
  have hl : (load_loop inp.chunks.length inp.chunks).filter
      (fun S => S.phdr.p_type = PT_LOAD) = load_loop inp.chunks.length inp.chunks := by
    rw [List.filter_eq_self]
    intro S hS
    simp [(load_loop_spec _ _ _ hS).2.1]
  unfold pt_loads create_phdr_traced
  simp only [List.filter_append, hn, ht, hl]
  cases inp.interp <;> cases inp.dynamic <;>
    simp [define, gnu_stack, PT_PHDR, PT_LOAD, PT_INTERP, PT_DYNAMIC, PT_GNU_STACK]

theorem create_phdr_traced_spans (inp : PhdrInput) (S : Segment)
    (hS : S ∈ create_phdr_traced inp) (hne : S.members ≠ []) : ∃ F, S.Spans F := by
  unfold create_phdr_traced at hS
  simp only [List.mem_append, List.mem_singleton] at hS
  rcases hS with (((((h | h) | h) | h) | h) | h) | h
  · exact ⟨_, h ▸ define_spans _ _ _ _⟩
  · cases hi : inp.interp with
    | none => simp [hi] at h
    | some c =>
      simp only [hi, List.mem_singleton] at h
      exact ⟨_, h ▸ define_spans _ _ _ _⟩
  · exact (note_loop_spec _ _ _ h).1
  · exact (load_loop_spec _ _ _ h).1
  · exact (tls_loop_spec _ _ _ h).1
  · cases hd : inp.dynamic with
    | none => simp [hd] at h
    | some d =>
      simp only [hd, List.mem_singleton] at h
      exact ⟨_, h ▸ define_spans _ _ _ _⟩
  · exact absurd (by rw [h]; rfl) hne

/-! ## Claims on the program headers -/

/-- C4 (as stated, refuted): for the chunk list `farInput`, whose second chunk
lies 0x1000 bytes behind the first in the file but only 0x100 bytes behind it
in memory, `create_phdr` produces a PT_LOAD with `p_filesz = 0x1010` and
`p_memsz = 0x110`. -/
theorem ptload_filesz_exceeds_memsz :
    ∃ S ∈ pt_loads farInput, S.phdr.p_filesz = 0x1010 ∧ S.phdr.p_memsz = 0x110
      ∧ ¬ S.phdr.p_filesz ≤ S.phdr.p_memsz := by
  decide

/-- C4 (amended): for every PT_LOAD segment `S` that `create_phdr` produces,
with first chunk `F` and last chunk `L` of its group, if the layout places `L`
no earlier than `F` in the file and in memory, the file distance from `F` to
`L` does not exceed the memory distance, and the ends of `L` do not wrap
around 64 bits, then `S.p_filesz ≤ S.p_memsz`. -/
theorem ptload_filesz_le_memsz (inp : PhdrInput) (S : Segment) (F L : OutputChunk)
    (hS : S ∈ pt_loads inp)
    (hF : S.members.head? = some F) (hL : S.members.getLast? = some L)
    (hsize : F.shdr.sh_size < 2 ^ 64)
    (hoff : F.shdr.sh_offset ≤ L.shdr.sh_offset)
    (haddr : F.shdr.sh_addr ≤ L.shdr.sh_addr)
    (hdist : L.shdr.sh_offset - F.shdr.sh_offset ≤ L.shdr.sh_addr - F.shdr.sh_addr)
    (hfend : L.shdr.sh_offset + L.shdr.sh_size < 2 ^ 64)
    (hmend : L.shdr.sh_addr + L.shdr.sh_size < 2 ^ 64) :
    S.phdr.p_filesz ≤ S.phdr.p_memsz := by
  rw [pt_loads_eq] at hS
  obtain ⟨⟨F', hsp⟩, _⟩ := load_loop_spec _ _ _ hS
  obtain ⟨h1, h2, h3, _, _, h6⟩ := hsp
  have hFF : F' = F := by rw [h1] at hF; exact Option.some.inj hF
  subst hFF
  obtain ⟨hf, hm⟩ := h6 hsize L hL
  rw [hf, hm, h2, h3]
  unfold file_end sub64 add64
  split_ifs <;> omega

/-- C4 (amended), at scenario S3: the first PT_LOAD spans `.data` and `.bss`. -/
theorem ptload_filesz_le_memsz_witness :
    (append (define PT_LOAD (PF_R ||| PF_W) PAGE_SIZE dataChunk) bssChunk).phdr.p_filesz
      ≤ (append (define PT_LOAD (PF_R ||| PF_W) PAGE_SIZE dataChunk) bssChunk).phdr.p_memsz :=
  ptload_filesz_le_memsz s3Input _ dataChunk bssChunk (by decide) (by decide) (by decide)
    (by decide) (by decide) (by decide) (by decide) (by decide) (by decide)

/-- C5 (code defect): the chunk list `.rodata` (SHF_ALLOC), `.symtab` (no
SHF_ALLOC) meets the layout precondition, yet `create_phdr` groups both chunks
into one PT_LOAD: the inner `while` loops test only `is_bss` and the segment
flags, not SHF_ALLOC.  The segment then reaches over `.symtab` in the file and
its `p_memsz` wraps around, `.symtab` having address 0. -/
theorem ptload_includes_non_alloc :
    alloc_chunks_first rodataSymtabInput.chunks = true
    ∧ pt_loads rodataSymtabInput
        = [append (define PT_LOAD PF_R PAGE_SIZE rodataChunk) symtabChunk]
    ∧ symtabChunk ∈ (append (define PT_LOAD PF_R PAGE_SIZE rodataChunk) symtabChunk).members
    ∧ symtabChunk.shdr.sh_flags &&& SHF_ALLOC = 0
    ∧ (append (define PT_LOAD PF_R PAGE_SIZE rodataChunk) symtabChunk).phdr.p_filesz = 0x130
    ∧ (append (define PT_LOAD PF_R PAGE_SIZE rodataChunk) symtabChunk).phdr.p_memsz
        = 2 ^ 64 - 0x202000 + 0x30 := by
  decide

/-- C6: every PT_LOAD segment `S` that `create_phdr` produces has
`S.p_flags = to_phdr_flags(C)` for every chunk `C` grouped into `S`. -/
theorem ptload_flags_uniform (inp : PhdrInput) (S : Segment) (C : OutputChunk)
    (hS : S ∈ pt_loads inp) (hC : C ∈ S.members) :
    S.phdr.p_flags = to_phdr_flags C := by
  rw [pt_loads_eq] at hS
  exact ((load_loop_spec _ _ _ hS).2.2.2 C hC).symm

/-- C6, at scenario S3: `.bss` in the first PT_LOAD. -/
theorem ptload_flags_uniform_witness :
    (append (define PT_LOAD (PF_R ||| PF_W) PAGE_SIZE dataChunk) bssChunk).phdr.p_flags
      = to_phdr_flags bssChunk :=
  ptload_flags_uniform s3Input _ bssChunk (by decide) (by decide)

/-- C7 (as stated, refuted): with `.bss` aligned to 32 bytes behind a `.data`
of 0x10 bytes, the first PT_LOAD of `create_phdr` gets `p_filesz = 0x20`, not
`.data`'s `sh_size = 0x10`: appending the NOBITS chunk sets `p_filesz` to
`bss.sh_offset - p_offset`. -/
theorem s3_padded_filesz_differs :
    ∃ S, (pt_loads s3PaddedInput).head? = some S
      ∧ S.members = [dataChunk, bssChunkPadded]
      ∧ S.phdr.p_filesz = 0x20
      ∧ S.phdr.p_filesz ≠ dataChunk.shdr.sh_size := by
  decide

/-- C7 (amended): for chunks `.data` (SHF_ALLOC|SHF_WRITE, not NOBITS), `.bss`
(SHF_ALLOC|SHF_WRITE, SHT_NOBITS), `.rodata` (SHF_ALLOC) in this order,
`create_phdr` produces exactly two PT_LOAD segments.  The first is `define` on
`.data` followed by `append` on `.bss`: its group is `.data`, `.bss`, its
`p_filesz` is `bss.sh_offset - data.sh_offset` and its `p_memsz` is
`bss.sh_addr + bss.sh_size - data.sh_addr` (64-bit arithmetic); `p_filesz`
equals `.data`'s `sh_size` when `.bss` is laid out at
`data.sh_offset + data.sh_size`.  The second is `define` on `.rodata`. -/
theorem s3_two_ptloads (inp : PhdrInput) (data bss rodata : OutputChunk)
    (hchunks : inp.chunks = [data, bss, rodata])
    (hdf : data.shdr.sh_flags = SHF_ALLOC ||| SHF_WRITE)
    (hdt : data.shdr.sh_type ≠ SHT_NOBITS)
    (hbf : bss.shdr.sh_flags = SHF_ALLOC ||| SHF_WRITE)
    (hbt : bss.shdr.sh_type = SHT_NOBITS)
    (hrf : rodata.shdr.sh_flags = SHF_ALLOC) :
    pt_loads inp = [append (define PT_LOAD (PF_R ||| PF_W) PAGE_SIZE data) bss,
                    define PT_LOAD PF_R PAGE_SIZE rodata]
    ∧ (append (define PT_LOAD (PF_R ||| PF_W) PAGE_SIZE data) bss).members = [data, bss]
    ∧ (append (define PT_LOAD (PF_R ||| PF_W) PAGE_SIZE data) bss).phdr.p_filesz
        = sub64 bss.shdr.sh_offset data.shdr.sh_offset
    ∧ (append (define PT_LOAD (PF_R ||| PF_W) PAGE_SIZE data) bss).phdr.p_memsz
        = sub64 (add64 bss.shdr.sh_addr bss.shdr.sh_size) data.shdr.sh_addr
    ∧ (define PT_LOAD PF_R PAGE_SIZE rodata).members = [rodata]
    ∧ (bss.shdr.sh_offset = data.shdr.sh_offset + data.shdr.sh_size →
        data.shdr.sh_size < 2 ^ 64 →
        (append (define PT_LOAD (PF_R ||| PF_W) PAGE_SIZE data) bss).phdr.p_filesz
          = data.shdr.sh_size) := by
  have hfd : to_phdr_flags data = PF_R ||| PF_W := by
    unfold to_phdr_flags
    rw [hdf]
    decide
  have hfb : to_phdr_flags bss = PF_R ||| PF_W := by
    unfold to_phdr_flags
    rw [hbf]
    decide
  have hfr : to_phdr_flags rodata = PF_R := by
    unfold to_phdr_flags
    rw [hrf]
    decide
  have hne : ¬ (PF_R = PF_R ||| PF_W) := by decide
  have hbd : is_bss data = false := by simp [is_bss, hdt]
  have hbb : is_bss bss = true := by
    unfold is_bss
    rw [hbt, hbf]
    decide
  have had : ¬ (data.shdr.sh_flags &&& SHF_ALLOC = 0) := by
    rw [hdf]
    decide
  have har : ¬ (rodata.shdr.sh_flags &&& SHF_ALLOC = 0) := by
    rw [hrf]
    decide
  refine ⟨?_, rfl, ?_, rfl, rfl, ?_⟩
  · rw [pt_loads_eq, hchunks]
    simp [load_loop, load_group, append_while, hfd, hfb, hfr, hne, hbd, hbb, had, har]
  · simp [append, define, hbt]
  · intro ho hs
    simp only [append, define, hbt, if_true, ho]
    unfold sub64
    omega

/-- C7 (amended), at scenario S3 with `.bss` directly behind `.data`. -/
theorem s3_two_ptloads_witness :
    pt_loads s3Input = [append (define PT_LOAD (PF_R ||| PF_W) PAGE_SIZE dataChunk) bssChunk,
                        define PT_LOAD PF_R PAGE_SIZE rodataChunk]
    ∧ (append (define PT_LOAD (PF_R ||| PF_W) PAGE_SIZE dataChunk) bssChunk).phdr.p_filesz
        = dataChunk.shdr.sh_size :=
  have h := s3_two_ptloads s3Input dataChunk bssChunk rodataChunk rfl rfl (by decide) rfl rfl rfl
  ⟨h.1, h.2.2.2.2.2 (by decide) (by decide)⟩

/-- C8: every element of the vector of `create_phdr` that was built from a
non-empty group of chunks with first chunk `F` and last chunk `L` has
`p_offset = F.sh_offset`, `p_vaddr = p_paddr = F.sh_addr`,
`p_filesz = L.sh_offset + (NOBITS ? 0 : L.sh_size) - p_offset`,
`p_memsz = L.sh_addr + L.sh_size - p_vaddr` (unsigned 64-bit arithmetic) and
`p_align` the maximum of the requested alignment and of `sh_addralign` over
the group. -/
theorem segment_fields (inp : PhdrInput) (S : Segment) (F L : OutputChunk)
    (hS : S ∈ create_phdr_traced inp)
    (hF : S.members.head? = some F) (hL : S.members.getLast? = some L)
    (hsize : F.shdr.sh_size < 2 ^ 64) :
    S.phdr.p_offset = F.shdr.sh_offset
    ∧ S.phdr.p_vaddr = F.shdr.sh_addr
    ∧ S.phdr.p_paddr = F.shdr.sh_addr
    ∧ S.phdr.p_filesz
        = sub64 (add64 L.shdr.sh_offset
            (if L.shdr.sh_type = SHT_NOBITS then 0 else L.shdr.sh_size)) S.phdr.p_offset
    ∧ S.phdr.p_memsz = sub64 (add64 L.shdr.sh_addr L.shdr.sh_size) S.phdr.p_vaddr
    ∧ S.phdr.p_align
        = max S.requested ((S.members.map fun c => c.shdr.sh_addralign).foldr max 0) := by
  have hne : S.members ≠ [] := by
    intro h
    simp [h] at hF
  obtain ⟨F', h1, h2, h3, h4, h5, h6⟩ := create_phdr_traced_spans inp S hS hne
  have hFF : F' = F := by rw [h1] at hF; exact Option.some.inj hF
  subst hFF
  obtain ⟨hf, hm⟩ := h6 hsize L hL
  exact ⟨h2, h3, h4, hf, hm, h5⟩

/-- C8, at scenario S3: the first PT_LOAD, from `.data` to `.bss`. -/
theorem segment_fields_witness :
    (append (define PT_LOAD (PF_R ||| PF_W) PAGE_SIZE dataChunk) bssChunk).phdr.p_offset = 0x1000
    ∧ (append (define PT_LOAD (PF_R ||| PF_W) PAGE_SIZE dataChunk) bssChunk).phdr.p_memsz
        = sub64 (add64 0x201010 0x40) 0x201000
    ∧ (append (define PT_LOAD (PF_R ||| PF_W) PAGE_SIZE dataChunk) bssChunk).phdr.p_align
        = 4096 :=
  have h := segment_fields s3Input
    (append (define PT_LOAD (PF_R ||| PF_W) PAGE_SIZE dataChunk) bssChunk) dataChunk bssChunk
    (by decide) (by decide) (by decide) (by decide)
  ⟨h.1, h.2.2.2.2.1, h.2.2.2.2.2⟩

/-! ## Dynamic string table -/

theorem strtab_size_nil : strtab_size [] = 1 := rfl

theorem strtab_size_cons (t : Bytes) (l : List Bytes) :
    strtab_size (t :: l) = strtab_size l + (t.length + 1) := by
  simp [strtab_size]
  omega

theorem toI32_of_lt (x : Int) (h0 : 0 ≤ x) (h1 : x < 2 ^ 31) : toI32 x = x := by
  unfold toI32
  omega

theorem u32_of_lt (x : Nat) (h : x < 2 ^ 32) : u32 x = x := by
  unfold u32
  omega

theorem u64_of_lt (x : Nat) (h : x < 2 ^ 64) : u64 x = x := by
  unfold u64
  omega

theorem add_strings_contents : ∀ (strs : List Bytes) (self : DynstrSection),
    (self.add_strings strs).2.contents = self.contents ++ strs := by
  intro strs
  induction strs with
  | nil => intro self; simp [DynstrSection.add_strings]
  | cons t rest ih =>
    intro self
    simp [DynstrSection.add_strings, ih, DynstrSection.add_string]

/-- The value returned by the call number `pre.length` of a sequence of
`add_string` calls is the size before the sequence plus the sizes of the
strings added before that call. -/
theorem add_strings_returns : ∀ (pre : List Bytes) (t : Bytes) (post : List Bytes)
    (self : DynstrSection),
    self.sh_size + (strtab_size pre - 1) < 2 ^ 32 →
    (self.add_strings (pre ++ t :: post)).1[pre.length]?
      = some (self.sh_size + (strtab_size pre - 1)) := by
  intro pre
  induction pre with
  | nil =>
    intro t post self h
    simp only [strtab_size_nil] at h
    have h32 : self.sh_size < 2 ^ 32 := by omega
    simp [DynstrSection.add_strings, DynstrSection.add_string, strtab_size_nil,
      u32_of_lt _ h32]
  | cons a pre ih =>
    intro t post self h
    rw [strtab_size_cons] at h
    have hpos : 1 ≤ strtab_size pre := by unfold strtab_size; omega
    have h64 : self.sh_size + (a.length + 1) < 2 ^ 64 := by omega
    have := ih t post (self.add_string a).2
      (by simp only [DynstrSection.add_string, u64_of_lt _ h64]; omega)
    have e : self.sh_size + (strtab_size pre + (a.length + 1) - 1)
        = (self.add_string a).2.sh_size + (strtab_size pre - 1) := by
      simp only [DynstrSection.add_string, u64_of_lt _ h64]
      omega
    rw [strtab_size_cons, e, ← this]
    simp only [List.cons_append, DynstrSection.add_strings, List.length_cons,
      List.getElem?_cons_succ]
    rfl

theorem find_string_loop_some (s : Bytes) : ∀ (l : List Bytes) (i : Nat), s ∈ l →
    i + (strtab_size (l.takeWhile fun t => t ≠ s) - 1) < 2 ^ 32 →
    DynstrSection.find_string_loop s l i
      = some (i + (strtab_size (l.takeWhile fun t => t ≠ s) - 1)) := by
  intro l
  induction l with
  | nil => intro i h; simp at h
  | cons t rest ih =>
    intro i hmem h
    by_cases hts : t = s
    · simp [DynstrSection.find_string_loop, hts, strtab_size_nil]
    · have hmem2 : s ∈ rest := by
        rcases List.mem_cons.1 hmem with h1 | h1
        · exact absurd h1.symm hts
        · exact h1
      have htw : (t :: rest).takeWhile (fun t => t ≠ s)
          = t :: rest.takeWhile (fun t => t ≠ s) := by
        simp [List.takeWhile_cons, hts]
      rw [htw, strtab_size_cons] at h ⊢
      have hpos : 1 ≤ strtab_size (rest.takeWhile fun t => t ≠ s) := by
        unfold strtab_size; omega
      simp only [DynstrSection.find_string_loop, hts, if_false]
      rw [u32_of_lt _ (by omega), ih _ hmem2 (by omega)]
      congr 1
      omega

theorem find_string_loop_none (s : Bytes) : ∀ (l : List Bytes) (i : Nat),
    DynstrSection.find_string_loop s l i = none ↔ s ∉ l := by
  intro l
  induction l with
  | nil => intro i; simp [DynstrSection.find_string_loop]
  | cons t rest ih =>
    intro i
    by_cases hts : t = s
    · simp [DynstrSection.find_string_loop, hts]
    · have hst : ¬ s = t := fun h => hts h.symm
      simp [DynstrSection.find_string_loop, hts, hst, ih]

theorem copy_buf_loop_below : ∀ (l : List Bytes) (i : Int) (buf : Int → UInt8) (a : Int),
    0 ≤ i → i + (strtab_size l - 1 : Nat) < 2 ^ 31 → a < i →
    DynstrSection.copy_buf_loop l i buf a = buf a := by
  intro l
  induction l with
  | nil => intro i buf a _ _ _; rfl
  | cons t rest ih =>
    intro i buf a h0 h1 ha
    rw [strtab_size_cons] at h1
    have hpos : 1 ≤ strtab_size rest := by unfold strtab_size; omega
    simp only [DynstrSection.copy_buf_loop]
    rw [toI32_of_lt _ (by omega) (by omega), ih _ _ _ (by omega) (by omega) (by omega)]
    unfold write_string
    rw [if_neg (by omega), if_neg (by omega)]

theorem copy_buf_loop_at : ∀ (pre : List Bytes) (s : Bytes) (post : List Bytes) (i : Int)
    (buf : Int → UInt8), 0 ≤ i → i + (strtab_size (pre ++ s :: post) - 1 : Nat) < 2 ^ 31 →
    (∀ k : Nat, k < s.length →
      DynstrSection.copy_buf_loop (pre ++ s :: post) i buf
        (i + (strtab_size pre - 1 : Nat) + k) = s.getD k 0)
    ∧ DynstrSection.copy_buf_loop (pre ++ s :: post) i buf
        (i + (strtab_size pre - 1 : Nat) + s.length) = 0 := by
  intro pre
  induction pre with
  | nil =>
    intro s post i buf h0 h1
    simp only [List.nil_append, strtab_size_cons] at h1
    have hpos : 1 ≤ strtab_size post := by unfold strtab_size; omega
    simp only [List.nil_append, DynstrSection.copy_buf_loop, strtab_size_nil]
    rw [toI32_of_lt _ (by omega) (by omega)]
    constructor
    · intro k hk
      rw [copy_buf_loop_below _ _ _ _ (by omega) (by omega) (by omega)]
      unfold write_string
      rw [if_pos (by omega)]
      congr 1
      omega
    · rw [copy_buf_loop_below _ _ _ _ (by omega) (by omega) (by omega)]
      unfold write_string
      rw [if_neg (by omega), if_pos (by omega)]
  | cons t pre ih =>
    intro s post i buf h0 h1
    simp only [List.cons_append, strtab_size_cons] at h1
    have hpos : 1 ≤ strtab_size (pre ++ s :: post) := by unfold strtab_size; omega
    have hpos2 : 1 ≤ strtab_size pre := by unfold strtab_size; omega
    simp only [List.cons_append, DynstrSection.copy_buf_loop, strtab_size_cons]
    rw [toI32_of_lt _ (by omega) (by omega)]
    obtain ⟨ih1, ih2⟩ := ih s post (i + (t.length + 1 : Nat)) (write_string buf i t)
      (by omega) (by omega)
    constructor
    · intro k hk
      have := ih1 k hk
      have e : i + ((strtab_size pre + (t.length + 1) - 1 : Nat) : Int) + (k : Int)
          = i + ((t.length + 1 : Nat) : Int) + ((strtab_size pre - 1 : Nat) : Int) + (k : Int) := by
        omega
      rw [e]
      simpa using this
    · have e : i + ((strtab_size pre + (t.length + 1) - 1 : Nat) : Int) + (s.length : Int)
          = i + ((t.length + 1 : Nat) : Int) + ((strtab_size pre - 1 : Nat) : Int)
              + (s.length : Int) := by
        omega
      rw [e]
      simpa using ih2

theorem strtab_size_append (l m : List Bytes) :
    strtab_size (l ++ m) = strtab_size l + (strtab_size m - 1) := by
  induction l with
  | nil => simp [strtab_size_nil]; unfold strtab_size; omega
  | cons t l ih =>
    rw [List.cons_append, strtab_size_cons, strtab_size_cons, ih]
    omega

theorem split_at_first (s : Bytes) : ∀ (l : List Bytes), s ∈ l →
    ∃ post, l = (l.takeWhile fun t => t ≠ s) ++ s :: post := by
  intro l
  induction l with
  | nil => intro h; simp at h
  | cons t rest ih =>
    intro h
    by_cases hts : t = s
    · exact ⟨rest, by simp [List.takeWhile_cons, hts]⟩
    · have hmem : s ∈ rest := by
        rcases List.mem_cons.1 h with h1 | h1
        · exact absurd h1.symm hts
        · exact h1
      obtain ⟨post, hp⟩ := ih hmem
      refine ⟨post, ?_⟩
      have htw : (t :: rest).takeWhile (fun t => t ≠ s)
          = t :: rest.takeWhile (fun t => t ≠ s) := by
        simp [List.takeWhile_cons, hts]
      rw [htw, List.cons_append, ← hp]

/-! ## Claims on the dynamic string table -/

/-- C9 (as stated, refuted): adding the string `libc` twice to a fresh
`.dynstr` returns offset 1 the first time and offset 6 the second time, and
`sh_size` grows from 1 to 11, by `|s| + 1` twice; `contents` holds the string
twice. -/
theorem add_string_twice_differs :
    (DynstrSection.init.add_string libcName).1 = 1
    ∧ ((DynstrSection.init.add_string libcName).2.add_string libcName).1 = 6
    ∧ ((DynstrSection.init.add_string libcName).2.add_string libcName).2.sh_size = 11
    ∧ ((DynstrSection.init.add_string libcName).2.add_string libcName).2.contents
        = [libcName, libcName] := by
  decide

/-- C9 (amended): `DynstrSection::add_string(s)` never looks `s` up.  Every
call appends `s` to `contents`, returns the pre-call `sh_size` and grows
`sh_size` by `|s| + 1`: while offsets fit in 32 bits, adding the same string
twice returns `sh_size` and then `sh_size + |s| + 1`, and grows `sh_size` by
`2 (|s| + 1)`. -/
theorem add_string_always_appends (self : DynstrSection) (s : Bytes)
    (hfit : self.sh_size + 2 * (s.length + 1) < 2 ^ 32) :
    (self.add_string s).1 = self.sh_size
    ∧ (self.add_string s).2.sh_size = self.sh_size + (s.length + 1)
    ∧ (self.add_string s).2.contents = self.contents ++ [s]
    ∧ ((self.add_string s).2.add_string s).1 = self.sh_size + (s.length + 1)
    ∧ ((self.add_string s).2.add_string s).2.sh_size = self.sh_size + 2 * (s.length + 1)
    ∧ ((self.add_string s).2.add_string s).2.contents = self.contents ++ [s, s] := by
  have h1 : self.sh_size < 2 ^ 32 := by omega
  have h2 : self.sh_size + (s.length + 1) < 2 ^ 64 := by omega
  have h3 : self.sh_size + (s.length + 1) < 2 ^ 32 := by omega
  have h4 : self.sh_size + (s.length + 1) + (s.length + 1) < 2 ^ 64 := by omega
  simp only [DynstrSection.add_string, u32_of_lt _ h1, u64_of_lt _ h2, u32_of_lt _ h3,
    u64_of_lt _ h4, List.append_assoc, List.singleton_append, true_and]
  exact ⟨by omega, trivial⟩

/-- C9 (amended), on a fresh `.dynstr` and the string `libc`. -/
theorem add_string_always_appends_witness :
    ((DynstrSection.init.add_string libcName).2.add_string libcName).1
        = DynstrSection.init.sh_size + (libcName.length + 1)
    ∧ ((DynstrSection.init.add_string libcName).2.add_string libcName).2.sh_size
        = DynstrSection.init.sh_size + 2 * (libcName.length + 1) :=
  have h := add_string_always_appends DynstrSection.init libcName (by decide)
  ⟨h.2.2.2.1, h.2.2.2.2.1⟩

/-- C10: start from the fresh `.dynstr` (`sh_size = 1`) and add the strings
`strs` in order, the table staying below 2 GiB.  For a string `s` that was
added, `find_string(s)` returns (does not reach `unreachable()`) the offset
`1 + sum of (|t| + 1)` over the strings added before the first occurrence of
`s`; this is the value `add_string` returned when `s` was first added, and
`copy_buf` writes `s` followed by NUL at this offset.  `find_string(s)` reaches
`unreachable()` exactly when `s` was never added. -/
theorem dynstr_find_string (strs : List Bytes) (s : Bytes) (buf : Int → UInt8)
    (hsize : strtab_size strs < 2 ^ 31) :
    (s ∈ strs →
      (DynstrSection.init.add_strings strs).2.find_string s
        = some (strtab_size (strs.takeWhile fun t => t ≠ s))
      ∧ (DynstrSection.init.add_strings strs).1[(strs.takeWhile fun t => t ≠ s).length]?
        = some (strtab_size (strs.takeWhile fun t => t ≠ s))
      ∧ (∀ k : Nat, k < s.length →
          (DynstrSection.init.add_strings strs).2.copy_buf buf
            ((strtab_size (strs.takeWhile fun t => t ≠ s) : Nat) + (k : Int)) = s.getD k 0)
      ∧ (DynstrSection.init.add_strings strs).2.copy_buf buf
            ((strtab_size (strs.takeWhile fun t => t ≠ s) : Nat) + (s.length : Int)) = 0)
    ∧ ((DynstrSection.init.add_strings strs).2.find_string s = none ↔ s ∉ strs) := by
  have hc : (DynstrSection.init.add_strings strs).2.contents = strs := by
    rw [add_strings_contents]; rfl
  constructor
  · intro hmem
    obtain ⟨post, hp⟩ := split_at_first s strs hmem
    generalize hpre : (strs.takeWhile fun t => t ≠ s) = pre at hp ⊢
    have hsz : strtab_size strs = strtab_size pre + (strtab_size (s :: post) - 1) := by
      rw [hp, strtab_size_append]
    have hpos : 1 ≤ strtab_size pre := by unfold strtab_size; omega
    have e1 : 1 + (strtab_size pre - 1) = strtab_size pre := by omega
    refine ⟨?_, ?_, ?_⟩
    · unfold DynstrSection.find_string
      rw [hc]
      have := find_string_loop_some s strs 1 hmem (by rw [hpre]; omega)
      rw [hpre, e1] at this
      exact this
    · have := add_strings_returns pre s post DynstrSection.init
        (by show 1 + (strtab_size pre - 1) < 2 ^ 32; omega)
      rw [← hp] at this
      rw [this]
      show some (1 + (strtab_size pre - 1)) = some (strtab_size pre)
      rw [e1]
    · have h31 : (1 : Int) + ((strtab_size (pre ++ s :: post) - 1 : Nat) : Int) < 2 ^ 31 := by
        rw [← hp]; omega
      obtain ⟨c1, c2⟩ := copy_buf_loop_at pre s post 1
        (fun a => if a = 0 then 0 else buf a) (by omega) h31
      have e2 : ((strtab_size pre : Nat) : Int) = 1 + ((strtab_size pre - 1 : Nat) : Int) := by
        omega
      unfold DynstrSection.copy_buf
      rw [hc, e2]
      constructor
      · intro k hk
        have := c1 k hk
        rw [← hp] at this
        exact this
      · rw [← hp] at c2
        exact c2
  · unfold DynstrSection.find_string
    rw [hc]
    exact find_string_loop_none s strs 1

/-- C10, for the sequence `libc`, `libm`, `libc` and the string `libm`:
`find_string` returns offset 6. -/
theorem dynstr_find_string_witness :
    (DynstrSection.init.add_strings [libcName, libmName, libcName]).2.find_string libmName
      = some 6
    ∧ ((DynstrSection.init.add_strings [libcName, libmName, libcName]).2.find_string libmName
        = none ↔ libmName ∉ [libcName, libmName, libcName]) :=
  have h := dynstr_find_string [libcName, libmName, libcName] libmName (fun _ => 0)
    (by decide)
  ⟨(h.1 (by decide)).1, h.2⟩

/-! ## Dynamic symbol table -/

theorem assign_idx_not_mem : ∀ (l : List SymId) (syms : SymId → Symbol) (i : Int) (s : SymId),
    s ∉ l → DynsymSection.assign_idx syms l i s = syms s := by
  intro l
  induction l with
  | nil => intro syms i s _; rfl
  | cons a rest ih =>
    intro syms i s hs
    have h1 : s ≠ a := fun h => hs (by simp [h])
    have h2 : s ∉ rest := fun h => hs (by simp [h])
    simp only [DynsymSection.assign_idx]
    rw [ih _ _ _ h2, Function.update_noteq h1]

/-- The loop `sym->dynsym_idx = i++` changes no other field of a symbol. -/
theorem assign_idx_frame : ∀ (l : List SymId) (syms : SymId → Symbol) (i : Int) (s : SymId),
    (DynsymSection.assign_idx syms l i s).esym_st_bind = (syms s).esym_st_bind
    ∧ (DynsymSection.assign_idx syms l i s).name = (syms s).name := by
  intro l
  induction l with
  | nil => intro syms i s; exact ⟨rfl, rfl⟩
  | cons a rest ih =>
    intro syms i s
    simp only [DynsymSection.assign_idx]
    rw [(ih _ _ _).1, (ih _ _ _).2]
    by_cases h : s = a
    · subst h; simp [Function.update_same]
    · simp [Function.update_noteq h]

theorem assign_idx_get : ∀ (l : List SymId) (syms : SymId → Symbol) (i : Int),
    l.Nodup → 0 ≤ i → i + l.length < 2 ^ 31 →
    ∀ (k : Nat) (hk : k < l.length),
      (DynsymSection.assign_idx syms l i l[k]).dynsym_idx = i + k := by
  intro l
  induction l with
  | nil => intro syms i _ _ _ k hk; simp at hk
  | cons a rest ih =>
    intro syms i hnd h0 h1 k hk
    obtain ⟨ha, hrest⟩ := List.nodup_cons.1 hnd
    simp only [List.length_cons] at h1 hk
    cases k with
    | zero =>
      simp only [DynsymSection.assign_idx, List.getElem_cons_zero]
      rw [assign_idx_not_mem _ _ _ _ ha]
      simp [Function.update_same]
    | succ k =>
      simp only [DynsymSection.assign_idx, List.getElem_cons_succ]
      rw [toI32_of_lt _ (by omega) (by push_cast at h1; omega)]
      rw [ih _ _ hrest (by omega) (by push_cast at h1 ⊢; omega) k (by omega)]
      push_cast
      omega

/-- `DynsymSection::add_symbol` keeps the vector `symbols` free of repeated
pointers, and every symbol in it has `dynsym_idx != -1`. -/
theorem add_symbol_nodup (syms : SymId → Symbol) (dynstr : DynstrSection)
    (self : DynsymSection) (sym : SymId)
    (h : self.symbols.Nodup ∧ ∀ s ∈ self.symbols, (syms s).dynsym_idx ≠ -1) :
    (self.add_symbol syms dynstr sym).2.2.symbols.Nodup
    ∧ ∀ s ∈ (self.add_symbol syms dynstr sym).2.2.symbols,
        ((self.add_symbol syms dynstr sym).1 s).dynsym_idx ≠ -1 := by
  unfold DynsymSection.add_symbol
  split_ifs with hidx
  · exact h
  · have hidx2 : (syms sym).dynsym_idx = -1 := by simpa using hidx
    have hnot : sym ∉ self.symbols := fun hm => h.2 sym hm hidx2
    constructor
    · simp only
      rw [List.nodup_append]
      refine ⟨h.1, List.nodup_singleton _, ?_⟩
      intro a ha hb
      rw [List.mem_singleton] at hb
      exact hnot (hb ▸ ha)
    · intro s hs
      simp only [List.mem_append, List.mem_singleton] at hs
      by_cases hsym : s = sym
      · subst hsym; simp [Function.update_same]
      · simp only [Function.update_noteq hsym]
        rcases hs with hs | hs
        · exact h.2 s hs
        · exact absurd hs hsym

/-- After any sequence of `DynsymSection::add_symbol` calls on an empty
section, the vector `symbols` holds no pointer twice. -/
theorem add_symbols_nodup : ∀ (l : List SymId) (syms : SymId → Symbol)
    (dynstr : DynstrSection) (self : DynsymSection),
    (self.symbols.Nodup ∧ ∀ s ∈ self.symbols, (syms s).dynsym_idx ≠ -1) →
    (self.add_symbols syms dynstr l).2.2.symbols.Nodup := by
  intro l
  induction l with
  | nil => intro syms dynstr self h; exact h.1
  | cons a rest ih =>
    intro syms dynstr self h
    simp only [DynsymSection.add_symbols]
    exact ih _ _ _ (add_symbol_nodup syms dynstr self a h)

/-- C2: for a dynsym vector without repeated pointers (as `add_symbol` leaves
it) and fewer than `2^31 - 1` symbols, `DynsymSection::sort_symbols` leaves a
permutation of the vector in which every STB_LOCAL symbol precedes every other
symbol, the order inside each class is the insertion order, `sh_info` is the
number of locals plus 1 and the symbol at position `k` has
`dynsym_idx = k + 1`; the binding and the name of every symbol are unchanged. -/
theorem sort_symbols_stable (syms : SymId → Symbol) (self : DynsymSection)
    (hnd : self.symbols.Nodup) (hlen : self.symbols.length + 1 < 2 ^ 31) :
    (self.sort_symbols syms).2.symbols.Perm self.symbols
    ∧ (∀ (i j : Nat) (hi : i < (self.sort_symbols syms).2.symbols.length)
        (hj : j < (self.sort_symbols syms).2.symbols.length),
        is_local syms (self.sort_symbols syms).2.symbols[i] = true →
        is_local syms (self.sort_symbols syms).2.symbols[j] = false → i < j)
    ∧ (self.sort_symbols syms).2.symbols.filter (is_local syms)
        = self.symbols.filter (is_local syms)
    ∧ (self.sort_symbols syms).2.symbols.filter (fun s => !is_local syms s)
        = self.symbols.filter (fun s => !is_local syms s)
    ∧ (self.sort_symbols syms).2.sh_info = self.symbols.countP (is_local syms) + 1
    ∧ (∀ (k : Nat) (hk : k < (self.sort_symbols syms).2.symbols.length),
        ((self.sort_symbols syms).1 (self.sort_symbols syms).2.symbols[k]).dynsym_idx = k + 1)
    ∧ (∀ s, ((self.sort_symbols syms).1 s).esym_st_bind = (syms s).esym_st_bind
          ∧ ((self.sort_symbols syms).1 s).name = (syms s).name) := by
  have hsym : (self.sort_symbols syms).2.symbols
      = self.symbols.filter (is_local syms)
        ++ self.symbols.filter (fun s => !is_local syms s) := by
    simp only [DynsymSection.sort_symbols, List.partition_eq_filter_filter]
    rfl
  have hperm : (self.sort_symbols syms).2.symbols.Perm self.symbols := by
    rw [hsym]; exact List.filter_append_perm _ _
  have hlen2 : (self.sort_symbols syms).2.symbols.length = self.symbols.length :=
    hperm.length_eq
  refine ⟨hperm, ?_, ?_, ?_, ?_, ?_, ?_⟩
  · intro i j hi hj hli hlj
    by_contra hij
    have hji : j ≤ i := Nat.le_of_not_lt hij
    by_cases hjA : j < (self.symbols.filter (is_local syms)).length
    · have hmem : (self.sort_symbols syms).2.symbols[j]
          ∈ self.symbols.filter (is_local syms) := by
        rw [List.getElem_of_eq hsym hj, List.getElem_append_left hjA]
        exact List.getElem_mem _
      rw [(List.mem_filter.1 hmem).2] at hlj
      exact Bool.noConfusion hlj
    · have hiA : (self.symbols.filter (is_local syms)).length ≤ i := by omega
      have hmem : (self.sort_symbols syms).2.symbols[i]
          ∈ self.symbols.filter (fun s => !is_local syms s) := by
        rw [List.getElem_of_eq hsym hi, List.getElem_append_right hiA]
        exact List.getElem_mem _
      have := (List.mem_filter.1 hmem).2
      rw [hli] at this
      exact Bool.noConfusion this
  · rw [hsym, List.filter_append, List.filter_filter, List.filter_filter]
    simp
  · rw [hsym, List.filter_append, List.filter_filter, List.filter_filter]
    simp
  · have hle : (self.symbols.filter (is_local syms)).length ≤ self.symbols.length :=
      List.length_filter_le _ _
    simp only [DynsymSection.sort_symbols, List.partition_eq_filter_filter]
    rw [u32_of_lt _ (by omega), List.countP_eq_length_filter]
  · intro k hk
    have hnd2 : (self.sort_symbols syms).2.symbols.Nodup := hperm.nodup_iff.2 hnd
    have := assign_idx_get (self.sort_symbols syms).2.symbols syms 1 hnd2 (by omega)
      (by rw [hlen2]; push_cast; omega) k hk
    rw [show (1 : Int) + (k : Int) = (k : Int) + 1 by omega] at this
    exact this
  · intro s
    exact assign_idx_frame _ _ _ _

/-- C2, at scenario S6: inserting G-alpha, L-beta, G-gamma, L-delta gives the
order L-beta, L-delta, G-alpha, G-gamma with `sh_info = 3` and indices 1..4. -/
theorem sort_symbols_stable_witness :
    (s6Dynsym.sort_symbols s6Store).2.symbols = [1, 3, 0, 2]
    ∧ (s6Dynsym.sort_symbols s6Store).2.sh_info = 3
    ∧ ([1, 3, 0, 2].map fun s => ((s6Dynsym.sort_symbols s6Store).1 s).dynsym_idx) = [1, 2, 3, 4]
    ∧ (s6Dynsym.sort_symbols s6Store).2.symbols.Perm s6Dynsym.symbols :=
  ⟨by decide, by decide, by decide,
    (sort_symbols_stable s6Store s6Dynsym (by decide) (by decide)).1⟩

/-! ## SysV hash table -/

theorem getD_set_ne (l : List Nat) (i x v : Nat) (h : i ≠ x) :
    (l.set i v).getD x 0 = l.getD x 0 := by
  simp [List.getD_eq_getElem?_getD, List.getElem?_set_ne h]

theorem getD_set_self (l : List Nat) (i v : Nat) (h : i < l.length) :
    (l.set i v).getD i 0 = v := by
  simp [List.getD_eq_getElem?_getD, List.getElem?_set_self h]

theorem isChain_set (chains : List Nat) (i v : Nat) : ∀ (l : List Nat) (y : Nat),
    IsChain chains y l → i ∉ l → IsChain (chains.set i v) y l := by
  intro l
  induction l with
  | nil => intro y h _; exact h
  | cons x l ih =>
    intro y h hi
    obtain ⟨h1, h2, h3⟩ := h
    have hne : i ≠ x := fun e => hi (by simp [e])
    have hnot : i ∉ l := fun e => hi (by simp [e])
    refine ⟨h1, h2, ?_⟩
    rw [getD_set_ne _ _ _ _ hne]
    exact ih _ h3 hnot

theorem chain_walk_of_isChain (chains : List Nat) : ∀ (l : List Nat) (fuel y : Nat),
    IsChain chains y l → l.length ≤ fuel → chain_walk chains fuel y = l := by
  intro l
  induction l with
  | nil =>
    intro fuel y h _
    have hy : y = 0 := h
    subst hy
    cases fuel <;> simp [chain_walk]
  | cons x l ih =>
    intro fuel y h hl
    obtain ⟨h1, h2, h3⟩ := h
    subst h1
    cases fuel with
    | zero => simp at hl
    | succ f =>
      simp only [chain_walk, if_neg h2]
      rw [ih f _ h3 (by simpa using hl)]

theorem bucket_chain_snoc (elf_hash : Bytes → Nat) (syms : SymId → Symbol) (n : Nat)
    (done : List SymId) (s : SymId) (b : Nat) :
    bucket_chain elf_hash syms n (done ++ [s]) b
      = if hash_slot elf_hash syms n s = b then
          (syms s).dynsym_idx.toNat :: bucket_chain elf_hash syms n done b
        else bucket_chain elf_hash syms n done b := by
  unfold bucket_chain
  rw [List.reverse_append, List.reverse_singleton, List.singleton_append, List.filter_cons]
  split_ifs with h1 h2 h2
  · simp
  · simp [h2] at h1
  · simp [h2] at h1
  · rfl

theorem not_mem_bucket_chain (elf_hash : Bytes → Nat) (syms : SymId → Symbol) (n : Nat)
    (done : List SymId) (s : SymId) (b : Nat)
    (hdone : ∀ x ∈ done, 1 ≤ (syms x).dynsym_idx) (hs : 1 ≤ (syms s).dynsym_idx)
    (hnew : (syms s).dynsym_idx ∉ done.map fun x => (syms x).dynsym_idx) :
    (syms s).dynsym_idx.toNat ∉ bucket_chain elf_hash syms n done b := by
  intro hmem
  unfold bucket_chain at hmem
  obtain ⟨x, hx, hxe⟩ := List.mem_map.1 hmem
  have hxd : x ∈ done := List.mem_reverse.1 (List.mem_filter.1 hx).1
  have h1 := hdone x hxd
  apply hnew
  refine List.mem_map.2 ⟨x, hxd, ?_⟩
  omega

/-- The loop of `HashSection::copy_buf` keeps, for every bucket, the chain of
the symbols inserted so far, the one inserted last first. -/
theorem insert_loop_spec (elf_hash : Bytes → Nat) (syms : SymId → Symbol) (n : Nat) :
    ∀ (rest done : List SymId) (t : HashTable),
    t.buckets.length = n → t.chains.length = n →
    (∀ b, b < n → IsChain t.chains (t.buckets.getD b 0) (bucket_chain elf_hash syms n done b)) →
    ((done ++ rest).map fun s => (syms s).dynsym_idx).Nodup →
    (∀ s ∈ rest, 1 ≤ (syms s).dynsym_idx ∧ (syms s).dynsym_idx < n) →
    (∀ s ∈ done, 1 ≤ (syms s).dynsym_idx) →
    ∃ t', HashSection.insert_loop elf_hash syms n rest t = some t'
      ∧ t'.nbucket = t.nbucket ∧ t'.nchain = t.nchain
      ∧ t'.buckets.length = n ∧ t'.chains.length = n
      ∧ ∀ b, b < n →
          IsChain t'.chains (t'.buckets.getD b 0) (bucket_chain elf_hash syms n (done ++ rest) b) := by
  intro rest
  induction rest with
  | nil =>
    intro done t hb hc hinv _ _ _
    exact ⟨t, rfl, rfl, rfl, hb, hc, by simpa using hinv⟩
  | cons s rest ih =>
    intro done t hb hc hinv hnd hrange hdone
    obtain ⟨hs1, hs2⟩ := hrange s (by simp)
    have hnpos : 0 < n := by omega
    have hidx : (syms s).dynsym_idx.toNat < n := by omega
    have hidx0 : (syms s).dynsym_idx.toNat ≠ 0 := by omega
    have hslot : hash_slot elf_hash syms n s < n := Nat.mod_lt _ hnpos
    have hnew : (syms s).dynsym_idx ∉ done.map fun x => (syms x).dynsym_idx := by
      rw [List.map_append, List.map_cons] at hnd
      have := (List.nodup_append.1 hnd).2.2
      intro hm
      exact this hm (by simp)
    have hstep : HashSection.insert_loop elf_hash syms n (s :: rest) t
        = HashSection.insert_loop elf_hash syms n rest
            { t with
              chains := t.chains.set (syms s).dynsym_idx.toNat
                (t.buckets.getD (hash_slot elf_hash syms n s) 0)
              buckets := t.buckets.set (hash_slot elf_hash syms n s)
                (syms s).dynsym_idx.toNat } := by
      simp only [HashSection.insert_loop]
      rw [if_pos ⟨by omega, hs2⟩]
      rfl
    rw [hstep]
    have hres := ih (done ++ [s])
      { t with
        chains := t.chains.set (syms s).dynsym_idx.toNat
          (t.buckets.getD (hash_slot elf_hash syms n s) 0)
        buckets := t.buckets.set (hash_slot elf_hash syms n s) (syms s).dynsym_idx.toNat }
      (by simp [hb]) (by simp [hc])
      (by
        intro b hbn
        have hnot := not_mem_bucket_chain elf_hash syms n done s b hdone hs1 hnew
        rw [bucket_chain_snoc]
        by_cases hsb : hash_slot elf_hash syms n s = b
        · rw [if_pos hsb]
          subst hsb
          refine ⟨?_, hidx0, ?_⟩
          · exact getD_set_self _ _ _ (by rw [hb]; exact hslot)
          · show IsChain (t.chains.set _ _) ((t.chains.set _ _).getD _ 0) _
            rw [getD_set_self _ _ _ (by rw [hc]; exact hidx)]
            exact isChain_set _ _ _ _ _ (hinv _ hbn) hnot
        · rw [if_neg hsb]
          show IsChain (t.chains.set _ _) ((t.buckets.set _ _).getD b 0) _
          rw [getD_set_ne _ _ _ _ hsb]
          exact isChain_set _ _ _ _ _ (hinv _ hbn) hnot)
      (by simpa using hnd)
      (fun x hx => hrange x (by simp [hx]))
      (by
        intro x hx
        rcases List.mem_append.1 hx with h | h
        · exact hdone x h
        · rw [List.mem_singleton.1 h]; exact hs1)
    obtain ⟨t', h1, h2, h3, h4, h5, h6⟩ := hres
    refine ⟨t', h1, h2, h3, h4, h5, ?_⟩
    intro b hbn
    have := h6 b hbn
    rwa [List.append_assoc, List.singleton_append] at this

/-- C3: for a dynsym vector whose `dynsym_idx` values are distinct and lie in
`1..N` (as after `sort_symbols`), with a table size that fits an `int`,
`HashSection::copy_buf` writes a table with `nbucket = nchain = N + 1` whose
two arrays have `N + 1` words each (`sh_size` of `update_shdr` is exactly the
header plus both arrays), and for every symbol `e` the walk from
`buckets[elf_hash(e.name) % nbucket]` along `chains` visits `e.dynsym_idx`
before the terminator 0. -/
theorem hash_lookup_reaches (elf_hash : Bytes → Nat) (syms : SymId → Symbol)
    (dynsym : DynsymSection)
    (hnd : (dynsym.symbols.map fun s => (syms s).dynsym_idx).Nodup)
    (hrange : ∀ s ∈ dynsym.symbols,
      1 ≤ (syms s).dynsym_idx ∧ (syms s).dynsym_idx ≤ dynsym.symbols.length)
    (hlen : 8 * (dynsym.symbols.length + 2) < 2 ^ 31) :
    ∃ t, HashSection.copy_buf elf_hash syms dynsym = some t
      ∧ t.nbucket = dynsym.symbols.length + 1
      ∧ t.nchain = dynsym.symbols.length + 1
      ∧ t.buckets.length = dynsym.symbols.length + 1
      ∧ t.chains.length = dynsym.symbols.length + 1
      ∧ HashSection.update_shdr dynsym = 4 * (2 + t.buckets.length + t.chains.length)
      ∧ ∀ e ∈ dynsym.symbols,
          (syms e).dynsym_idx.toNat ∈ t.lookup (u32 (elf_hash (syms e).name))
          ∧ 0 ∉ t.lookup (u32 (elf_hash (syms e).name)) := by
  have hn : toI32 ((dynsym.symbols.length : Int) + 1)
      = ((dynsym.symbols.length + 1 : Nat) : Int) := by
    rw [toI32_of_lt _ (by omega) (by omega)]
    push_cast
    rfl
  have hspec := insert_loop_spec elf_hash syms (dynsym.symbols.length + 1) dynsym.symbols []
    { nbucket := dynsym.symbols.length + 1, nchain := dynsym.symbols.length + 1
      buckets := List.replicate (dynsym.symbols.length + 1) 0
      chains := List.replicate (dynsym.symbols.length + 1) 0 }
    (by simp) (by simp)
    (by
      intro b hb
      show IsChain _ ((List.replicate _ 0).getD b 0) []
      have : (List.replicate (dynsym.symbols.length + 1) 0).getD b 0 = 0 := by
        simp [List.getD_eq_getElem?_getD, List.getElem?_replicate, hb]
      rw [this]
      rfl)
    (by simpa using hnd)
    (by
      intro x hx
      have := hrange x hx
      constructor
      · exact this.1
      · push_cast; omega)
    (by intro x hx; simp at hx)
  obtain ⟨t, h1, h2', h3', h4, h5, h6⟩ := hspec
  have h2 : t.nbucket = dynsym.symbols.length + 1 := h2'
  have h3 : t.nchain = dynsym.symbols.length + 1 := h3'
  clear h2' h3'
  refine ⟨t, ?_, h2, h3, h4, h5, ?_, ?_⟩
  · unfold HashSection.copy_buf
    simp only [hn]
    rw [if_neg (by push_cast; omega)]
    simpa using h1
  · have ha : toI32 (((dynsym.symbols.length + 1 : Nat) : Int) * 8)
        = ((8 * (dynsym.symbols.length + 1) : Nat) : Int) := by
      rw [toI32_of_lt _ (by omega) (by omega)]
      push_cast
      omega
    have hb : toI32 (8 + ((8 * (dynsym.symbols.length + 1) : Nat) : Int))
        = ((8 + 8 * (dynsym.symbols.length + 1) : Nat) : Int) := by
      rw [toI32_of_lt _ (by omega) (by omega)]
      push_cast
      omega
    unfold HashSection.update_shdr
    simp only [hn, ha, hb]
    rw [h4, h5]
    unfold intToU64
    omega
  · intro e he
    have hslot : u32 (elf_hash (syms e).name) % t.nbucket
        = hash_slot elf_hash syms (dynsym.symbols.length + 1) e := by
      rw [h2]; rfl
    have hchain := h6 (hash_slot elf_hash syms (dynsym.symbols.length + 1) e)
      (Nat.mod_lt _ (Nat.succ_pos _))
    rw [List.nil_append] at hchain
    have hlenle : (bucket_chain elf_hash syms (dynsym.symbols.length + 1) dynsym.symbols
        (hash_slot elf_hash syms (dynsym.symbols.length + 1) e)).length ≤ t.nchain := by
      unfold bucket_chain
      rw [List.length_map, h3]
      refine le_trans (List.length_filter_le _ _) ?_
      rw [List.length_reverse]
      omega
    have hwalk : t.lookup (u32 (elf_hash (syms e).name))
        = bucket_chain elf_hash syms (dynsym.symbols.length + 1) dynsym.symbols
            (hash_slot elf_hash syms (dynsym.symbols.length + 1) e) := by
      unfold HashTable.lookup
      rw [hslot]
      exact chain_walk_of_isChain _ _ _ _ hchain hlenle
    rw [hwalk]
    constructor
    · unfold bucket_chain
      refine List.mem_map.2 ⟨e, ?_, rfl⟩
      exact List.mem_filter.2 ⟨List.mem_reverse.2 he, by simp⟩
    · intro h0
      unfold bucket_chain at h0
      obtain ⟨x, hx, hxe⟩ := List.mem_map.1 h0
      have := (hrange x (List.mem_reverse.1 (List.mem_filter.1 hx).1)).1
      omega

/-- C3, for three symbols that all hash to bucket 0: the lookup of the symbol
inserted first walks 3, 2, 1. -/
theorem hash_lookup_reaches_witness :
    (HashSection.copy_buf constHash hashStore hashDynsym).map
        (fun t => (t.nbucket, t.nchain, t.buckets, t.chains, t.lookup (u32 (constHash [0x61]))))
      = some (4, 4, [3, 0, 0, 0], [0, 0, 1, 2], [3, 2, 1])
    ∧ ∃ t, HashSection.copy_buf constHash hashStore hashDynsym = some t
        ∧ (hashStore 0).dynsym_idx.toNat ∈ t.lookup (u32 (constHash (hashStore 0).name)) :=
  ⟨by decide,
    have h := hash_lookup_reaches constHash hashStore hashDynsym (by decide) (by decide)
      (by decide)
    h.elim fun t ht => ⟨t, ht.1, (ht.2.2.2.2.2.2 0 (by decide)).1⟩⟩

/-! ## Claims on the idempotent requests -/

/-- C15: on a symbol with `dynsym_idx = -1` the first call of
`DynsymSection::add_symbol` appends exactly one entry to `symbols` and to
`name_indices` and reserves one name slot in `.dynstr` (the offset recorded is
the size of `.dynstr` before the call, which grows by the name and its NUL);
a second call on the same symbol changes nothing. -/
theorem dynsym_add_symbol_idempotent (syms : SymId → Symbol) (dynstr : DynstrSection)
    (self : DynsymSection) (sym : SymId) (h : (syms sym).dynsym_idx = -1) :
    (self.add_symbol syms dynstr sym).2.2.symbols = self.symbols ++ [sym]
    ∧ (self.add_symbol syms dynstr sym).2.2.name_indices
        = self.name_indices ++ [u32 dynstr.sh_size]
    ∧ (self.add_symbol syms dynstr sym).2.1.contents = dynstr.contents ++ [(syms sym).name]
    ∧ (self.add_symbol syms dynstr sym).2.1.sh_size
        = u64 (dynstr.sh_size + ((syms sym).name.length + 1))
    ∧ ((self.add_symbol syms dynstr sym).1 sym).dynsym_idx = -2
    ∧ (self.add_symbol syms dynstr sym).2.2.add_symbol (self.add_symbol syms dynstr sym).1
          (self.add_symbol syms dynstr sym).2.1 sym
        = self.add_symbol syms dynstr sym := by
  have hidx : ((self.add_symbol syms dynstr sym).1 sym).dynsym_idx = -2 := by
    simp [DynsymSection.add_symbol, h, Function.update_same]
  refine ⟨?_, ?_, ?_, ?_, hidx, ?_⟩
  · simp [DynsymSection.add_symbol, h]
  · simp [DynsymSection.add_symbol, h, DynstrSection.add_string, Function.update_same]
  · simp [DynsymSection.add_symbol, h, DynstrSection.add_string, Function.update_same]
  · simp [DynsymSection.add_symbol, h, DynstrSection.add_string, Function.update_same]
  · generalize self.add_symbol syms dynstr sym = r at hidx ⊢
    unfold DynsymSection.add_symbol
    rw [if_pos (by rw [hidx]; decide)]

/-- C15, on the first symbol of a fresh state. -/
theorem dynsym_add_symbol_idempotent_witness :
    (freshCtx.dynsym.add_symbol freshCtx.syms freshCtx.dynstr 0).2.2.symbols = [0]
    ∧ (freshCtx.dynsym.add_symbol freshCtx.syms freshCtx.dynstr 0).2.2.name_indices = [1]
    ∧ (freshCtx.dynsym.add_symbol freshCtx.syms freshCtx.dynstr 0).2.1.sh_size = 3 :=
  have h := dynsym_add_symbol_idempotent freshCtx.syms freshCtx.dynstr freshCtx.dynsym 0
    (by decide)
  ⟨h.1, h.2.1, by decide⟩

/-- C16: starting with `tlsld_idx = -1` (and a GOT small enough for the index
to fit an `int`), `GotSection::add_tlsld` sets `tlsld_idx` to the pre-call
`sh_size / 8` and grows `sh_size` by 16; a second call changes no field, so
two calls leave the index of the first call and 16 bytes in total. -/
theorem add_tlsld_idempotent (got : GotSection) (h : got.tlsld_idx = -1)
    (hidx : got.sh_size / GOT_SIZE < 2 ^ 31) :
    got.add_tlsld.tlsld_idx = (got.sh_size / GOT_SIZE : Nat)
    ∧ got.add_tlsld.sh_size = got.sh_size + 16
    ∧ got.add_tlsld.add_tlsld = got.add_tlsld
    ∧ got.add_tlsld.add_tlsld.tlsld_idx = (got.sh_size / GOT_SIZE : Nat)
    ∧ got.add_tlsld.add_tlsld.sh_size = got.sh_size + 16 := by
  have h8 : GOT_SIZE = 8 := rfl
  rw [h8] at hidx ⊢
  have hsz : got.sh_size + 8 * 2 < 2 ^ 64 := by omega
  have h0 : (0 : Int) ≤ ((got.sh_size / 8 : Nat) : Int) := Int.natCast_nonneg _
  have hlt : ((got.sh_size / 8 : Nat) : Int) < 2 ^ 31 := by exact_mod_cast hidx
  have h1 : got.add_tlsld.tlsld_idx = (got.sh_size / 8 : Nat) := by
    unfold GotSection.add_tlsld
    rw [if_neg (by rw [h]; decide), h8]
    exact toI32_of_lt _ h0 hlt
  have h2 : got.add_tlsld.sh_size = got.sh_size + 16 := by
    unfold GotSection.add_tlsld
    rw [if_neg (by rw [h]; decide), h8]
    exact u64_of_lt _ hsz
  have h3 : got.add_tlsld.add_tlsld = got.add_tlsld := by
    generalize got.add_tlsld = g at h1 ⊢
    unfold GotSection.add_tlsld
    rw [if_pos (by rw [h1]; omega)]
  refine ⟨h1, h2, h3, ?_, ?_⟩
  · rw [h3]; exact h1
  · rw [h3]; exact h2

/-- C16, on a GOT of three entries. -/
theorem add_tlsld_idempotent_witness :
    ({ sh_size := 24 } : GotSection).add_tlsld.add_tlsld.tlsld_idx = 3
    ∧ ({ sh_size := 24 } : GotSection).add_tlsld.add_tlsld.sh_size = 40 :=
  have h := add_tlsld_idempotent { sh_size := 24 } rfl (by decide)
  ⟨h.2.2.2.1, h.2.2.2.2⟩

/-! ## GOT and PLT requests -/

/-- `DynsymSection::add_symbol` writes no field of any symbol other than
`dynsym_idx`. -/
theorem dynsym_add_symbol_frame (syms : SymId → Symbol) (dynstr : DynstrSection)
    (self : DynsymSection) (sym s : SymId) :
    ((self.add_symbol syms dynstr sym).1 s).got_idx = (syms s).got_idx
    ∧ ((self.add_symbol syms dynstr sym).1 s).gotplt_idx = (syms s).gotplt_idx
    ∧ ((self.add_symbol syms dynstr sym).1 s).plt_idx = (syms s).plt_idx
    ∧ ((self.add_symbol syms dynstr sym).1 s).has_copyrel = (syms s).has_copyrel
    ∧ ((self.add_symbol syms dynstr sym).1 s).is_imported = (syms s).is_imported
    ∧ ((self.add_symbol syms dynstr sym).1 s).value = (syms s).value
    ∧ ((self.add_symbol syms dynstr sym).1 s).esym_st_size = (syms s).esym_st_size
    ∧ ((self.add_symbol syms dynstr sym).1 s).name = (syms s).name := by
  unfold DynsymSection.add_symbol
  split_ifs with h
  · simp
  · by_cases hs : s = sym
    · subst hs; simp [Function.update_same]
    · simp [Function.update_noteq hs]

theorem add_got_symbol_fields (ctx ctx1 : Ctx) (sym : SymId)
    (h : GotSection.add_got_symbol ctx sym = some ctx1) :
    (ctx.syms sym).got_idx = -1
    ∧ (∀ s, (ctx1.syms s).gotplt_idx = (ctx.syms s).gotplt_idx)
    ∧ (∀ s, s ≠ sym → (ctx1.syms s).got_idx = (ctx.syms s).got_idx) := by
  unfold GotSection.add_got_symbol at h
  split_ifs at h with h0
  have h1 := Option.some.inj h
  subst h1
  refine ⟨by simpa using h0, ?_, ?_⟩
  · intro s
    by_cases hs : s = sym
    · subst hs; simp [Function.update_same]
    · simp [Function.update_noteq hs]
  · intro s hs
    simp [Function.update_noteq hs]

theorem plt_add_symbol_fields (ctx ctx1 : Ctx) (sym : SymId)
    (h : PltSection.add_symbol ctx sym = some ctx1) :
    (∀ s, (ctx1.syms s).got_idx = (ctx.syms s).got_idx)
    ∧ (∀ s, s ≠ sym → (ctx1.syms s).gotplt_idx = (ctx.syms s).gotplt_idx)
    ∧ ((ctx.syms sym).got_idx ≠ -1 →
        (ctx1.syms sym).gotplt_idx = (ctx.syms sym).gotplt_idx) := by
  simp only [PltSection.add_symbol] at h
  split_ifs at h with h0 h1
  · have h2 := Option.some.inj h
    subst h2
    refine ⟨?_, ?_, ?_⟩
    · intro s
      rw [Ctx.dynsym_add_symbol, (dynsym_add_symbol_frame _ _ _ _ _).1]
      by_cases hs : s = sym
      · subst hs; simp [Function.update_same]
      · simp [Function.update_noteq hs]
    · intro s hs
      rw [Ctx.dynsym_add_symbol, (dynsym_add_symbol_frame _ _ _ _ _).2.1]
      simp [Function.update_noteq hs]
    · intro hg
      simp [Function.update_same] at h1
      exact absurd h1 hg
  · have h2 := Option.some.inj h
    subst h2
    refine ⟨?_, ?_, ?_⟩
    · intro s
      by_cases hs : s = sym
      · subst hs; simp [Function.update_same]
      · simp [Function.update_noteq hs]
    · intro s hs
      simp [Function.update_noteq hs]
    · intro _
      simp [Function.update_same]

theorem run_got_plt_invariant : ∀ (calls : List GotPltCall) (ctx ctx1 : Ctx),
    (∀ s, (ctx.syms s).got_idx = -1 ∨ (ctx.syms s).gotplt_idx = -1) →
    (∀ s, (ctx.syms s).gotplt_idx ≠ -1 → GotPltCall.got s ∉ calls) →
    got_calls_first calls = true →
    run_got_plt ctx calls = some ctx1 →
    ∀ s, (ctx1.syms s).got_idx = -1 ∨ (ctx1.syms s).gotplt_idx = -1 := by
  intro calls
  induction calls with
  | nil =>
    intro ctx ctx1 h1 _ _ hrun
    have := Option.some.inj hrun
    subst this
    exact h1
  | cons c rest ih =>
    intro ctx ctx1 h1 h2 hfirst hrun
    cases c with
    | got sym =>
      simp only [run_got_plt] at hrun
      cases hstep : GotSection.add_got_symbol ctx sym with
      | none => simp [hstep] at hrun
      | some ctx2 =>
        simp only [hstep] at hrun
        obtain ⟨_, f2, f3⟩ := add_got_symbol_fields ctx ctx2 sym hstep
        have hsym : (ctx.syms sym).gotplt_idx = -1 := by
          by_contra hne
          exact h2 sym hne (by simp)
        refine ih ctx2 ctx1 ?_ ?_ (by simpa [got_calls_first] using hfirst) hrun
        · intro s
          by_cases hs : s = sym
          · right; rw [f2, hs]; exact hsym
          · rw [f2, f3 s hs]; exact h1 s
        · intro s hs hmem
          rw [f2] at hs
          exact h2 s hs (List.mem_cons_of_mem _ hmem)
    | plt sym =>
      simp only [run_got_plt] at hrun
      cases hstep : PltSection.add_symbol ctx sym with
      | none => simp [hstep] at hrun
      | some ctx2 =>
        simp only [hstep] at hrun
        obtain ⟨f1, f2, f3⟩ := plt_add_symbol_fields ctx ctx2 sym hstep
        simp only [got_calls_first, Bool.and_eq_true, Bool.not_eq_true',
          List.contains_eq_any_beq, List.any_eq_false, beq_iff_eq] at hfirst
        refine ih ctx2 ctx1 ?_ ?_ hfirst.2 hrun
        · intro s
          by_cases hs : s = sym
          · subst hs
            by_cases hg : (ctx.syms s).got_idx = -1
            · left; rw [f1]; exact hg
            · rw [f1, f3 hg]; exact h1 s
          · rw [f1, f2 s hs]; exact h1 s
        · intro s hs hmem
          by_cases hsym : s = sym
          · subst hsym
            exact hfirst.1 _ hmem rfl
          · rw [f2 s hsym] at hs
            exact h2 s hs (List.mem_cons_of_mem _ hmem)

/-- C13 (as stated, refuted): from a fresh state, `PltSection::add_symbol(s)`
followed by `GotSection::add_got_symbol(s)` passes both assertions and leaves
`s` with `gotplt_idx = 3` and `got_idx = 0`, both set. -/
theorem got_and_gotplt_both_set :
    (freshCtx.syms 0).got_idx = -1 ∧ (freshCtx.syms 0).gotplt_idx = -1
    ∧ (freshCtx.syms 0).plt_idx = -1
    ∧ (run_got_plt freshCtx [GotPltCall.plt 0, GotPltCall.got 0]).map
        (fun c => ((c.syms 0).plt_idx, (c.syms 0).gotplt_idx, (c.syms 0).got_idx))
      = some (1, 3, 0) := by
  decide

/-- C13 (amended): start from a state where all GOT and PLT indices of every
symbol are -1 and run `GotSection::add_got_symbol` and `PltSection::add_symbol`
(each with its assertion holding), never giving a symbol to `add_got_symbol`
after it was given to `PltSection::add_symbol`.  Then in the state reached every
symbol has at most one of `got_idx` and `gotplt_idx` different from -1. -/
theorem got_gotplt_exclusive (ctx ctx1 : Ctx) (calls : List GotPltCall)
    (hinit : ∀ s, (ctx.syms s).unallocated)
    (horder : got_calls_first calls = true)
    (hrun : run_got_plt ctx calls = some ctx1) :
    ∀ s, (ctx1.syms s).got_idx = -1 ∨ (ctx1.syms s).gotplt_idx = -1 :=
  run_got_plt_invariant calls ctx ctx1 (fun s => Or.inl (hinit s).1)
    (fun s hs => absurd (hinit s).2.1 hs) horder hrun

/-- C13 (amended), for the calls GOT on symbol 0, PLT on symbol 0, PLT on
symbol 1: symbol 0 keeps its GOT slot only, symbol 1 gets a GOTPLT slot only. -/
theorem got_gotplt_exclusive_witness :
    (run_got_plt freshCtx [GotPltCall.got 0, GotPltCall.plt 0, GotPltCall.plt 1]).map
        (fun c => ((c.syms 0).got_idx, (c.syms 0).gotplt_idx,
                   (c.syms 1).got_idx, (c.syms 1).gotplt_idx))
      = some (0, -1, -1, 3)
    ∧ ∀ c, run_got_plt freshCtx [GotPltCall.got 0, GotPltCall.plt 0, GotPltCall.plt 1] = some c →
        ∀ s, (c.syms s).got_idx = -1 ∨ (c.syms s).gotplt_idx = -1 :=
  ⟨by decide, fun c hc =>
    got_gotplt_exclusive freshCtx c [GotPltCall.got 0, GotPltCall.plt 0, GotPltCall.plt 1]
      (fun _ => ⟨rfl, rfl, rfl, rfl, rfl⟩) (by decide) hc⟩

/-! ## Copy relocations -/

theorem dynsym_add_symbol_idx (syms : SymId → Symbol) (dynstr : DynstrSection)
    (self : DynsymSection) (sym x : SymId) :
    ((self.add_symbol syms dynstr sym).1 x).dynsym_idx
      = if x = sym ∧ (syms sym).dynsym_idx = -1 then -2 else (syms x).dynsym_idx := by
  unfold DynsymSection.add_symbol
  by_cases h : (syms sym).dynsym_idx = -1
  · rw [if_neg (by simp [h])]
    by_cases hx : x = sym
    · subst hx; simp [Function.update_same, h]
    · simp [Function.update_noteq hx, hx]
  · rw [if_pos h]
    simp [h]

theorem dynsym_add_symbol_symbols (syms : SymId → Symbol) (dynstr : DynstrSection)
    (self : DynsymSection) (sym : SymId) :
    (self.add_symbol syms dynstr sym).2.2.symbols
      = if (syms sym).dynsym_idx = -1 then self.symbols ++ [sym] else self.symbols := by
  unfold DynsymSection.add_symbol
  by_cases h : (syms sym).dynsym_idx = -1
  · simp [h]
  · simp [h]

/-- `DynsymSection::add_symbol` keeps the dynsym vector consistent with the
`dynsym_idx` fields, and the symbol given is in the vector afterwards. -/
theorem dynsym_add_symbol_consistent (ctx : Ctx) (sym : SymId) (h : ctx.dynsym_consistent) :
    (ctx.dynsym_add_symbol sym).dynsym_consistent
    ∧ sym ∈ (ctx.dynsym_add_symbol sym).dynsym.symbols := by
  obtain ⟨hnd, hiff⟩ := h
  unfold Ctx.dynsym_consistent Ctx.dynsym_add_symbol
  simp only [dynsym_add_symbol_symbols, dynsym_add_symbol_idx]
  by_cases hidx : (ctx.syms sym).dynsym_idx = -1
  · have hnot : sym ∉ ctx.dynsym.symbols := fun hm => (hiff sym).1 hm hidx
    simp only [hidx, if_true, and_true]
    refine ⟨⟨?_, ?_⟩, by simp⟩
    · rw [List.nodup_append]
      refine ⟨hnd, List.nodup_singleton _, ?_⟩
      intro a ha hb
      rw [List.mem_singleton] at hb
      exact hnot (hb ▸ ha)
    · intro s
      by_cases hs : s = sym
      · subst hs; simp
      · simp [hs, hiff s]
  · simp only [hidx, if_false, and_false]
    exact ⟨⟨hnd, hiff⟩, (hiff sym).2 hidx⟩

/-- The invariant of the copy-relocation requests: both vectors are consistent
with the symbol fields, and a symbol with a copy relocation is in dynsym. -/
theorem copyrel_add_symbol_invariant (align_to : Nat → Nat → Nat) (ctx ctx1 : Ctx)
    (sym : SymId)
    (hc : ctx.copyrel_consistent) (hd : ctx.dynsym_consistent)
    (hcd : ∀ x, (ctx.syms x).has_copyrel = true → x ∈ ctx.dynsym.symbols)
    (hstep : CopyrelSection.add_symbol align_to ctx sym = some ctx1) :
    ctx1.copyrel_consistent ∧ ctx1.dynsym_consistent
    ∧ (∀ x, (ctx1.syms x).has_copyrel = true → x ∈ ctx1.dynsym.symbols)
    ∧ (∀ x, (ctx1.syms x).is_imported = (ctx.syms x).is_imported)
    ∧ (ctx1.syms sym).has_copyrel = true := by
  simp only [CopyrelSection.add_symbol] at hstep
  split_ifs at hstep with h0 h1
  · have := Option.some.inj hstep
    subst this
    exact ⟨hc, hd, hcd, fun _ => rfl, h1⟩
  · have := Option.some.inj hstep
    subst this
    have hd1 : Ctx.dynsym_consistent
        { ctx with
          syms := Function.update ctx.syms sym
            { ctx.syms sym with
              value := align_to ctx.copyrel.sh_size ctx.copyrel.sh_addralign
              has_copyrel := true }
          copyrel := { ctx.copyrel with
            sh_size := u64 (align_to ctx.copyrel.sh_size ctx.copyrel.sh_addralign
              + (ctx.syms sym).esym_st_size)
            symbols := ctx.copyrel.symbols ++ [sym] } } := by
      refine ⟨hd.1, ?_⟩
      intro s
      rw [hd.2 s]
      by_cases hs : s = sym
      · subst hs; simp [Function.update_same]
      · simp [Function.update_noteq hs]
    obtain ⟨hd2, hmem⟩ := dynsym_add_symbol_consistent _ sym hd1
    have hnot : sym ∉ ctx.copyrel.symbols := fun hm => h1 ((hc.2 sym).1 hm)
    have hcop : ∀ x, ((Ctx.dynsym_add_symbol
        { ctx with
          syms := Function.update ctx.syms sym
            { ctx.syms sym with
              value := align_to ctx.copyrel.sh_size ctx.copyrel.sh_addralign
              has_copyrel := true }
          copyrel := { ctx.copyrel with
            sh_size := u64 (align_to ctx.copyrel.sh_size ctx.copyrel.sh_addralign
              + (ctx.syms sym).esym_st_size)
            symbols := ctx.copyrel.symbols ++ [sym] } } sym).syms x).has_copyrel
        = if x = sym then true else (ctx.syms x).has_copyrel := by
      intro x
      rw [Ctx.dynsym_add_symbol, (dynsym_add_symbol_frame _ _ _ _ _).2.2.2.1]
      by_cases hx : x = sym
      · subst hx; simp [Function.update_same]
      · simp [Function.update_noteq hx, hx]
    refine ⟨⟨?_, ?_⟩, hd2, ?_, ?_, ?_⟩
    · show (ctx.copyrel.symbols ++ [sym]).Nodup
      rw [List.nodup_append]
      refine ⟨hc.1, List.nodup_singleton _, ?_⟩
      intro a ha hb
      rw [List.mem_singleton] at hb
      exact hnot (hb ▸ ha)
    · intro x
      rw [hcop]
      show x ∈ ctx.copyrel.symbols ++ [sym] ↔ _
      by_cases hx : x = sym
      · simp [hx]
      · simp [hx, hc.2 x]
    · intro x hx
      rw [hcop] at hx
      by_cases hxs : x = sym
      · rw [hxs]; exact hmem
      · rw [if_neg hxs] at hx
        have hold := hcd x hx
        rw [Ctx.dynsym_add_symbol]
        simp only [dynsym_add_symbol_symbols]
        split_ifs
        · exact List.mem_append_left _ hold
        · exact hold
    · intro x
      rw [Ctx.dynsym_add_symbol, (dynsym_add_symbol_frame _ _ _ _ _).2.2.2.2.1]
      by_cases hx : x = sym
      · subst hx; simp [Function.update_same]
      · simp [Function.update_noteq hx]
    · rw [hcop]; simp

theorem copyrel_add_symbols_invariant (align_to : Nat → Nat → Nat) :
    ∀ (calls : List SymId) (ctx ctx1 : Ctx),
    ctx.copyrel_consistent → ctx.dynsym_consistent →
    (∀ x, (ctx.syms x).has_copyrel = true → x ∈ ctx.dynsym.symbols) →
    CopyrelSection.add_symbols align_to ctx calls = some ctx1 →
    ctx1.copyrel_consistent ∧ ctx1.dynsym_consistent
    ∧ (∀ x, (ctx1.syms x).has_copyrel = true → x ∈ ctx1.dynsym.symbols) := by
  intro calls
  induction calls with
  | nil =>
    intro ctx ctx1 hc hd hcd hrun
    have := Option.some.inj hrun
    subst this
    exact ⟨hc, hd, hcd⟩
  | cons sym rest ih =>
    intro ctx ctx1 hc hd hcd hrun
    simp only [CopyrelSection.add_symbols] at hrun
    cases hstep : CopyrelSection.add_symbol align_to ctx sym with
    | none => simp [hstep] at hrun
    | some ctx2 =>
      simp only [hstep] at hrun
      obtain ⟨a, b, c, _, _⟩ := copyrel_add_symbol_invariant align_to ctx ctx2 sym hc hd hcd hstep
      exact ih ctx2 ctx1 a b c hrun

theorem copyrel_add_symbols_imported (align_to : Nat → Nat → Nat) :
    ∀ (calls : List SymId) (ctx ctx1 : Ctx),
    CopyrelSection.add_symbols align_to ctx calls = some ctx1 →
    ∀ x, (ctx1.syms x).is_imported = (ctx.syms x).is_imported := by
  intro calls
  induction calls with
  | nil =>
    intro ctx ctx1 hrun x
    have := Option.some.inj hrun
    subst this
    rfl
  | cons sym rest ih =>
    intro ctx ctx1 hrun x
    simp only [CopyrelSection.add_symbols] at hrun
    cases hstep : CopyrelSection.add_symbol align_to ctx sym with
    | none => simp [hstep] at hrun
    | some ctx2 =>
      simp only [hstep] at hrun
      rw [ih ctx2 ctx1 hrun x]
      simp only [CopyrelSection.add_symbol] at hstep
      split_ifs at hstep with h0 h1
      · have := Option.some.inj hstep
        subst this
        rfl
      · have := Option.some.inj hstep
        subst this
        rw [Ctx.dynsym_add_symbol, (dynsym_add_symbol_frame _ _ _ _ _).2.2.2.2.1]
        by_cases hx : x = sym
        · subst hx; simp [Function.update_same]
        · simp [Function.update_noteq hx]

theorem copyrel_add_symbol_fresh (align_to : Nat → Nat → Nat) (ctx ctx1 : Ctx) (sym : SymId)
    (hcop : (ctx.syms sym).has_copyrel = false)
    (hstep : CopyrelSection.add_symbol align_to ctx sym = some ctx1) :
    (ctx1.syms sym).value = align_to ctx.copyrel.sh_size ctx.copyrel.sh_addralign
    ∧ ctx1.copyrel.sh_size
        = u64 (align_to ctx.copyrel.sh_size ctx.copyrel.sh_addralign
            + (ctx.syms sym).esym_st_size) := by
  simp only [CopyrelSection.add_symbol] at hstep
  split_ifs at hstep with h0 h1
  · rw [hcop] at h1
    exact Bool.noConfusion h1
  · have := Option.some.inj hstep
    subst this
    constructor
    · rw [Ctx.dynsym_add_symbol, (dynsym_add_symbol_frame _ _ _ _ _).2.2.2.2.2.1]
      simp [Function.update_same]
    · rfl

/-- C12: in a state reached from an empty `.copyrel` section through
`CopyrelSection::add_symbol` calls (the dynsym vector being consistent with the
`dynsym_idx` fields at the start), for an imported symbol `s`: if `s` has no
copy relocation, `add_symbol(s)` sets `s.value` to `align_to(sh_size,
sh_addralign)` of the pre-call size, sets `has_copyrel`, grows `sh_size` to
`s.value + s.esym.st_size` (64-bit), and leaves `s` exactly once in
`Copyrel.symbols` and exactly once in the dynsym vector; if `s` has a copy
relocation it is exactly once in both vectors; in both cases a repeated
`add_symbol(s)` changes nothing. -/
theorem copyrel_add_symbol_once (align_to : Nat → Nat → Nat) (ctx0 ctx : Ctx)
    (calls : List SymId) (s : SymId)
    (hempty : ctx0.copyrel.symbols = [])
    (hnone : ∀ x, (ctx0.syms x).has_copyrel = false)
    (hdyn : ctx0.dynsym_consistent)
    (hrun : CopyrelSection.add_symbols align_to ctx0 calls = some ctx)
    (himp : (ctx.syms s).is_imported = true) :
    ((ctx.syms s).has_copyrel = false →
      ∃ ctx1, CopyrelSection.add_symbol align_to ctx s = some ctx1
        ∧ (ctx1.syms s).value = align_to ctx.copyrel.sh_size ctx.copyrel.sh_addralign
        ∧ (ctx1.syms s).has_copyrel = true
        ∧ ctx1.copyrel.sh_size = u64 ((ctx1.syms s).value + (ctx.syms s).esym_st_size)
        ∧ ((ctx1.syms s).value + (ctx.syms s).esym_st_size < 2 ^ 64 →
            ctx1.copyrel.sh_size = (ctx1.syms s).value + (ctx.syms s).esym_st_size)
        ∧ ctx1.copyrel.symbols.count s = 1
        ∧ ctx1.dynsym.symbols.count s = 1
        ∧ CopyrelSection.add_symbol align_to ctx1 s = some ctx1)
    ∧ ((ctx.syms s).has_copyrel = true →
        ctx.copyrel.symbols.count s = 1
        ∧ ctx.dynsym.symbols.count s = 1
        ∧ CopyrelSection.add_symbol align_to ctx s = some ctx) := by
  have hc0 : ctx0.copyrel_consistent := by
    refine ⟨by rw [hempty]; exact List.nodup_nil, ?_⟩
    intro x
    rw [hempty, hnone x]
    simp
  have hcd0 : ∀ x, (ctx0.syms x).has_copyrel = true → x ∈ ctx0.dynsym.symbols := by
    intro x hx
    rw [hnone x] at hx
    exact Bool.noConfusion hx
  obtain ⟨hc, hd, hcd⟩ := copyrel_add_symbols_invariant align_to calls ctx0 ctx hc0 hdyn hcd0 hrun
  have hagain : ∀ c : Ctx, (c.syms s).is_imported = true → (c.syms s).has_copyrel = true →
      CopyrelSection.add_symbol align_to c s = some c := by
    intro c h1 h2
    simp [CopyrelSection.add_symbol, h1, h2]
  constructor
  · intro hcop
    cases hstep : CopyrelSection.add_symbol align_to ctx s with
    | none => simp [CopyrelSection.add_symbol, himp, hcop] at hstep
    | some ctx1 =>
      obtain ⟨a, b, c, d, e⟩ := copyrel_add_symbol_invariant align_to ctx ctx1 s hc hd hcd hstep
      obtain ⟨v1, v2⟩ := copyrel_add_symbol_fresh align_to ctx ctx1 s hcop hstep
      refine ⟨ctx1, rfl, v1, e, ?_, ?_, ?_, ?_, ?_⟩
      · rw [v1, v2]
      · intro hfit
        rw [v2, ← v1]
        exact u64_of_lt _ hfit
      · exact List.count_eq_one_of_mem a.1 ((a.2 s).2 e)
      · exact List.count_eq_one_of_mem b.1 (c s e)
      · exact hagain ctx1 (by rw [d s]; exact himp) e
  · intro hcop
    exact ⟨List.count_eq_one_of_mem hc.1 ((hc.2 s).2 hcop),
      List.count_eq_one_of_mem hd.1 (hcd s hcop), hagain ctx himp hcop⟩

/-- C12, on a fresh state with `.copyrel` aligned to 32 bytes: after the
requests for symbols 0, 1, 0 the section holds the two symbols once each, the
second at offset 32, and is 44 bytes long. -/
theorem copyrel_add_symbol_once_witness :
    (CopyrelSection.add_symbols round_up freshCtx [0, 1, 0]).map
        (fun c => (c.copyrel.symbols, c.dynsym.symbols, (c.syms 0).value, (c.syms 1).value,
                   c.copyrel.sh_size))
      = some ([0, 1], [0, 1], 0, 32, 44)
    ∧ ∀ c, CopyrelSection.add_symbols round_up freshCtx [0, 1, 0] = some c →
        (c.syms 0).has_copyrel = true →
        c.copyrel.symbols.count 0 = 1 ∧ c.dynsym.symbols.count 0 = 1 :=
  ⟨by decide, fun c hc hcop =>
    have h := copyrel_add_symbol_once round_up freshCtx c [0, 1, 0] 0 rfl (fun _ => rfl)
      ⟨List.nodup_nil, fun _ => by simp [freshCtx]⟩ hc
      (by
        have := copyrel_add_symbols_imported round_up [0, 1, 0] freshCtx c hc 0
        rw [this]; rfl)
    ⟨(h.2 hcop).1, (h.2 hcop).2.1⟩⟩

/-! ## Claims on the unwind frames and on the emission of dynsym -/

/-- C11 (code defect): for two members of three bytes each, the concatenation
places member 1 at offset 3, but `EhFrameSection::copy_buf` advances the offset
by `contents.size() = 2`: it writes member 1 at offset 2, over the last byte
of member 0, and leaves offset 5 unwritten. -/
theorem ehframe_copy_buf_overlaps :
    ehTwoMembers.contents.flatten = [1, 2, 3, 4, 5, 6]
    ∧ dump (ehTwoMembers.copy_buf fun _ => 0) 6 = [1, 2, 4, 5, 6, 0]
    ∧ (ehTwoMembers.copy_buf fun _ => 0) 2 ≠ 3 := by
  decide

/-- C18 (code defect): with an empty first member, the `return` of
`EhFrameSection::finalize_contents` ends the loop at index 0: the second
member, of type SHT_PROGBITS and size 4, keeps an empty byte array; without
the empty member in front it gets its 4 bytes. -/
theorem ehframe_finalize_stops_early :
    (ehEmptyFirst.finalize_contents renderFill).contents = [[], []]
    ∧ ((ehEmptyFirst.finalize_contents renderFill).contents.getD 1 []).length = 0
    ∧ (ehEmptyFirst.members.getD 1 {}).sh_size = 4
    ∧ (ehEmptyFirst.members.getD 1 {}).sh_type ≠ SHT_NOBITS
    ∧ (EhFrameSection.finalize_contents renderFill
        { members := ehEmptyFirst.members.drop 1, contents := [[]] }).contents
        = [[0xAA, 0xAA, 0xAA, 0xAA]] := by
  decide

/-- C20 (code defect): add the global `aa`, then the local `b`; `add_symbol`
reserves offset 1 for `aa` and offset 4 for `b`.  `sort_symbols` moves `b` to
the front and gives it `dynsym_idx = 1`, but leaves `name_indices` in insertion
order, so `DynsymSection::copy_buf` writes `st_name = 1`, the offset of `aa`,
into the record of `b`, and `st_name = 4` into the record of `aa`. -/
theorem dynsym_copy_buf_swaps_names :
    mixedAdded.2.2.symbols = [0, 1]
    ∧ mixedAdded.2.2.name_indices = [1, 4]
    ∧ mixedAdded.2.1.find_string (mixedStore 1).name = some 4
    ∧ mixedSorted.2.symbols = [1, 0]
    ∧ mixedSorted.2.name_indices = [1, 4]
    ∧ (mixedSorted.1 1).dynsym_idx = 1
    ∧ (mixedSorted.1 0).dynsym_idx = 2
    ∧ (DynsymSection.copy_buf mixedSorted.1 0 0 mixedSorted.2 (fun _ => {})
        (mixedSorted.1 1).dynsym_idx).st_name = 1
    ∧ (DynsymSection.copy_buf mixedSorted.1 0 0 mixedSorted.2 (fun _ => {})
        (mixedSorted.1 0).dynsym_idx).st_name = 4 := by
  decide

/-! ## Output-section interning -/

theorem find_append_some (n : Bytes) (t f : Nat) (ext : List OutputSection) :
    ∀ (l : List OutputSection) (i : Nat), OutputSection.find n t f l = some i →
      OutputSection.find n t f (l ++ ext) = some i := by
  intro l
  induction l with
  | nil => intro i h; simp [OutputSection.find] at h
  | cons o rest ih =>
    intro i h
    rw [List.cons_append]
    simp only [OutputSection.find] at h ⊢
    split_ifs at h ⊢ with hm
    · exact h
    · cases hr : OutputSection.find n t f rest with
      | none => simp [hr] at h
      | some j => rw [ih j hr]; rw [hr] at h; exact h

theorem find_none_iff (n : Bytes) (t f : Nat) : ∀ (l : List OutputSection),
    OutputSection.find n t f l = none ↔ ∀ o ∈ l, o.key ≠ (n, t, f) := by
  intro l
  induction l with
  | nil => simp [OutputSection.find]
  | cons o rest ih =>
    simp only [OutputSection.find, List.mem_cons, forall_eq_or_imp]
    split_ifs with hm
    · simp only [false_iff, not_and]
      intro hk
      exfalso
      apply hk
      obtain ⟨h1, h2, h3⟩ := hm
      simp [OutputSection.key, h1, h2, h3]
    · rw [Option.map_eq_none', ih]
      constructor
      · intro h
        refine ⟨?_, h⟩
        intro hk
        apply hm
        simp only [OutputSection.key, Prod.mk.injEq] at hk
        exact ⟨hk.1.symm, hk.2.1.symm, hk.2.2.symm⟩
      · exact fun h => h.2

theorem find_append_new (n : Bytes) (t f : Nat) (hf : f &&& not_group = f) :
    ∀ (l : List OutputSection),
    OutputSection.find n t f l = none →
    OutputSection.find n t f (l ++ [{ name := n, sh_type := t, sh_flags := f }])
      = some l.length := by
  intro l
  induction l with
  | nil =>
    intro _
    simp [OutputSection.find, hf]
  | cons o rest ih =>
    intro h
    simp only [OutputSection.find] at h
    split_ifs at h with hm
    rw [Option.map_eq_none'] at h
    rw [List.cons_append]
    simp only [OutputSection.find, if_neg hm, ih h, Option.map_some', List.length_cons]

/-- What one call of `get_instance` does to the registry: the instance
returned is the first section with the key searched for, the old sections keep
their positions, and no key appears twice. -/
theorem get_instance_spec (reg : List OutputSection) (n : Bytes) (t f : Nat) :
    OutputSection.find (section_key n t f).1 (section_key n t f).2.1 (section_key n t f).2.2
        (OutputSection.get_instance reg n t f).2
      = some (OutputSection.get_instance reg n t f).1
    ∧ (∃ ext, (OutputSection.get_instance reg n t f).2 = reg ++ ext)
    ∧ ((reg.map OutputSection.key).Nodup →
        ((OutputSection.get_instance reg n t f).2.map OutputSection.key).Nodup)
    ∧ (∀ i, OutputSection.find (section_key n t f).1 (section_key n t f).2.1
          (section_key n t f).2.2 reg = some i →
        OutputSection.get_instance reg n t f = (i, reg)) := by
  have hunf : OutputSection.get_instance reg n t f
      = match OutputSection.find (section_key n t f).1 (section_key n t f).2.1
          (section_key n t f).2.2 reg with
        | some osec => (osec, reg)
        | none => OutputSection.create reg (section_key n t f).1 (section_key n t f).2.1
            (section_key n t f).2.2 := by
    unfold OutputSection.get_instance section_key
    simp only
    cases OutputSection.find (get_output_name n)
      (if n = ehFrameName ∧ t = SHT_X86_64_UNWIND then SHT_PROGBITS else t)
      (f &&& not_group) reg <;> rfl
  rw [hunf]
  cases hfind : OutputSection.find (section_key n t f).1 (section_key n t f).2.1
      (section_key n t f).2.2 reg with
  | some i =>
    exact ⟨hfind, ⟨[], by simp⟩, fun h => h, fun j hj => by rw [Option.some.inj hj]⟩
  | none =>
    have hmask : (section_key n t f).2.2 &&& not_group = (section_key n t f).2.2 := by
      simp [section_key, Nat.and_assoc, Nat.and_self]
    refine ⟨?_, ⟨_, rfl⟩, ?_, fun j hj => by simp at hj⟩
    · exact find_append_new _ _ _ hmask reg hfind
    · intro hnd
      show ((OutputSection.create reg _ _ _).2.map OutputSection.key).Nodup
      simp only [OutputSection.create, List.map_append, List.map_cons, List.map_nil]
      rw [List.nodup_append]
      refine ⟨hnd, List.nodup_singleton _, ?_⟩
      intro k hk hk2
      rw [List.mem_singleton] at hk2
      obtain ⟨o, ho, hok⟩ := List.mem_map.1 hk
      apply (find_none_iff _ _ _ reg).1 hfind o ho
      rw [hok, hk2]
      simp only [OutputSection.key, hmask]

theorem get_instances_spec : ∀ (calls : List (Bytes × Nat × Nat)) (reg : List OutputSection),
    (∃ ext, OutputSection.get_instances reg calls = reg ++ ext)
    ∧ ((reg.map OutputSection.key).Nodup →
        ((OutputSection.get_instances reg calls).map OutputSection.key).Nodup) := by
  intro calls
  induction calls with
  | nil => intro reg; exact ⟨⟨[], by simp [OutputSection.get_instances]⟩, fun h => h⟩
  | cons c rest ih =>
    intro reg
    obtain ⟨_, ⟨e1, he1⟩, hn1, _⟩ := get_instance_spec reg c.1 c.2.1 c.2.2
    obtain ⟨⟨e2, he2⟩, hn2⟩ := ih (OutputSection.get_instance reg c.1 c.2.1 c.2.2).2
    simp only [OutputSection.get_instances]
    refine ⟨⟨e1 ++ e2, ?_⟩, fun h => hn2 (hn1 h)⟩
    rw [he2, he1, List.append_assoc]

theorem get_output_name_loop_cases (name : Bytes) : ∀ (l : List Bytes),
    get_output_name_loop l name = name
    ∨ get_output_name_loop l name ∈ l.map fun s1 => s1.take (s1.length - 1) := by
  intro l
  induction l with
  | nil => left; rfl
  | cons s1 rest ih =>
    simp only [get_output_name_loop]
    split_ifs with h
    · right; simp
    · rcases ih with h1 | h1
      · left; exact h1
      · right; exact List.mem_cons_of_mem _ h1

theorem eh_frame_name_of_output_name (name : Bytes)
    (h : get_output_name name = ehFrameName) : name = ehFrameName := by
  rcases get_output_name_loop_cases name common_names with h1 | h1
  · rw [← h1]; exact h
  · exfalso
    have h2 : get_output_name_loop common_names name = ehFrameName := h
    rw [h2] at h1
    revert h1
    decide

theorem section_key_congr (n1 n2 : Bytes) (t f1 f2 : Nat)
    (hname : get_output_name n1 = get_output_name n2)
    (hflags : f1 &&& not_group = f2 &&& not_group) :
    section_key n1 t f1 = section_key n2 t f2 := by
  have heh : n1 = ehFrameName ↔ n2 = ehFrameName := by
    have hself : get_output_name ehFrameName = ehFrameName := by decide
    constructor
    · intro h
      apply eh_frame_name_of_output_name
      rw [← hname, h, hself]
    · intro h
      apply eh_frame_name_of_output_name
      rw [hname, h, hself]
  unfold section_key
  rw [hname, hflags]
  simp only [heh]

/-- C14: run `get_instance` sequentially from an empty registry.  After any
calls `before`, a call with `(n1, t1, f1)`, any calls `mids` and a call with
`(n2, t2, f2)` whose canonical name, type and flags without SHF_GROUP agree
with the first: the second call returns the instance of the first and
registers nothing, and the keys (name, type, flags without SHF_GROUP) of the
registry are pairwise different. -/
theorem get_instance_interned (before mids : List (Bytes × Nat × Nat)) (n1 n2 : Bytes)
    (t1 t2 f1 f2 : Nat)
    (hname : get_output_name n1 = get_output_name n2)
    (htype : t1 = t2)
    (hflags : f1 &&& not_group = f2 &&& not_group) :
    (OutputSection.get_instance
        (OutputSection.get_instances
          (OutputSection.get_instance (OutputSection.get_instances [] before) n1 t1 f1).2 mids)
        n2 t2 f2).1
      = (OutputSection.get_instance (OutputSection.get_instances [] before) n1 t1 f1).1
    ∧ (OutputSection.get_instance
        (OutputSection.get_instances
          (OutputSection.get_instance (OutputSection.get_instances [] before) n1 t1 f1).2 mids)
        n2 t2 f2).2
      = OutputSection.get_instances
          (OutputSection.get_instance (OutputSection.get_instances [] before) n1 t1 f1).2 mids
    ∧ ((OutputSection.get_instance
        (OutputSection.get_instances
          (OutputSection.get_instance (OutputSection.get_instances [] before) n1 t1 f1).2 mids)
        n2 t2 f2).2.map OutputSection.key).Nodup := by
  subst htype
  have hkey := section_key_congr n1 n2 t1 f1 f2 hname hflags
  obtain ⟨hfound, _, hnd1, _⟩ :=
    get_instance_spec (OutputSection.get_instances [] before) n1 t1 f1
  obtain ⟨⟨ext, hext⟩, hnd2⟩ := get_instances_spec mids
    (OutputSection.get_instance (OutputSection.get_instances [] before) n1 t1 f1).2
  have hnd0 := (get_instances_spec before []).2 (by simp)
  have hfound2 := find_append_some _ _ _ ext _ _ hfound
  rw [← hext, hkey] at hfound2
  have hres := (get_instance_spec _ n2 t1 f2).2.2.2 _ hfound2
  rw [hres]
  exact ⟨rfl, rfl, hnd2 (hnd1 hnd0)⟩

/-- C14, scenario S4 run sequentially: repeated
`get_instance(".text.foo", SHT_PROGBITS, SHF_ALLOC|SHF_EXECINSTR|SHF_GROUP)`
leaves exactly one section, named `.text`, with flags
`SHF_ALLOC|SHF_EXECINSTR`, and every call returns it. -/
theorem get_instance_interned_witness :
    OutputSection.get_instances []
        [(textFooName, SHT_PROGBITS, SHF_ALLOC ||| SHF_EXECINSTR ||| SHF_GROUP),
         (textFooName, SHT_PROGBITS, SHF_ALLOC ||| SHF_EXECINSTR ||| SHF_GROUP),
         (textFooName, SHT_PROGBITS, SHF_ALLOC ||| SHF_EXECINSTR ||| SHF_GROUP)]
      = [{ name := textName, sh_type := SHT_PROGBITS,
           sh_flags := SHF_ALLOC ||| SHF_EXECINSTR }]
    ∧ (OutputSection.get_instance
        (OutputSection.get_instances
          (OutputSection.get_instance (OutputSection.get_instances [] []) textFooName
            SHT_PROGBITS (SHF_ALLOC ||| SHF_EXECINSTR ||| SHF_GROUP)).2 [])
        textName SHT_PROGBITS (SHF_ALLOC ||| SHF_EXECINSTR)).1
      = (OutputSection.get_instance (OutputSection.get_instances [] []) textFooName
          SHT_PROGBITS (SHF_ALLOC ||| SHF_EXECINSTR ||| SHF_GROUP)).1 :=
  ⟨by decide,
    (get_instance_interned [] [] textFooName textName SHT_PROGBITS SHT_PROGBITS
      (SHF_ALLOC ||| SHF_EXECINSTR ||| SHF_GROUP) (SHF_ALLOC ||| SHF_EXECINSTR)
      (by decide) rfl (by decide)).1⟩

/-! ## Section name table -/

theorem copy_buf_loop_above : ∀ (l : List Bytes) (i : Int) (buf : Int → UInt8) (a : Int),
    0 ≤ i → i + (strtab_size l - 1 : Nat) < 2 ^ 31 → i + (strtab_size l - 1 : Nat) ≤ a →
    DynstrSection.copy_buf_loop l i buf a = buf a := by
  intro l
  induction l with
  | nil => intro i buf a _ _ _; rfl
  | cons t rest ih =>
    intro i buf a h0 h1 ha
    rw [strtab_size_cons] at h1 ha
    have hpos : 1 ≤ strtab_size rest := by unfold strtab_size; omega
    simp only [DynstrSection.copy_buf_loop]
    rw [toI32_of_lt _ (by omega) (by omega), ih _ _ _ (by omega) (by omega) (by omega)]
    unfold write_string
    rw [if_neg (by omega), if_neg (by omega)]

/-- Every byte in the range of the table is written: it does not depend on the
buffer before the loop. -/
theorem copy_buf_loop_inside : ∀ (l : List Bytes) (i : Int) (buf buf1 : Int → UInt8) (a : Int),
    0 ≤ i → i + (strtab_size l - 1 : Nat) < 2 ^ 31 →
    i ≤ a → a < i + (strtab_size l - 1 : Nat) →
    DynstrSection.copy_buf_loop l i buf a = DynstrSection.copy_buf_loop l i buf1 a := by
  intro l
  induction l with
  | nil =>
    intro i buf buf1 a _ _ h2 h3
    simp only [strtab_size_nil] at h3
    omega
  | cons t rest ih =>
    intro i buf buf1 a h0 h1 h2 h3
    rw [strtab_size_cons] at h1 h3
    have hpos : 1 ≤ strtab_size rest := by unfold strtab_size; omega
    simp only [DynstrSection.copy_buf_loop]
    rw [toI32_of_lt _ (by omega) (by omega)]
    by_cases ha : a < i + ((t.length : Int) + 1)
    · rw [copy_buf_loop_below rest (i + ((t.length : Int) + 1)) (write_string buf i t) a
          (by omega) (by omega) ha,
        copy_buf_loop_below rest (i + ((t.length : Int) + 1)) (write_string buf1 i t) a
          (by omega) (by omega) ha]
      unfold write_string
      by_cases hb : a < i + t.length
      · rw [if_pos ⟨h2, hb⟩, if_pos ⟨h2, hb⟩]
      · have hcond : ¬(i ≤ a ∧ a < i + (t.length : Int)) := fun h => hb h.2
        have heq : a = i + (t.length : Int) := by omega
        simp only [if_neg hcond, if_pos heq]
    · exact ih (i + ((t.length : Int) + 1)) _ _ a (by omega) (by omega) (by omega) (by omega)

theorem chunk_names_cons_empty (c : OutputChunk) (rest : List OutputChunk)
    (hc : c.name = []) : chunk_names (c :: rest) = chunk_names rest := by
  simp [chunk_names, hc, List.filter_cons]

theorem chunk_names_cons_named (c : OutputChunk) (rest : List OutputChunk)
    (hc : c.name ≠ []) : chunk_names (c :: rest) = c.name :: chunk_names rest := by
  simp [chunk_names, hc, List.filter_cons]

theorem shstrtab_copy_buf_loop_eq : ∀ (chunks : List OutputChunk) (i : Int)
    (buf : Int → UInt8),
    ShstrtabSection.copy_buf_loop chunks i buf
      = DynstrSection.copy_buf_loop (chunk_names chunks) i buf := by
  intro chunks
  induction chunks with
  | nil => intro i buf; rfl
  | cons c rest ih =>
    intro i buf
    by_cases hc : c.name = []
    · rw [chunk_names_cons_empty c rest hc]
      simp only [ShstrtabSection.copy_buf_loop, hc, ne_eq, not_true_eq_false, if_false]
      exact ih i buf
    · rw [chunk_names_cons_named c rest hc]
      simp only [ShstrtabSection.copy_buf_loop, hc, ne_eq, not_false_eq_true, if_true,
        DynstrSection.copy_buf_loop]
      exact ih _ _

theorem update_shdr_loop_names : ∀ (chunks : List OutputChunk) (size : Nat),
    chunk_names (ShstrtabSection.update_shdr_loop chunks size).1 = chunk_names chunks := by
  intro chunks
  induction chunks with
  | nil => intro size; rfl
  | cons c rest ih =>
    intro size
    by_cases hc : c.name = []
    · simp only [ShstrtabSection.update_shdr_loop, hc, ne_eq, not_true_eq_false, if_false]
      rw [chunk_names_cons_empty _ _ hc, chunk_names_cons_empty _ _ hc]
      exact ih size
    · simp only [ShstrtabSection.update_shdr_loop, hc, ne_eq, not_false_eq_true, if_true]
      rw [chunk_names_cons_named _ _ (by exact hc), chunk_names_cons_named _ _ hc]
      congr 1
      exact ih _

theorem update_shdr_loop_size : ∀ (chunks : List OutputChunk) (size : Nat),
    size + (strtab_size (chunk_names chunks) - 1) < 2 ^ 64 →
    (ShstrtabSection.update_shdr_loop chunks size).2
      = size + (strtab_size (chunk_names chunks) - 1) := by
  intro chunks
  induction chunks with
  | nil => intro size _; simp [ShstrtabSection.update_shdr_loop, chunk_names, strtab_size_nil]
  | cons c rest ih =>
    intro size h
    by_cases hc : c.name = []
    · have e : chunk_names (c :: rest) = chunk_names rest := chunk_names_cons_empty c rest hc
      rw [e] at h ⊢
      simp only [ShstrtabSection.update_shdr_loop, hc, ne_eq, not_true_eq_false, if_false]
      exact ih size h
    · have e : chunk_names (c :: rest) = c.name :: chunk_names rest :=
        chunk_names_cons_named c rest hc
      rw [e, strtab_size_cons] at h ⊢
      have hpos : 1 ≤ strtab_size (chunk_names rest) := by unfold strtab_size; omega
      simp only [ShstrtabSection.update_shdr_loop, hc, ne_eq, not_false_eq_true, if_true]
      rw [u64_of_lt _ (by omega), ih _ (by omega)]
      omega

theorem read_cstring_of_bytes (buf : Int → UInt8) : ∀ (name : Bytes) (off : Int),
    (∀ b ∈ name, b ≠ 0) →
    (∀ k : Nat, k < name.length → buf (off + k) = name.getD k 0) →
    buf (off + name.length) = 0 →
    read_cstring buf off (name.length + 1) = name := by
  intro name
  induction name with
  | nil =>
    intro off _ _ h0
    simp only [List.length_nil, Nat.cast_zero, add_zero] at h0
    simp [read_cstring, h0]
  | cons b rest ih =>
    intro off hnz hb h0
    have hfirst : buf off = b := by
      have := hb 0 (by simp)
      simpa using this
    have hbnz : b ≠ 0 := hnz b (by simp)
    simp only [List.length_cons, read_cstring, hfirst, if_neg hbnz]
    congr 1
    apply ih (off + 1) (fun x hx => hnz x (by simp [hx]))
    · intro k hk
      have := hb (k + 1) (by simp; omega)
      rw [show off + 1 + (k : Int) = off + ((k + 1 : Nat) : Int) by push_cast; omega]
      simpa using this
    · rw [show off + 1 + (rest.length : Int) = off + (((b :: rest).length : Nat) : Int) by
        simp; omega]
      exact h0

theorem shstrtab_names_written : ∀ (chunks : List OutputChunk) (i : Nat) (buf : Int → UInt8),
    i + (strtab_size (chunk_names chunks) - 1) < 2 ^ 31 →
    ∀ c ∈ (ShstrtabSection.update_shdr_loop chunks i).1, c.name ≠ [] →
      (∀ k : Nat, k < c.name.length →
        ShstrtabSection.copy_buf_loop (ShstrtabSection.update_shdr_loop chunks i).1 i buf
          ((c.shdr.sh_name : Int) + k) = c.name.getD k 0)
      ∧ ShstrtabSection.copy_buf_loop (ShstrtabSection.update_shdr_loop chunks i).1 i buf
          ((c.shdr.sh_name : Int) + c.name.length) = 0 := by
  intro chunks
  induction chunks with
  | nil => intro i buf _ c hc; simp [ShstrtabSection.update_shdr_loop] at hc
  | cons c0 rest ih =>
    intro i buf hsize c hc hname
    by_cases h0 : c0.name = []
    · rw [chunk_names_cons_empty c0 rest h0] at hsize
      simp only [ShstrtabSection.update_shdr_loop, h0, ne_eq, not_true_eq_false, if_false,
        List.mem_cons] at hc ⊢
      rcases hc with hc | hc
      · rw [hc] at hname; exact absurd h0 hname
      · simp only [ShstrtabSection.copy_buf_loop, h0, ne_eq, not_true_eq_false, if_false]
        exact ih i buf hsize c hc hname
    · rw [chunk_names_cons_named c0 rest h0, strtab_size_cons] at hsize
      have hpos : 1 ≤ strtab_size (chunk_names rest) := by unfold strtab_size; omega
      have h64 : u64 (i + (c0.name.length + 1)) = i + (c0.name.length + 1) :=
        u64_of_lt _ (by omega)
      have h32 : u32 i = i := u32_of_lt _ (by omega)
      have hI : toI32 ((i : Int) + ((c0.name.length : Int) + 1))
          = ((i + (c0.name.length + 1) : Nat) : Int) := by
        rw [toI32_of_lt _ (by omega) (by omega)]
        push_cast
        rfl
      have hlist : (ShstrtabSection.update_shdr_loop (c0 :: rest) i).1
          = { c0 with shdr := { c0.shdr with sh_name := i } }
            :: (ShstrtabSection.update_shdr_loop rest (i + (c0.name.length + 1))).1 := by
        simp only [ShstrtabSection.update_shdr_loop, h0, ne_eq, not_false_eq_true, if_true,
          h64, h32]
      have hcopy : ShstrtabSection.copy_buf_loop
            ({ c0 with shdr := { c0.shdr with sh_name := i } }
              :: (ShstrtabSection.update_shdr_loop rest (i + (c0.name.length + 1))).1) i buf
          = ShstrtabSection.copy_buf_loop
              (ShstrtabSection.update_shdr_loop rest (i + (c0.name.length + 1))).1
              ((i + (c0.name.length + 1) : Nat) : Int) (write_string buf i c0.name) := by
        simp only [ShstrtabSection.copy_buf_loop, h0, ne_eq, not_false_eq_true, if_true, hI]
      rw [hlist] at hc ⊢
      rw [hcopy]
      rcases List.mem_cons.1 hc with hc | hc
      · have hcn : c.name = c0.name := by rw [hc]
        have hcs : c.shdr.sh_name = i := by rw [hc]
        rw [hcn, hcs]
        have hbelow : ∀ a : Int, a < ((i + (c0.name.length + 1) : Nat) : Int) →
            ShstrtabSection.copy_buf_loop
                (ShstrtabSection.update_shdr_loop rest (i + (c0.name.length + 1))).1
                ((i + (c0.name.length + 1) : Nat) : Int) (write_string buf i c0.name) a
              = write_string buf i c0.name a := by
          intro a ha
          rw [shstrtab_copy_buf_loop_eq, update_shdr_loop_names]
          exact copy_buf_loop_below _ _ _ _ (by omega) (by omega) ha
        constructor
        · intro k hk
          rw [hbelow _ (by omega)]
          unfold write_string
          have hidx : ((i : Int) + (k : Int) - (i : Int)).toNat = k := by omega
          rw [if_pos (by omega), hidx]
        · rw [hbelow _ (by omega)]
          unfold write_string
          have hcond : ¬((i : Int) ≤ (i : Int) + (c0.name.length : Int)
              ∧ (i : Int) + (c0.name.length : Int) < (i : Int) + (c0.name.length : Int)) := by
            omega
          simp only [if_neg hcond, if_true]
      · exact ih (i + (c0.name.length + 1)) (write_string buf i c0.name) (by omega) c hc hname

/-- C17: for a chunk list whose names hold no NUL byte and whose name table
stays below 2 GiB, after `ShstrtabSection::update_shdr` the bytes that
`ShstrtabSection::copy_buf` writes are exactly those at the offsets
`0 .. sh_size - 1` (every one of them is written, none outside), byte 0 is NUL,
and for every chunk with a non-empty name the bytes at the offsets
`sh_name .. sh_name + |name|` are the name followed by NUL: the NUL-terminated
string read at `sh_name` is the name. -/
theorem shstrtab_roundtrip (chunks : List OutputChunk) (buf : Int → UInt8)
    (hsize : strtab_size (chunk_names chunks) < 2 ^ 31)
    (hnul : ∀ c ∈ chunks, ∀ b ∈ c.name, b ≠ 0) :
    (ShstrtabSection.update_shdr chunks).2 = strtab_size (chunk_names chunks)
    ∧ ShstrtabSection.copy_buf (ShstrtabSection.update_shdr chunks).1 buf 0 = 0
    ∧ (∀ a : Int, a < 0 ∨ ((ShstrtabSection.update_shdr chunks).2 : Int) ≤ a →
        ShstrtabSection.copy_buf (ShstrtabSection.update_shdr chunks).1 buf a = buf a)
    ∧ (∀ (buf1 : Int → UInt8) (a : Int),
        0 ≤ a → a < ((ShstrtabSection.update_shdr chunks).2 : Int) →
        ShstrtabSection.copy_buf (ShstrtabSection.update_shdr chunks).1 buf a
          = ShstrtabSection.copy_buf (ShstrtabSection.update_shdr chunks).1 buf1 a)
    ∧ (∀ c ∈ (ShstrtabSection.update_shdr chunks).1, c.name ≠ [] →
        (∀ k : Nat, k < c.name.length →
          ShstrtabSection.copy_buf (ShstrtabSection.update_shdr chunks).1 buf
            ((c.shdr.sh_name : Int) + k) = c.name.getD k 0)
        ∧ ShstrtabSection.copy_buf (ShstrtabSection.update_shdr chunks).1 buf
            ((c.shdr.sh_name : Int) + c.name.length) = 0
        ∧ read_cstring (ShstrtabSection.copy_buf (ShstrtabSection.update_shdr chunks).1 buf)
            c.shdr.sh_name (c.name.length + 1) = c.name) := by
  have hpos : 1 ≤ strtab_size (chunk_names chunks) := by unfold strtab_size; omega
  have hsz : (ShstrtabSection.update_shdr chunks).2 = strtab_size (chunk_names chunks) := by
    unfold ShstrtabSection.update_shdr
    rw [update_shdr_loop_size _ _ (by omega)]
    omega
  have hloop : ∀ b : Int → UInt8,
      ShstrtabSection.copy_buf (ShstrtabSection.update_shdr chunks).1 b
        = DynstrSection.copy_buf_loop (chunk_names chunks) 1
            (fun a => if a = 0 then 0 else b a) := by
    intro b
    unfold ShstrtabSection.copy_buf ShstrtabSection.update_shdr
    rw [shstrtab_copy_buf_loop_eq, update_shdr_loop_names]
  have hb31 : (1 : Int) + ((strtab_size (chunk_names chunks) - 1 : Nat) : Int) < 2 ^ 31 := by
    omega
  refine ⟨hsz, ?_, ?_, ?_, ?_⟩
  · rw [hloop, copy_buf_loop_below _ _ _ _ (by omega) hb31 (by omega)]
    simp
  · intro a ha
    rw [hloop, hsz] at *
    rcases ha with ha | ha
    · rw [copy_buf_loop_below _ _ _ _ (by omega) hb31 (by omega)]
      show (if a = 0 then (0 : UInt8) else buf a) = buf a
      rw [if_neg (by omega)]
    · rw [copy_buf_loop_above _ _ _ _ (by omega) hb31 (by omega)]
      show (if a = 0 then (0 : UInt8) else buf a) = buf a
      rw [if_neg (by omega)]
  · intro buf1 a ha0 ha1
    rw [hloop, hloop]
    rw [hsz] at ha1
    by_cases hz : a = 0
    · rw [hz, copy_buf_loop_below _ _ _ _ (by omega) hb31 (by omega),
        copy_buf_loop_below _ _ _ _ (by omega) hb31 (by omega)]
      simp
    · exact copy_buf_loop_inside _ _ _ _ _ (by omega) hb31 (by omega) (by omega)
  · intro c hc hname
    have hw := shstrtab_names_written chunks 1 (fun a => if a = 0 then 0 else buf a)
      (by omega) c hc hname
    have hw1 : ∀ k : Nat, k < c.name.length →
        ShstrtabSection.copy_buf (ShstrtabSection.update_shdr chunks).1 buf
          ((c.shdr.sh_name : Int) + k) = c.name.getD k 0 := hw.1
    have hw2 : ShstrtabSection.copy_buf (ShstrtabSection.update_shdr chunks).1 buf
        ((c.shdr.sh_name : Int) + c.name.length) = 0 := hw.2
    refine ⟨hw1, hw2, ?_⟩
    apply read_cstring_of_bytes _ _ _ _ hw1 hw2
    have hmem : c.name ∈ chunk_names (ShstrtabSection.update_shdr chunks).1 := by
      unfold chunk_names
      exact List.mem_map.2 ⟨c, List.mem_filter.2 ⟨hc, by simpa using hname⟩, rfl⟩
    unfold ShstrtabSection.update_shdr at hmem
    rw [update_shdr_loop_names] at hmem
    unfold chunk_names at hmem
    obtain ⟨c1, hc1, hn1⟩ := List.mem_map.1 hmem
    rw [← hn1]
    exact hnul c1 (List.mem_filter.1 hc1).1

/-- C17, for the chunks (unnamed), `.data`, `.bss`: the table is
NUL `.data` NUL `.bss` NUL, 12 bytes, with `.data` at offset 1 and `.bss` at
offset 7. -/
theorem shstrtab_roundtrip_witness :
    (ShstrtabSection.update_shdr [unnamedChunk, dataChunk, bssChunk]).2 = 12
    ∧ (ShstrtabSection.update_shdr [unnamedChunk, dataChunk, bssChunk]).1.map
        (fun c => c.shdr.sh_name) = [0, 1, 7]
    ∧ dump (ShstrtabSection.copy_buf
        (ShstrtabSection.update_shdr [unnamedChunk, dataChunk, bssChunk]).1 fun _ => 0xff) 13
      = [0, 0x2e, 0x64, 0x61, 0x74, 0x61, 0, 0x2e, 0x62, 0x73, 0x73, 0, 0xff]
    ∧ ShstrtabSection.copy_buf
        (ShstrtabSection.update_shdr [unnamedChunk, dataChunk, bssChunk]).1 (fun _ => 0xff) 0
      = 0 :=
  ⟨by decide, by decide, by decide,
    (shstrtab_roundtrip [unnamedChunk, dataChunk, bssChunk] (fun _ => 0xff) (by decide)
      (by decide)).2.1⟩

/-! ## Procedure linkage table -/

theorem memcpy_outside (buf : Int → UInt8) (off : Int) (src : Bytes) (a : Int)
    (h : a < off ∨ off + src.length ≤ a) : memcpy buf off src a = buf a := by
  unfold memcpy
  rw [if_neg (by omega)]

theorem le32_length (v : Nat) : (le32 v).length = 4 := rfl

theorem read_u32_congr (b1 b2 : Int → UInt8) (off : Int)
    (h : ∀ a : Int, off ≤ a → a < off + 4 → b1 a = b2 a) :
    read_u32 b1 off = read_u32 b2 off := by
  unfold read_u32
  rw [h off (by omega) (by omega), h (off + 1) (by omega) (by omega),
    h (off + 2) (by omega) (by omega), h (off + 3) (by omega) (by omega)]

theorem read_u32_write_u32 (buf : Int → UInt8) (off : Int) (v : Nat) :
    read_u32 (write_u32 buf off v) off = v % 2 ^ 32 := by
  have h0 : write_u32 buf off v off = UInt8.ofNat (v % 256) := by
    unfold write_u32 memcpy
    rw [if_pos (by simp [le32_length])]
    simp [le32]
  have h1 : write_u32 buf off v (off + 1) = UInt8.ofNat (v / 256 % 256) := by
    unfold write_u32 memcpy
    rw [if_pos (by simp [le32_length])]
    simp [le32]
  have h2 : write_u32 buf off v (off + 2) = UInt8.ofNat (v / 65536 % 256) := by
    unfold write_u32 memcpy
    rw [if_pos (by simp [le32_length])]
    simp [le32]
  have h3 : write_u32 buf off v (off + 3) = UInt8.ofNat (v / 16777216 % 256) := by
    unfold write_u32 memcpy
    rw [if_pos (by simp [le32_length])]
    simp [le32]
  have hs : UInt8.size = 256 := rfl
  unfold read_u32
  rw [h0, h1, h2, h3,
    UInt8.toNat_ofNat_of_lt (by rw [hs]; omega), UInt8.toNat_ofNat_of_lt (by rw [hs]; omega),
    UInt8.toNat_ofNat_of_lt (by rw [hs]; omega), UInt8.toNat_ofNat_of_lt (by rw [hs]; omega)]
  omega

theorem write_u32_outside (buf : Int → UInt8) (off : Int) (v : Nat) (a : Int)
    (h : a < off ∨ off + 4 ≤ a) : write_u32 buf off v a = buf a := by
  unfold write_u32
  exact memcpy_outside _ _ _ _ (by rw [le32_length]; omega)

/-- The stores for one symbol stay within 17 bytes from the start of its
entry. -/
theorem write_entry_outside (sh_addr : Nat) (sym : Symbol) (r : Int) (buf : Int → UInt8)
    (a : Int) (h : a < sym.plt_idx * 16 ∨ sym.plt_idx * 16 + 17 ≤ a) :
    PltSection.write_entry sh_addr sym r buf a = buf a := by
  unfold PltSection.write_entry
  have h16 : (PLT_SIZE : Int) = 16 := rfl
  simp only [h16]
  split_ifs with hg
  · rw [write_u32_outside _ _ _ _ (by omega), write_u32_outside _ _ _ _ (by omega),
      write_u32_outside _ _ _ _ (by omega)]
    exact memcpy_outside _ _ _ _ (by
      have : plt_lazy_stub.length = 16 := rfl
      rw [this]; omega)
  · rw [write_u32_outside _ _ _ _ (by omega)]
    exact memcpy_outside _ _ _ _ (by
      have : plt_got_stub.length = 17 := rfl
      rw [this]; omega)

/-- The displacements in the entry of a symbol right after its stores. -/
theorem write_entry_displacements (sh_addr : Nat) (sym : Symbol) (r : Int)
    (buf : Int → UInt8) :
    (sym.gotplt_idx ≠ -1 →
      read_u32 (PltSection.write_entry sh_addr sym r buf) (sym.plt_idx * 16 + 2)
        = u32 (sub64 (sub64 sym.gotplt_addr sym.plt_addr) 6)
      ∧ read_u32 (PltSection.write_entry sh_addr sym r buf) (sym.plt_idx * 16 + 12)
        = u32 (sub64 (sub64 sh_addr sym.plt_addr) 16))
    ∧ (sym.gotplt_idx = -1 →
      read_u32 (PltSection.write_entry sh_addr sym r buf) (sym.plt_idx * 16 + 2)
        = u32 (sub64 (sub64 sym.got_addr sym.plt_addr) 6)) := by
  have h16 : (PLT_SIZE : Int) = 16 := rfl
  have hu : ∀ x, u32 x % 2 ^ 32 = u32 x := by
    intro x
    unfold u32
    omega
  constructor
  · intro hg
    unfold PltSection.write_entry
    simp only [h16, if_pos hg]
    constructor
    · rw [read_u32_congr _
        (write_u32 (memcpy buf (sym.plt_idx * 16) plt_lazy_stub) (sym.plt_idx * 16 + 2)
          (u32 (sub64 (sub64 sym.gotplt_addr sym.plt_addr) 6))) _
        (fun a h1 h2 => by
          rw [write_u32_outside _ _ _ _ (by omega), write_u32_outside _ _ _ _ (by omega)]),
        read_u32_write_u32, hu]
    · rw [read_u32_write_u32, hu]
  · intro hg
    unfold PltSection.write_entry
    simp only [h16, if_neg (not_not.2 hg)]
    rw [read_u32_write_u32, hu]

theorem plt_copy_buf_loop_frame (sh_addr : Nat) (syms : SymId → Symbol) (k : Int) :
    ∀ (l : List SymId) (r : Int) (buf : Int → UInt8) (a : Int),
    (∀ s ∈ l, (syms s).plt_idx ≠ k) → k * 16 + 1 ≤ a → a < k * 16 + 16 →
    PltSection.copy_buf_loop sh_addr syms l r buf a = buf a := by
  intro l
  induction l with
  | nil => intro r buf a _ _ _; rfl
  | cons s rest ih =>
    intro r buf a hne h1 h2
    simp only [PltSection.copy_buf_loop]
    rw [ih _ _ _ (fun x hx => hne x (List.mem_cons_of_mem _ hx)) h1 h2]
    have := hne s (by simp)
    exact write_entry_outside _ _ _ _ _ (by omega)

theorem plt_copy_buf_loop_displacements (sh_addr : Nat) (syms : SymId → Symbol) :
    ∀ (l : List SymId) (r : Int) (buf : Int → UInt8),
    (l.map fun s => (syms s).plt_idx).Nodup →
    ∀ s ∈ l,
      ((syms s).gotplt_idx ≠ -1 →
        read_u32 (PltSection.copy_buf_loop sh_addr syms l r buf) ((syms s).plt_idx * 16 + 2)
          = u32 (sub64 (sub64 (syms s).gotplt_addr (syms s).plt_addr) 6)
        ∧ read_u32 (PltSection.copy_buf_loop sh_addr syms l r buf)
            ((syms s).plt_idx * 16 + 12)
          = u32 (sub64 (sub64 sh_addr (syms s).plt_addr) 16))
      ∧ ((syms s).gotplt_idx = -1 →
        read_u32 (PltSection.copy_buf_loop sh_addr syms l r buf) ((syms s).plt_idx * 16 + 2)
          = u32 (sub64 (sub64 (syms s).got_addr (syms s).plt_addr) 6)) := by
  intro l
  induction l with
  | nil => intro r buf _ s hs; simp at hs
  | cons s0 rest ih =>
    intro r buf hnd s hs
    rw [List.map_cons, List.nodup_cons] at hnd
    by_cases hidx : (syms s).plt_idx = (syms s0).plt_idx
    · have hrest : ∀ x ∈ rest, (syms x).plt_idx ≠ (syms s).plt_idx := by
        intro x hx he
        apply hnd.1
        rw [← hidx, ← he]
        exact List.mem_map.2 ⟨x, hx, rfl⟩
      have hs0 : s = s0 := by
        rcases List.mem_cons.1 hs with h | h
        · exact h
        · exact absurd rfl (hrest s h)
      subst hs0
      have hframe : ∀ off : Int, 1 ≤ off → off + 4 ≤ 16 →
          read_u32 (PltSection.copy_buf_loop sh_addr syms (s :: rest) r buf)
              ((syms s).plt_idx * 16 + off)
            = read_u32 (PltSection.write_entry sh_addr (syms s) r buf)
              ((syms s).plt_idx * 16 + off) := by
        intro off h1 h2
        apply read_u32_congr
        intro a ha1 ha2
        simp only [PltSection.copy_buf_loop]
        exact plt_copy_buf_loop_frame sh_addr syms (syms s).plt_idx rest _ _ a hrest
          (by omega) (by omega)
      obtain ⟨d1, d2⟩ := write_entry_displacements sh_addr (syms s) r buf
      refine ⟨fun hg => ?_, fun hg => ?_⟩
      · rw [hframe 2 (by omega) (by omega), hframe 12 (by omega) (by omega)]
        exact d1 hg
      · rw [hframe 2 (by omega) (by omega)]
        exact d2 hg
    · have hmem : s ∈ rest := by
        rcases List.mem_cons.1 hs with h | h
        · rw [h] at hidx; exact absurd rfl hidx
        · exact h
      simp only [PltSection.copy_buf_loop]
      exact ih _ _ hnd.2 s hmem

/-- C19: let the symbols of `.plt` have pairwise different `plt_idx >= 1` and
let the PLT entry of a symbol lie at `sh_addr + plt_idx * 16`
(`get_plt_addr()`).  In the bytes that `PltSection::copy_buf` leaves, every
patched displacement `d` satisfies (address of the byte after the
instruction) + `d` = target modulo `2^32`: in PLT[0] the `pushq` (bytes 0..5)
targets GOTPLT + 8 and the `jmp` (bytes 6..11) GOTPLT + 16; in a stub with a
GOTPLT slot the first `jmp` (bytes 0..5) targets the symbol's GOTPLT slot and
the last `jmp` (bytes 11..15) targets PLT[0]; in a GOT-only stub the `jmp`
targets the symbol's GOT slot. -/
theorem plt_displacements_resolve (plt : PltSection) (gotplt_sh_addr : Nat)
    (syms : SymId → Symbol) (buf : Int → UInt8)
    (hnd : (plt.symbols.map fun s => (syms s).plt_idx).Nodup)
    (hpos : ∀ s ∈ plt.symbols, 1 ≤ (syms s).plt_idx)
    (haddr : ∀ s ∈ plt.symbols,
      ((syms s).plt_addr : Int) = (plt.sh_addr : Int) + (syms s).plt_idx * 16) :
    (plt.sh_addr + 6 + read_u32 (plt.copy_buf gotplt_sh_addr syms buf) 2) % 2 ^ 32
        = (gotplt_sh_addr + 8) % 2 ^ 32
    ∧ (plt.sh_addr + 12 + read_u32 (plt.copy_buf gotplt_sh_addr syms buf) 8) % 2 ^ 32
        = (gotplt_sh_addr + 16) % 2 ^ 32
    ∧ ∀ s ∈ plt.symbols,
        ((syms s).gotplt_idx ≠ -1 →
          ((plt.sh_addr : Int) + (syms s).plt_idx * 16 + 6
              + (read_u32 (plt.copy_buf gotplt_sh_addr syms buf)
                  ((syms s).plt_idx * 16 + 2) : Nat)) % 2 ^ 32
            = ((syms s).gotplt_addr : Int) % 2 ^ 32
          ∧ ((plt.sh_addr : Int) + (syms s).plt_idx * 16 + 16
              + (read_u32 (plt.copy_buf gotplt_sh_addr syms buf)
                  ((syms s).plt_idx * 16 + 12) : Nat)) % 2 ^ 32
            = (plt.sh_addr : Int) % 2 ^ 32)
        ∧ ((syms s).gotplt_idx = -1 →
          ((plt.sh_addr : Int) + (syms s).plt_idx * 16 + 6
              + (read_u32 (plt.copy_buf gotplt_sh_addr syms buf)
                  ((syms s).plt_idx * 16 + 2) : Nat)) % 2 ^ 32
            = ((syms s).got_addr : Int) % 2 ^ 32) := by
  have hne0 : ∀ s ∈ plt.symbols, (syms s).plt_idx ≠ 0 := by
    intro s hs
    have := hpos s hs
    omega
  have hplt0 : ∀ off : Int, 1 ≤ off → off + 4 ≤ 16 →
      read_u32 (plt.copy_buf gotplt_sh_addr syms buf) off
        = read_u32 (write_u32 (write_u32 (memcpy buf 0 plt0) 2
            (u32 (add64 (sub64 gotplt_sh_addr plt.sh_addr) 2))) 8
            (u32 (add64 (sub64 gotplt_sh_addr plt.sh_addr) 4))) off := by
    intro off h1 h2
    apply read_u32_congr
    intro a ha1 ha2
    unfold PltSection.copy_buf
    exact plt_copy_buf_loop_frame plt.sh_addr syms 0 plt.symbols _ _ a hne0
      (by omega) (by omega)
  have hu : ∀ x, u32 x % 2 ^ 32 = u32 x := by
    intro x
    unfold u32
    omega
  refine ⟨?_, ?_, ?_⟩
  · rw [hplt0 2 (by omega) (by omega),
      read_u32_congr _ (write_u32 (memcpy buf 0 plt0) 2
        (u32 (add64 (sub64 gotplt_sh_addr plt.sh_addr) 2))) 2
        (fun a h1 h2 => write_u32_outside _ _ _ _ (by omega)),
      read_u32_write_u32, hu]
    unfold u32 add64 sub64
    omega
  · rw [hplt0 8 (by omega) (by omega), read_u32_write_u32, hu]
    unfold u32 add64 sub64
    omega
  · intro s hs
    obtain ⟨d1, d2⟩ := plt_copy_buf_loop_displacements plt.sh_addr syms plt.symbols 0
      (write_u32 (write_u32 (memcpy buf 0 plt0) 2
        (u32 (add64 (sub64 gotplt_sh_addr plt.sh_addr) 2))) 8
        (u32 (add64 (sub64 gotplt_sh_addr plt.sh_addr) 4))) hnd s hs
    have ha := haddr s hs
    have hp := hpos s hs
    constructor
    · intro hg
      obtain ⟨e1, e2⟩ := d1 hg
      unfold PltSection.copy_buf
      simp only []
      rw [e1, e2]
      unfold u32 sub64
      constructor <;> omega
    · intro hg
      have e1 := d2 hg
      unfold PltSection.copy_buf
      simp only []
      rw [e1]
      unfold u32 sub64
      omega

/-- C19, for a `.plt` at 0x1000 with a lazy stub (GOTPLT slot at 0x3018) and a
GOT-only stub (GOT slot at 0x2ff8), GOTPLT at 0x3000. -/
theorem plt_displacements_resolve_witness :
    read_u32 (pltTwo.copy_buf 0x3000 pltStore fun _ => 0) 2 = 0x2002
    ∧ read_u32 (pltTwo.copy_buf 0x3000 pltStore fun _ => 0) 18 = 0x2002
    ∧ read_u32 (pltTwo.copy_buf 0x3000 pltStore fun _ => 0) 28 = 2 ^ 32 - 32
    ∧ (pltTwo.sh_addr + 6 + read_u32 (pltTwo.copy_buf 0x3000 pltStore fun _ => 0) 2) % 2 ^ 32
        = (0x3000 + 8) % 2 ^ 32 :=
  ⟨by decide, by decide, by decide,
    (plt_displacements_resolve pltTwo 0x3000 pltStore (fun _ => 0) (by decide) (by decide)
      (by decide)).1⟩

/-! ## GOT requests -/

theorem map_update_of_field {β : Type} (f : Symbol → β) (syms : SymId → Symbol) (sym : SymId)
    (v : Symbol) (hv : f v = f (syms sym)) (l : List SymId) :
    (l.map fun s => f (Function.update syms sym v s)) = l.map fun s => f (syms s) := by
  apply List.map_congr_left
  intro s _
  by_cases hs : s = sym
  · subst hs; rw [Function.update_same, hv]
  · rw [Function.update_noteq hs]

theorem map_update_of_not_mem {β : Type} (f : Symbol → β) (syms : SymId → Symbol)
    (sym : SymId) (v : Symbol) (l : List SymId) (h : sym ∉ l) :
    (l.map fun s => f (Function.update syms sym v s)) = l.map fun s => f (syms s) := by
  apply List.map_congr_left
  intro s hs
  have hne : s ≠ sym := fun e => h (e ▸ hs)
  rw [Function.update_noteq hne]

theorem slot_range_length (n : Nat) : (slot_range n).length = n := by
  simp [slot_range]

theorem slot_range_succ (n : Nat) : slot_range (n + 1) = slot_range n ++ [(n : Int)] := by
  simp [slot_range, List.range_succ]

theorem mem_slot_range (n : Nat) (i : Int) : i ∈ slot_range n ↔ 0 ≤ i ∧ i < (n : Int) := by
  unfold slot_range
  rw [List.mem_map]
  constructor
  · rintro ⟨k, hk, rfl⟩
    rw [List.mem_range] at hk
    have : Int.ofNat k = (k : Int) := rfl
    omega
  · intro h
    refine ⟨i.toNat, ?_, ?_⟩
    · rw [List.mem_range]; omega
    · have : Int.ofNat i.toNat = (i.toNat : Int) := rfl
      omega

theorem slot_range_nodup (n : Nat) : (slot_range n).Nodup := by
  unfold slot_range
  exact (List.nodup_range n).map (fun a b h => Int.ofNat.inj h)

/-- Inserting the next slot, or the next two slots, anywhere into a list of the
slots `0 .. k - 1` gives a list of the slots below the new size. -/
theorem perm_slot_range_insert (old new X : List Int) (k : Nat)
    (hold : old.Perm (slot_range k))
    (hnew : new.Perm (X ++ old))
    (hX : X = [(k : Int)] ∨ X = [(k : Int), (k : Int) + 1]) :
    new.Perm (slot_range (k + X.length)) := by
  refine hnew.trans ?_
  refine (List.Perm.append_left X hold).trans ?_
  refine List.perm_append_comm.trans ?_
  rcases hX with h | h
  · rw [h, List.length_singleton, slot_range_succ]
  · rw [h]
    show (slot_range k ++ [(k : Int), (k : Int) + 1]).Perm (slot_range (k + 1 + 1))
    rw [slot_range_succ, slot_range_succ]
    simp

theorem perm_insert_middle (P X R : List Int) : (P ++ (X ++ R)).Perm (X ++ (P ++ R)) := by
  rw [← List.append_assoc, ← List.append_assoc]
  exact List.Perm.append_right R List.perm_append_comm

theorem got_slots_add_got (ctx : Ctx) (sym : SymId) (v : Int) (sz : Nat)
    (hnot : sym ∉ ctx.got.got_syms) :
    got_slots { ctx with
        syms := Function.update ctx.syms sym { ctx.syms sym with got_idx := v }
        got := { ctx.got with sh_size := sz, got_syms := ctx.got.got_syms ++ [sym] } }
      = (ctx.got.got_syms.map fun s => (ctx.syms s).got_idx)
        ++ ([v] ++ ((ctx.got.gottpoff_syms.map fun s => (ctx.syms s).gottpoff_idx)
        ++ (ctx.got.tlsgd_syms.map fun s =>
              [(ctx.syms s).tlsgd_idx, (ctx.syms s).tlsgd_idx + 1]).flatten
        ++ (if ctx.got.tlsld_idx ≠ -1 then [ctx.got.tlsld_idx, ctx.got.tlsld_idx + 1]
            else []))) := by
  unfold got_slots
  simp only [List.map_append, List.map_cons, List.map_nil, Function.update_same]
  rw [map_update_of_not_mem (fun y => y.got_idx) ctx.syms sym
      { ctx.syms sym with got_idx := v } _ hnot,
    map_update_of_field (fun y => y.gottpoff_idx) ctx.syms sym
      { ctx.syms sym with got_idx := v } rfl,
    map_update_of_field (fun y => [y.tlsgd_idx, y.tlsgd_idx + 1]) ctx.syms sym
      { ctx.syms sym with got_idx := v } rfl]
  simp only [List.append_assoc]

theorem got_slots_add_gottpoff (ctx : Ctx) (sym : SymId) (v : Int) (sz : Nat)
    (hnot : sym ∉ ctx.got.gottpoff_syms) :
    got_slots { ctx with
        syms := Function.update ctx.syms sym { ctx.syms sym with gottpoff_idx := v }
        got := { ctx.got with sh_size := sz
                              gottpoff_syms := ctx.got.gottpoff_syms ++ [sym] } }
      = ((ctx.got.got_syms.map fun s => (ctx.syms s).got_idx)
          ++ (ctx.got.gottpoff_syms.map fun s => (ctx.syms s).gottpoff_idx))
        ++ ([v] ++ ((ctx.got.tlsgd_syms.map fun s =>
              [(ctx.syms s).tlsgd_idx, (ctx.syms s).tlsgd_idx + 1]).flatten
        ++ (if ctx.got.tlsld_idx ≠ -1 then [ctx.got.tlsld_idx, ctx.got.tlsld_idx + 1]
            else []))) := by
  unfold got_slots
  simp only [List.map_append, List.map_cons, List.map_nil, Function.update_same]
  rw [map_update_of_not_mem (fun y => y.gottpoff_idx) ctx.syms sym
      { ctx.syms sym with gottpoff_idx := v } _ hnot,
    map_update_of_field (fun y => y.got_idx) ctx.syms sym
      { ctx.syms sym with gottpoff_idx := v } rfl,
    map_update_of_field (fun y => [y.tlsgd_idx, y.tlsgd_idx + 1]) ctx.syms sym
      { ctx.syms sym with gottpoff_idx := v } rfl]
  simp only [List.append_assoc]

theorem got_slots_add_tlsgd (ctx : Ctx) (sym : SymId) (v : Int) (sz : Nat)
    (hnot : sym ∉ ctx.got.tlsgd_syms) :
    got_slots { ctx with
        syms := Function.update ctx.syms sym { ctx.syms sym with tlsgd_idx := v }
        got := { ctx.got with sh_size := sz, tlsgd_syms := ctx.got.tlsgd_syms ++ [sym] } }
      = ((ctx.got.got_syms.map fun s => (ctx.syms s).got_idx)
          ++ (ctx.got.gottpoff_syms.map fun s => (ctx.syms s).gottpoff_idx)
          ++ (ctx.got.tlsgd_syms.map fun s =>
              [(ctx.syms s).tlsgd_idx, (ctx.syms s).tlsgd_idx + 1]).flatten)
        ++ ([v, v + 1]
        ++ (if ctx.got.tlsld_idx ≠ -1 then [ctx.got.tlsld_idx, ctx.got.tlsld_idx + 1]
            else [])) := by
  unfold got_slots
  simp only [List.map_append, List.map_cons, List.map_nil, Function.update_same,
    List.flatten_append, List.flatten_cons, List.flatten_nil, List.append_nil]
  rw [map_update_of_not_mem (fun y => [y.tlsgd_idx, y.tlsgd_idx + 1]) ctx.syms sym
      { ctx.syms sym with tlsgd_idx := v } _ hnot,
    map_update_of_field (fun y => y.got_idx) ctx.syms sym
      { ctx.syms sym with tlsgd_idx := v } rfl,
    map_update_of_field (fun y => y.gottpoff_idx) ctx.syms sym
      { ctx.syms sym with tlsgd_idx := v } rfl]
  simp only [List.append_assoc]

theorem got_slots_split (ctx : Ctx) (P R : List Int) (h : got_slots ctx = P ++ R) (X : List Int)
    (ctx1 : Ctx) (h1 : got_slots ctx1 = P ++ (X ++ R)) :
    (got_slots ctx1).Perm (X ++ got_slots ctx) := by
  rw [h1, h]
  exact perm_insert_middle P X R

theorem got_slots_old_split (ctx : Ctx) :
    got_slots ctx
      = (ctx.got.got_syms.map fun s => (ctx.syms s).got_idx)
        ++ ((ctx.got.gottpoff_syms.map fun s => (ctx.syms s).gottpoff_idx)
        ++ (ctx.got.tlsgd_syms.map fun s =>
              [(ctx.syms s).tlsgd_idx, (ctx.syms s).tlsgd_idx + 1]).flatten
        ++ (if ctx.got.tlsld_idx ≠ -1 then [ctx.got.tlsld_idx, ctx.got.tlsld_idx + 1]
            else [])) := by
  unfold got_slots
  simp only [List.append_assoc]

theorem got_slots_add_tlsld (ctx : Ctx) (v : Int) (sz : Nat) (hv : v ≠ -1) :
    got_slots { ctx with got := { ctx.got with tlsld_idx := v, sh_size := sz } }
      = ((ctx.got.got_syms.map fun s => (ctx.syms s).got_idx)
          ++ (ctx.got.gottpoff_syms.map fun s => (ctx.syms s).gottpoff_idx)
          ++ (ctx.got.tlsgd_syms.map fun s =>
              [(ctx.syms s).tlsgd_idx, (ctx.syms s).tlsgd_idx + 1]).flatten)
        ++ ([v, v + 1] ++ []) := by
  unfold got_slots
  simp only [if_pos hv, List.append_nil]

/-- One request to the GOT keeps the invariant, while the GOT stays below
`2^34` bytes. -/
theorem got_call_consistent (ctx ctx1 : Ctx) (c : GotCall) (hinv : ctx.got_consistent)
    (hb : ctx.got.sh_size + 16 ≤ 2 ^ 34) (h : c.run ctx = some ctx1) :
    ctx1.got_consistent ∧ ctx1.got.sh_size ≤ ctx.got.sh_size + 16 := by
  obtain ⟨h1, h2, h3, h4, h5⟩ := hinv
  have h8 : GOT_SIZE = 8 := rfl
  have hk : ctx.got.sh_size / 8 = (got_slots ctx).length := by omega
  have hidx : toI32 ((ctx.got.sh_size / 8 : Nat) : Int) = ((got_slots ctx).length : Int) := by
    rw [hk]
    exact toI32_of_lt _ (by omega) (by omega)
  have hs1 : u64 (ctx.got.sh_size + 8) = ctx.got.sh_size + 8 := u64_of_lt _ (by omega)
  have hs2 : u64 (ctx.got.sh_size + 8 * 2) = ctx.got.sh_size + 16 := u64_of_lt _ (by omega)
  have hnn : ((got_slots ctx).length : Int) ≠ -1 := by omega
  cases c with
  | got sym =>
    simp only [GotCall.run, GotSection.add_got_symbol, h8, hidx, hs1] at h
    split_ifs at h with h0
    have hc := Option.some.inj h
    have hnot : sym ∉ ctx.got.got_syms := fun hm => h3 sym hm (by simpa using h0)
    have hsl := got_slots_add_got ctx sym ((got_slots ctx).length : Int)
      (ctx.got.sh_size + 8) hnot
    rw [hc] at hsl
    have hperm := got_slots_split ctx _ _ (got_slots_old_split ctx) _ ctx1 hsl
    have hlen : (got_slots ctx1).length = (got_slots ctx).length + 1 := by
      rw [hperm.length_eq]; simp
    refine ⟨⟨?_, ?_, ?_, ?_, ?_⟩, ?_⟩
    · rw [hlen, ← hc]; show ctx.got.sh_size + 8 = _; omega
    · rw [hlen]
      exact perm_slot_range_insert _ _ _ _ h2 hperm (Or.inl rfl)
    · rw [← hc]
      intro s hs
      simp only [List.mem_append, List.mem_singleton] at hs
      by_cases hsym : s = sym
      · subst hsym; simp only [Function.update_same]; exact hnn
      · simp only [Function.update_noteq hsym]
        rcases hs with hs | hs
        · exact h3 s hs
        · exact absurd hs hsym
    · rw [← hc]
      intro s hs
      by_cases hsym : s = sym
      · subst hsym; simp only [Function.update_same]; exact h4 s hs
      · simp only [Function.update_noteq hsym]; exact h4 s hs
    · rw [← hc]
      intro s hs
      by_cases hsym : s = sym
      · subst hsym; simp only [Function.update_same]; exact h5 s hs
      · simp only [Function.update_noteq hsym]; exact h5 s hs
    · rw [← hc]; show ctx.got.sh_size + 8 ≤ _; omega
  | gottpoff sym =>
    simp only [GotCall.run, GotSection.add_gottpoff_symbol, h8, hidx, hs1] at h
    split_ifs at h with h0
    have hc := Option.some.inj h
    have hnot : sym ∉ ctx.got.gottpoff_syms := fun hm => h4 sym hm (by simpa using h0)
    have hsl := got_slots_add_gottpoff ctx sym ((got_slots ctx).length : Int)
      (ctx.got.sh_size + 8) hnot
    rw [hc] at hsl
    have hold : got_slots ctx
        = ((ctx.got.got_syms.map fun s => (ctx.syms s).got_idx)
            ++ (ctx.got.gottpoff_syms.map fun s => (ctx.syms s).gottpoff_idx))
          ++ ((ctx.got.tlsgd_syms.map fun s =>
                [(ctx.syms s).tlsgd_idx, (ctx.syms s).tlsgd_idx + 1]).flatten
          ++ (if ctx.got.tlsld_idx ≠ -1 then [ctx.got.tlsld_idx, ctx.got.tlsld_idx + 1]
              else [])) := by
      unfold got_slots
      simp only [List.append_assoc]
    have hperm := got_slots_split ctx _ _ hold _ ctx1 hsl
    have hlen : (got_slots ctx1).length = (got_slots ctx).length + 1 := by
      rw [hperm.length_eq]; simp
    refine ⟨⟨?_, ?_, ?_, ?_, ?_⟩, ?_⟩
    · rw [hlen, ← hc]; show ctx.got.sh_size + 8 = _; omega
    · rw [hlen]
      exact perm_slot_range_insert _ _ _ _ h2 hperm (Or.inl rfl)
    · rw [← hc]
      intro s hs
      by_cases hsym : s = sym
      · subst hsym; simp only [Function.update_same]; exact h3 s hs
      · simp only [Function.update_noteq hsym]; exact h3 s hs
    · rw [← hc]
      intro s hs
      simp only [List.mem_append, List.mem_singleton] at hs
      by_cases hsym : s = sym
      · subst hsym; simp only [Function.update_same]; exact hnn
      · simp only [Function.update_noteq hsym]
        rcases hs with hs | hs
        · exact h4 s hs
        · exact absurd hs hsym
    · rw [← hc]
      intro s hs
      by_cases hsym : s = sym
      · subst hsym; simp only [Function.update_same]; exact h5 s hs
      · simp only [Function.update_noteq hsym]; exact h5 s hs
    · rw [← hc]; show ctx.got.sh_size + 8 ≤ _; omega
  | tlsgd sym =>
    simp only [GotCall.run, GotSection.add_tlsgd_symbol, h8, hidx, hs2] at h
    split_ifs at h with h0
    have hc := Option.some.inj h
    have hnot : sym ∉ ctx.got.tlsgd_syms := fun hm => h5 sym hm (by simpa using h0)
    have hsl := got_slots_add_tlsgd ctx sym ((got_slots ctx).length : Int)
      (ctx.got.sh_size + 16) hnot
    rw [hc] at hsl
    have hperm := got_slots_split ctx _ _ rfl _ ctx1 hsl
    have hlen : (got_slots ctx1).length = (got_slots ctx).length + 2 := by
      rw [hperm.length_eq]; simp
    refine ⟨⟨?_, ?_, ?_, ?_, ?_⟩, ?_⟩
    · rw [hlen, ← hc]; show ctx.got.sh_size + 16 = _; omega
    · rw [hlen]
      exact perm_slot_range_insert _ _ _ _ h2 hperm (Or.inr rfl)
    · rw [← hc]
      intro s hs
      by_cases hsym : s = sym
      · subst hsym; simp only [Function.update_same]; exact h3 s hs
      · simp only [Function.update_noteq hsym]; exact h3 s hs
    · rw [← hc]
      intro s hs
      by_cases hsym : s = sym
      · subst hsym; simp only [Function.update_same]; exact h4 s hs
      · simp only [Function.update_noteq hsym]; exact h4 s hs
    · rw [← hc]
      intro s hs
      simp only [List.mem_append, List.mem_singleton] at hs
      by_cases hsym : s = sym
      · subst hsym; simp only [Function.update_same]; exact hnn
      · simp only [Function.update_noteq hsym]
        rcases hs with hs | hs
        · exact h5 s hs
        · exact absurd hs hsym
    · have hsz : ctx1.got.sh_size = ctx.got.sh_size + 16 := by rw [← hc]
      omega
  | tlsld =>
    simp only [GotCall.run] at h
    have hc := Option.some.inj h
    by_cases ht : ctx.got.tlsld_idx = -1
    · have hgot : ctx.got.add_tlsld
          = { ctx.got with tlsld_idx := ((got_slots ctx).length : Int)
                           sh_size := ctx.got.sh_size + 16 } := by
        unfold GotSection.add_tlsld
        rw [if_neg (by rw [ht]; decide), h8, hidx, hs2]
      rw [hgot] at hc
      have hold : got_slots ctx
          = ((ctx.got.got_syms.map fun s => (ctx.syms s).got_idx)
              ++ (ctx.got.gottpoff_syms.map fun s => (ctx.syms s).gottpoff_idx)
              ++ (ctx.got.tlsgd_syms.map fun s =>
                  [(ctx.syms s).tlsgd_idx, (ctx.syms s).tlsgd_idx + 1]).flatten)
            ++ [] := by
        unfold got_slots
        rw [if_neg (by rw [ht]; decide)]
      have hsl : got_slots ctx1
          = ((ctx.got.got_syms.map fun s => (ctx.syms s).got_idx)
              ++ (ctx.got.gottpoff_syms.map fun s => (ctx.syms s).gottpoff_idx)
              ++ (ctx.got.tlsgd_syms.map fun s =>
                  [(ctx.syms s).tlsgd_idx, (ctx.syms s).tlsgd_idx + 1]).flatten)
            ++ ([((got_slots ctx).length : Int), ((got_slots ctx).length : Int) + 1] ++ []) := by
        rw [← hc]
        exact got_slots_add_tlsld ctx _ _ hnn
      have hperm := got_slots_split ctx _ _ hold _ ctx1 hsl
      have hlen : (got_slots ctx1).length = (got_slots ctx).length + 2 := by
        rw [hperm.length_eq]; simp
      refine ⟨⟨?_, ?_, ?_, ?_, ?_⟩, ?_⟩
      · rw [hlen, ← hc]; show ctx.got.sh_size + 16 = _; omega
      · rw [hlen]
        exact perm_slot_range_insert _ _ _ _ h2 hperm (Or.inr rfl)
      · rw [← hc]; exact h3
      · rw [← hc]; exact h4
      · rw [← hc]; exact h5
      · have hsz : ctx1.got.sh_size = ctx.got.sh_size + 16 := by rw [← hc]
        omega
    · have hgot : ctx.got.add_tlsld = ctx.got := by
        unfold GotSection.add_tlsld
        rw [if_pos ht]
      rw [hgot] at hc
      have hcc : ctx1 = ctx := hc.symm
      rw [hcc]
      exact ⟨⟨h1, h2, h3, h4, h5⟩, by omega⟩

theorem run_got_consistent : ∀ (calls : List GotCall) (ctx ctx1 : Ctx),
    ctx.got_consistent → ctx.got.sh_size + 16 * calls.length ≤ 2 ^ 34 →
    run_got ctx calls = some ctx1 → ctx1.got_consistent := by
  intro calls
  induction calls with
  | nil =>
    intro ctx ctx1 hinv _ hrun
    have := Option.some.inj hrun
    subst this
    exact hinv
  | cons c rest ih =>
    intro ctx ctx1 hinv hb hrun
    simp only [List.length_cons] at hb
    simp only [run_got] at hrun
    cases hstep : c.run ctx with
    | none => simp [hstep] at hrun
    | some ctx2 =>
      simp only [hstep] at hrun
      obtain ⟨hinv2, hsz⟩ := got_call_consistent ctx ctx2 c hinv (by omega) hstep
      exact ih ctx2 ctx1 hinv2 (by omega) hrun

theorem flatten_pairs_length {α : Type} (f g : α → Int) (l : List α) :
    (l.map fun s => [f s, g s]).flatten.length = 2 * l.length := by
  induction l with
  | nil => rfl
  | cons a rest ih =>
    simp only [List.map_cons, List.flatten_cons, List.length_append, List.length_cons,
      List.length_nil, ih]
    omega

theorem got_slots_length (ctx : Ctx) :
    (got_slots ctx).length
      = ctx.got.got_syms.length + ctx.got.gottpoff_syms.length
        + 2 * ctx.got.tlsgd_syms.length + 2 * (if ctx.got.tlsld_idx ≠ -1 then 1 else 0) := by
  unfold got_slots
  simp only [List.length_append, List.length_map, flatten_pairs_length]
  by_cases ht : ctx.got.tlsld_idx = -1
  · simp [ht]
  · simp [ht]

/-- C22: in every state reached from an empty GOT (sh_size = 0, tlsld_idx = -1,
no registered symbol) through add_got_symbol, add_gottpoff_symbol,
add_tlsgd_symbol and add_tlsld, every assertion holding and fewer than 2^30
requests made, sh_size is 8 times the number of slots requested
(|got_syms| + |gottpoff_syms| + 2 |tlsgd_syms| + 2 when tlsld_idx is set),
no slot is listed twice among got_idx, gottpoff_idx, tlsgd_idx, tlsgd_idx + 1
of the registered symbols and tlsld_idx, tlsld_idx + 1, and the slots listed
are exactly the slots 0 up to sh_size / 8. -/
theorem got_slots_partition (ctx0 ctx : Ctx) (calls : List GotCall)
    (h0 : ctx0.got.sh_size = 0) (ht : ctx0.got.tlsld_idx = -1)
    (hg : ctx0.got.got_syms = []) (hp : ctx0.got.gottpoff_syms = [])
    (hd : ctx0.got.tlsgd_syms = [])
    (hlen : calls.length < 2 ^ 30)
    (hrun : run_got ctx0 calls = some ctx) :
    ctx.got.sh_size
        = 8 * (ctx.got.got_syms.length + ctx.got.gottpoff_syms.length
                + 2 * ctx.got.tlsgd_syms.length
                + 2 * (if ctx.got.tlsld_idx ≠ -1 then 1 else 0))
    ∧ (got_slots ctx).Nodup
    ∧ ∀ i : Int, i ∈ got_slots ctx ↔ 0 ≤ i ∧ i < (ctx.got.sh_size / GOT_SIZE : Nat) := by
  have hs0 : got_slots ctx0 = [] := by
    unfold got_slots
    rw [hg, hp, hd, ht]
    rfl
  have hinv0 : ctx0.got_consistent := by
    refine ⟨?_, ?_, ?_, ?_, ?_⟩
    · rw [hs0, h0]; rfl
    · rw [hs0]; exact List.Perm.refl _
    · rw [hg]; intro s hs; cases hs
    · rw [hp]; intro s hs; cases hs
    · rw [hd]; intro s hs; cases hs
  obtain ⟨h1, h2, _, _, _⟩ :=
    run_got_consistent calls ctx0 ctx hinv0 (by rw [h0]; omega) hrun
  refine ⟨?_, ?_, ?_⟩
  · rw [h1, got_slots_length]
  · exact h2.nodup_iff.mpr (slot_range_nodup _)
  · intro i
    have h8 : GOT_SIZE = 8 := rfl
    rw [h2.mem_iff, mem_slot_range, h8]
    have hk : ctx.got.sh_size / 8 = (got_slots ctx).length := by omega
    rw [hk]

/-- C22, for the requests GOT on symbol 0, TLSGD on symbol 1, TLSLD, GOTTPOFF
on symbol 0, TLSLD again, GOT on symbol 2: the GOT has 56 bytes, the slots
handed out are 0, 6, 5, 1, 2, 3, 4, and the statement holds of that state. -/
theorem got_slots_partition_witness :
    (run_got gotFreshCtx
        [GotCall.got 0, GotCall.tlsgd 1, GotCall.tlsld, GotCall.gottpoff 0, GotCall.tlsld,
         GotCall.got 2]).map
        (fun c => (c.got.sh_size, got_slots c, c.got.tlsld_idx))
      = some (56, [0, 6, 5, 1, 2, 3, 4], 3)
    ∧ ∀ c, run_got gotFreshCtx
        [GotCall.got 0, GotCall.tlsgd 1, GotCall.tlsld, GotCall.gottpoff 0, GotCall.tlsld,
         GotCall.got 2] = some c →
      c.got.sh_size
          = 8 * (c.got.got_syms.length + c.got.gottpoff_syms.length
                  + 2 * c.got.tlsgd_syms.length
                  + 2 * (if c.got.tlsld_idx ≠ -1 then 1 else 0))
      ∧ (got_slots c).Nodup
      ∧ ∀ i : Int, i ∈ got_slots c ↔ 0 ≤ i ∧ i < (c.got.sh_size / GOT_SIZE : Nat) :=
  ⟨by decide, fun c hc =>
    got_slots_partition gotFreshCtx c
      [GotCall.got 0, GotCall.tlsgd 1, GotCall.tlsld, GotCall.gottpoff 0, GotCall.tlsld,
       GotCall.got 2]
      rfl rfl rfl rfl rfl (by decide) hc⟩

/-! ## Relocations of the PLT -/

theorem dynsym_add_symbol_has_relplt (syms : SymId → Symbol) (dynstr : DynstrSection)
    (self : DynsymSection) (sym s : SymId) :
    ((self.add_symbol syms dynstr sym).1 s).has_relplt = (syms s).has_relplt := by
  unfold DynsymSection.add_symbol
  split_ifs with h
  · simp
  · by_cases hs : s = sym
    · subst hs; simp [Function.update_same]
    · simp [Function.update_noteq hs]

/-- What `PltSection::add_symbol` leaves: the PLT grows by one entry for the
symbol, and either the symbol had no GOT slot and gets a GOTPLT slot and
`has_relplt`, or nothing else changes. -/
theorem plt_add_symbol_step (ctx ctx1 : Ctx) (sym : SymId)
    (h : PltSection.add_symbol ctx sym = some ctx1) :
    (ctx.syms sym).plt_idx = -1
    ∧ ctx1.plt.symbols = ctx.plt.symbols ++ [sym]
    ∧ ctx1.plt.sh_size = u64 (ctx.plt.sh_size + 16)
    ∧ (∀ s, (ctx1.syms s).plt_idx
          = if s = sym then toI32 ((ctx.plt.sh_size / 16 : Nat) : Int)
            else (ctx.syms s).plt_idx)
    ∧ ((ctx1.gotplt_sh_size = u64 (ctx.gotplt_sh_size + 8)
        ∧ ctx1.relplt_sh_size = u64 (ctx.relplt_sh_size + 24)
        ∧ (∀ s, (ctx1.syms s).has_relplt
              = if s = sym then true else (ctx.syms s).has_relplt)
        ∧ (∀ s, (ctx1.syms s).gotplt_idx
              = if s = sym then toI32 ((ctx.gotplt_sh_size / 8 : Nat) : Int)
                else (ctx.syms s).gotplt_idx))
      ∨ (ctx1.gotplt_sh_size = ctx.gotplt_sh_size
        ∧ ctx1.relplt_sh_size = ctx.relplt_sh_size
        ∧ (∀ s, (ctx1.syms s).has_relplt = (ctx.syms s).has_relplt)
        ∧ (∀ s, (ctx1.syms s).gotplt_idx = (ctx.syms s).gotplt_idx))) := by
  simp only [PltSection.add_symbol] at h
  split_ifs at h with h0 h1
  · have h2 := Option.some.inj h
    subst h2
    refine ⟨by simpa using h0, rfl, rfl, ?_, Or.inl ⟨rfl, rfl, ?_, ?_⟩⟩
    · intro s
      rw [Ctx.dynsym_add_symbol, (dynsym_add_symbol_frame _ _ _ _ _).2.2.1]
      by_cases hs : s = sym
      · subst hs; simp [Function.update_same]; rfl
      · simp [Function.update_noteq hs, hs]
    · intro s
      rw [Ctx.dynsym_add_symbol, dynsym_add_symbol_has_relplt]
      by_cases hs : s = sym
      · subst hs; simp [Function.update_same]
      · simp [Function.update_noteq hs, hs]
    · intro s
      rw [Ctx.dynsym_add_symbol, (dynsym_add_symbol_frame _ _ _ _ _).2.1]
      by_cases hs : s = sym
      · subst hs; simp [Function.update_same]; rfl
      · simp [Function.update_noteq hs, hs]
  · have h2 := Option.some.inj h
    subst h2
    refine ⟨by simpa using h0, rfl, rfl, ?_, Or.inr ⟨rfl, rfl, ?_, ?_⟩⟩
    · intro s
      by_cases hs : s = sym
      · subst hs; simp [Function.update_same]; rfl
      · simp [Function.update_noteq hs, hs]
    · intro s
      by_cases hs : s = sym
      · subst hs; simp [Function.update_same]
      · simp [Function.update_noteq hs]
    · intro s
      by_cases hs : s = sym
      · subst hs; simp [Function.update_same]
      · simp [Function.update_noteq hs]

theorem countP_append_singleton (p : SymId → Bool) (l : List SymId) (x : SymId) :
    (l ++ [x]).countP p = l.countP p + (if p x = true then 1 else 0) := by
  rw [List.countP_append, List.countP_cons, List.countP_nil]
  simp

/-- One `PltSection::add_symbol` keeps the invariant, while `.plt` stays below
`2^35` bytes and `.got.plt` below `2^34` bytes. -/
theorem plt_add_symbol_consistent (p0 g0 : Nat) (ctx ctx1 : Ctx) (sym : SymId)
    (hinv : ctx.plt_consistent p0 g0)
    (hb1 : ctx.plt.sh_size + 16 < 2 ^ 35) (hb2 : ctx.gotplt_sh_size + 8 < 2 ^ 34)
    (h : PltSection.add_symbol ctx sym = some ctx1) :
    ctx1.plt_consistent p0 g0
    ∧ ctx1.plt.sh_size = ctx.plt.sh_size + 16
    ∧ ctx1.gotplt_sh_size ≤ ctx.gotplt_sh_size + 8 := by
  obtain ⟨i1, i2, i3, i4, i5, i6, i7⟩ := hinv
  obtain ⟨s0, s1, s2, s3, s4⟩ := plt_add_symbol_step ctx ctx1 sym h
  have hnot : sym ∉ ctx.plt.symbols := by
    intro hm
    have := (i5 sym hm).1
    omega
  have hsz : ctx1.plt.sh_size = ctx.plt.sh_size + 16 := by
    rw [s2]; exact u64_of_lt _ (by omega)
  have hpi : toI32 ((ctx.plt.sh_size / 16 : Nat) : Int) = ((ctx.plt.sh_size / 16 : Nat) : Int) :=
    toI32_of_lt _ (by omega) (by omega)
  have hgi : toI32 ((ctx.gotplt_sh_size / 8 : Nat) : Int)
      = ((ctx.gotplt_sh_size / 8 : Nat) : Int) :=
    toI32_of_lt _ (by omega) (by omega)
  have hcl := List.countP_le_length (fun s => (ctx.syms s).has_relplt) (l := ctx.plt.symbols)
  have hmap : (ctx.plt.symbols.map fun s => (ctx1.syms s).plt_idx)
      = ctx.plt.symbols.map fun s => (ctx.syms s).plt_idx := by
    apply List.map_congr_left
    intro s hs
    have hne : s ≠ sym := fun e => hnot (e ▸ hs)
    rw [s3 s, if_neg hne]
  have h5 : ∀ s ∈ ctx1.plt.symbols,
      0 ≤ (ctx1.syms s).plt_idx ∧ (ctx1.syms s).plt_idx < (ctx1.plt.sh_size / 16 : Nat) := by
    intro s hs
    rw [s1, List.mem_append, List.mem_singleton] at hs
    rw [hsz, s3 s]
    by_cases hsym : s = sym
    · rw [if_pos hsym, hpi]; omega
    · rw [if_neg hsym]
      rcases hs with hs | hs
      · have := i5 s hs
        omega
      · exact absurd hs hsym
  have h6 : (ctx1.plt.symbols.map fun s => (ctx1.syms s).plt_idx).Nodup := by
    rw [s1, List.map_append, hmap, List.nodup_append]
    refine ⟨i6, by simp, ?_⟩
    intro a ha1 ha2
    rw [List.map_cons, List.map_nil, List.mem_singleton] at ha2
    rw [List.mem_map] at ha1
    obtain ⟨x, hx, hxa⟩ := ha1
    have := (i5 x hx).2
    rw [s3 sym, if_pos rfl, hpi] at ha2
    omega
  rcases s4 with ⟨g1, g2, g3, g4⟩ | ⟨g1, g2, g3, g4⟩
  · have hcount : ctx1.plt.symbols.countP (fun s => (ctx1.syms s).has_relplt)
        = ctx.plt.symbols.countP (fun s => (ctx.syms s).has_relplt) + 1 := by
      have hc : ctx.plt.symbols.countP (fun s => (ctx1.syms s).has_relplt)
          = ctx.plt.symbols.countP (fun s => (ctx.syms s).has_relplt) := by
        apply List.countP_congr
        intro s hs
        have hne : s ≠ sym := fun e => hnot (e ▸ hs)
        rw [g3 s, if_neg hne]
      rw [s1, countP_append_singleton, g3 sym, if_pos rfl, if_pos rfl, hc]
    refine ⟨⟨?_, ?_, ?_, ?_, h5, h6, ?_⟩, hsz, ?_⟩
    · rw [hsz, s1, List.length_append, List.length_singleton]; omega
    · rw [g1, hcount, u64_of_lt _ (by omega)]; omega
    · rw [g2, hcount, u64_of_lt _ (by omega)]; omega
    · intro s
      rw [g3 s, g4 s]
      by_cases hsym : s = sym
      · rw [if_pos hsym, if_pos hsym, hgi]
        constructor
        · intro _; omega
        · intro _; rfl
      · rw [if_neg hsym, if_neg hsym]
        exact i4 s
    · intro s hs
      rw [g3 s] at hs
      rw [s1, List.mem_append, List.mem_singleton]
      by_cases hsym : s = sym
      · exact Or.inr hsym
      · rw [if_neg hsym] at hs
        exact Or.inl (i7 s hs)
    · rw [g1, u64_of_lt _ (by omega)]
  · have hfalse : (ctx.syms sym).has_relplt = false := by
      cases hr : (ctx.syms sym).has_relplt with
      | false => rfl
      | true => exact absurd (i7 sym hr) hnot
    have hcount : ctx1.plt.symbols.countP (fun s => (ctx1.syms s).has_relplt)
        = ctx.plt.symbols.countP (fun s => (ctx.syms s).has_relplt) := by
      rw [s1, countP_append_singleton, g3 sym, hfalse, if_neg (by decide), Nat.add_zero]
      apply List.countP_congr
      intro s _
      rw [g3 s]
    refine ⟨⟨?_, ?_, ?_, ?_, h5, h6, ?_⟩, hsz, ?_⟩
    · rw [hsz, s1, List.length_append, List.length_singleton]; omega
    · rw [g1, hcount]; exact i2
    · rw [g2, hcount]; exact i3
    · intro s
      rw [g3 s, g4 s]
      exact i4 s
    · intro s hs
      rw [g3 s] at hs
      rw [s1, List.mem_append]
      exact Or.inl (i7 s hs)
    · rw [g1]; omega

theorem plt_add_symbols_consistent (p0 g0 : Nat) : ∀ (calls : List SymId) (ctx ctx1 : Ctx),
    ctx.plt_consistent p0 g0 →
    ctx.plt.sh_size + 16 * calls.length < 2 ^ 35 →
    ctx.gotplt_sh_size + 8 * calls.length < 2 ^ 34 →
    PltSection.add_symbols ctx calls = some ctx1 →
    ctx1.plt_consistent p0 g0 ∧ ctx1.plt.sh_size < 2 ^ 35 := by
  intro calls
  induction calls with
  | nil =>
    intro ctx ctx1 hinv hb1 _ hrun
    have := Option.some.inj hrun
    subst this
    exact ⟨hinv, by simpa using hb1⟩
  | cons c rest ih =>
    intro ctx ctx1 hinv hb1 hb2 hrun
    simp only [List.length_cons] at hb1 hb2
    simp only [PltSection.add_symbols] at hrun
    cases hstep : PltSection.add_symbol ctx c with
    | none => simp [hstep] at hrun
    | some ctx2 =>
      simp only [hstep] at hrun
      obtain ⟨hinv2, hsz, hg⟩ :=
        plt_add_symbol_consistent p0 g0 ctx ctx2 c hinv (by omega) (by omega) hstep
      exact ih ctx2 ctx1 hinv2 (by omega) (by omega) hrun

/-- The push immediate in the entry of a symbol with a GOTPLT slot right after
its stores is the running `relplt_idx`. -/
theorem write_entry_push (sh_addr : Nat) (sym : Symbol) (r : Int) (buf : Int → UInt8)
    (hg : sym.gotplt_idx ≠ -1) :
    read_u32 (PltSection.write_entry sh_addr sym r buf) (sym.plt_idx * 16 + 7)
      = intToU32 r := by
  have h16 : (PLT_SIZE : Int) = 16 := rfl
  unfold PltSection.write_entry
  simp only [h16, if_pos hg]
  rw [read_u32_congr _
    (write_u32
      (write_u32 (memcpy buf (sym.plt_idx * 16) plt_lazy_stub) (sym.plt_idx * 16 + 2)
        (u32 (sub64 (sub64 sym.gotplt_addr sym.plt_addr) 6)))
      (sym.plt_idx * 16 + 7) (intToU32 r)) _
    (fun a h1 h2 => by rw [write_u32_outside _ _ _ _ (by omega)]),
    read_u32_write_u32]
  unfold intToU32
  omega

theorem cast_succ_int (r : Nat) : ((r : Int) + 1) = ((r + 1 : Nat) : Int) := by
  push_cast
  rfl

/-- The push immediate that the loop of `PltSection::copy_buf` leaves in the
entry of a symbol with a GOTPLT slot: the number of symbols with a GOTPLT slot
before it in the list, counted from the `relplt_idx` at the start. -/
theorem plt_copy_buf_loop_push (sh_addr : Nat) (syms : SymId → Symbol) (s : SymId)
    (post : List SymId) (hg : (syms s).gotplt_idx ≠ -1) :
    ∀ (pre : List SymId) (r : Nat) (buf : Int → UInt8),
    ((pre ++ s :: post).map fun x => (syms x).plt_idx).Nodup →
    r + pre.length < 2 ^ 31 →
    read_u32 (PltSection.copy_buf_loop sh_addr syms (pre ++ s :: post) (r : Int) buf)
        ((syms s).plt_idx * 16 + 7)
      = r + pre.countP (fun x => decide ((syms x).gotplt_idx ≠ -1)) := by
  intro pre
  induction pre with
  | nil =>
    intro r buf hnd hr
    rw [List.nil_append] at hnd ⊢
    rw [List.map_cons, List.nodup_cons] at hnd
    simp only [PltSection.copy_buf_loop]
    rw [read_u32_congr _ (PltSection.write_entry sh_addr (syms s) r buf) _
        (fun a h1 h2 =>
          plt_copy_buf_loop_frame sh_addr syms (syms s).plt_idx post _ _ a
            (fun x hx he => hnd.1 (List.mem_map.2 ⟨x, hx, he⟩)) (by omega) (by omega)),
      write_entry_push _ _ _ _ hg]
    simp only [List.countP_nil, Nat.add_zero, List.length_nil] at hr ⊢
    unfold intToU32
    omega
  | cons x pre ih =>
    intro r buf hnd hr
    rw [List.cons_append] at hnd ⊢
    rw [List.map_cons, List.nodup_cons] at hnd
    simp only [List.length_cons] at hr
    simp only [PltSection.copy_buf_loop]
    rw [List.countP_cons]
    by_cases hx : (syms x).gotplt_idx ≠ -1
    · rw [if_pos hx, toI32_of_lt _ (by omega) (by omega), cast_succ_int,
        ih (r + 1) _ hnd.2 (by omega), if_pos (decide_eq_true hx)]
      omega
    · have hd : ¬ (decide ((syms x).gotplt_idx ≠ -1) = true) := by
        rw [decide_eq_false hx]
        decide
      rw [if_neg hx, ih r _ hnd.2 (by omega), if_neg hd, Nat.add_zero]

/-- The loop of `RelPltSection::copy_buf` leaves the records below the running
`relplt_idx` as they are. -/
theorem relplt_loop_below (syms : SymId → Symbol) :
    ∀ (l : List SymId) (r : Nat) (table : Int → ElfRela) (i : Int),
    i < r → r + l.length < 2 ^ 31 →
    RelPltSection.copy_buf_loop syms l (r : Int) table i = table i := by
  intro l
  induction l with
  | nil => intro r table i _ _; rfl
  | cons x rest ih =>
    intro r table i hi hr
    simp only [List.length_cons] at hr
    simp only [RelPltSection.copy_buf_loop]
    split_ifs with hx
    · exact ih r table i hi (by omega)
    · have hne : i ≠ (r : Int) := by omega
      rw [toI32_of_lt _ (by omega) (by omega), cast_succ_int,
        ih (r + 1) _ i (by omega) (by omega), Function.update_noteq hne]

/-- The record that the loop of `RelPltSection::copy_buf` writes for a symbol
with `has_relplt` lies at the number of symbols with `has_relplt` before it in
the list, counted from the `relplt_idx` at the start. -/
theorem relplt_loop_at (syms : SymId → Symbol) (s : SymId) (post : List SymId)
    (hs : (syms s).has_relplt = true) :
    ∀ (pre : List SymId) (r : Nat) (table : Int → ElfRela),
    r + (pre ++ s :: post).length < 2 ^ 31 →
    RelPltSection.copy_buf_loop syms (pre ++ s :: post) (r : Int) table
        ((r + pre.countP (fun x => (syms x).has_relplt) : Nat) : Int)
      = RelPltSection.make_rela (syms s) := by
  intro pre
  induction pre with
  | nil =>
    intro r table hr
    rw [List.nil_append] at hr ⊢
    simp only [List.length_cons] at hr
    simp only [RelPltSection.copy_buf_loop, List.countP_nil, Nat.add_zero]
    rw [if_neg (by rw [hs]; decide), toI32_of_lt _ (by omega) (by omega), cast_succ_int,
      relplt_loop_below syms post (r + 1) _ (r : Int) (by omega) (by omega),
      Function.update_same]
  | cons x pre ih =>
    intro r table hr
    rw [List.cons_append] at hr ⊢
    simp only [List.length_cons] at hr
    simp only [RelPltSection.copy_buf_loop]
    rw [List.countP_cons]
    cases hx : (syms x).has_relplt with
    | false =>
      simp only [if_true, Bool.false_eq_true, if_false, Nat.add_zero]
      exact ih r table (by omega)
    | true =>
      simp only [Bool.true_eq_false, if_false, if_true]
      rw [toI32_of_lt _ (by omega) (by omega), cast_succ_int]
      have hidx : r + (pre.countP (fun x => (syms x).has_relplt) + 1)
          = (r + 1) + pre.countP (fun x => (syms x).has_relplt) := by omega
      rw [hidx]
      exact ih (r + 1) _ (by omega)

theorem make_rela_r_offset (sym : Symbol) :
    (RelPltSection.make_rela sym).r_offset = sym.gotplt_addr := by
  unfold RelPltSection.make_rela
  split_ifs <;> rfl

/-- C21: in every state reached through PltSection::add_symbol (every assertion
holding) from an empty PLT symbol list, an empty .rela.plt and has_relplt =
false, gotplt_idx = -1 on all symbols, with .plt staying below 2^35 bytes and
.got.plt below 2^34 bytes, relplt's sh_size is sizeof(ElfRela) times the number
of PLT symbols with a GOTPLT slot; and for a symbol with a GOTPLT slot at any
position of the PLT symbol list, the push immediate (bytes 7..10 of its entry)
that PltSection::copy_buf leaves is the number of symbols with a GOTPLT slot
before it, RelPltSection::copy_buf leaves the record of that symbol at this
index, and the r_offset of the record is the GOTPLT address of the symbol. -/
theorem plt_push_matches_relplt (ctx0 ctx : Ctx) (calls : List SymId)
    (gotplt_sh_addr : Nat) (buf : Int → UInt8) (table : Int → ElfRela)
    (hsym : ctx0.plt.symbols = []) (hrel : ctx0.relplt_sh_size = 0)
    (hinit : ∀ s, (ctx0.syms s).has_relplt = false ∧ (ctx0.syms s).gotplt_idx = -1)
    (hb1 : ctx0.plt.sh_size + 16 * calls.length < 2 ^ 35)
    (hb2 : ctx0.gotplt_sh_size + 8 * calls.length < 2 ^ 34)
    (hrun : PltSection.add_symbols ctx0 calls = some ctx) :
    ctx.relplt_sh_size
        = sizeof_ElfRela
          * ctx.plt.symbols.countP (fun x => decide ((ctx.syms x).gotplt_idx ≠ -1))
    ∧ ∀ (pre post : List SymId) (s : SymId),
        ctx.plt.symbols = pre ++ s :: post → (ctx.syms s).gotplt_idx ≠ -1 →
        read_u32 (ctx.plt.copy_buf gotplt_sh_addr ctx.syms buf)
            ((ctx.syms s).plt_idx * PLT_SIZE + 7)
          = pre.countP (fun x => decide ((ctx.syms x).gotplt_idx ≠ -1))
        ∧ RelPltSection.copy_buf ctx.relplt_sh_size ctx.syms ctx.plt.symbols table
            ((pre.countP (fun x => decide ((ctx.syms x).gotplt_idx ≠ -1)) : Nat) : Int)
          = RelPltSection.make_rela (ctx.syms s)
        ∧ (RelPltSection.copy_buf ctx.relplt_sh_size ctx.syms ctx.plt.symbols table
            ((pre.countP (fun x => decide ((ctx.syms x).gotplt_idx ≠ -1)) : Nat) : Int)).r_offset
          = (ctx.syms s).gotplt_addr := by
  have hinv0 : ctx0.plt_consistent ctx0.plt.sh_size ctx0.gotplt_sh_size := by
    refine ⟨?_, ?_, ?_, ?_, ?_, ?_, ?_⟩
    · rw [hsym]; rfl
    · rw [hsym]; rfl
    · rw [hsym, hrel]; rfl
    · intro s
      rw [(hinit s).1, (hinit s).2]
      constructor
      · intro h; cases h
      · intro h; exact absurd rfl h
    · rw [hsym]; intro s hs; cases hs
    · rw [hsym]; exact List.nodup_nil
    · intro s hs
      rw [(hinit s).1] at hs
      cases hs
  obtain ⟨⟨i1, _, i3, i4, _, i6, _⟩, hlt⟩ :=
    plt_add_symbols_consistent _ _ calls ctx0 ctx hinv0 hb1 hb2 hrun
  have hcc : ∀ l : List SymId, l.countP (fun x => (ctx.syms x).has_relplt)
      = l.countP (fun x => decide ((ctx.syms x).gotplt_idx ≠ -1)) := by
    intro l
    apply List.countP_congr
    intro x _
    rw [decide_eq_true_iff]
    exact i4 x
  have hlen : ctx.plt.symbols.length < 2 ^ 31 := by omega
  have h16 : ((PLT_SIZE : Nat) : Int) = 16 := rfl
  refine ⟨?_, ?_⟩
  · rw [i3, hcc]
    rfl
  · intro pre post s hdec hg
    have hnd : ((pre ++ s :: post).map fun x => (ctx.syms x).plt_idx).Nodup := by
      rw [← hdec]; exact i6
    have hl : (pre ++ s :: post).length < 2 ^ 31 := by
      rw [← hdec]; exact hlen
    have hl2 : pre.length < 2 ^ 31 := by
      rw [List.length_append] at hl
      omega
    have hpush := fun b => plt_copy_buf_loop_push ctx.plt.sh_addr ctx.syms s post hg pre 0 b
      hnd (by omega)
    simp only [Nat.cast_zero, Nat.zero_add] at hpush
    have hrec := relplt_loop_at ctx.syms s post ((i4 s).2 hg) pre 0
      (fun i => if 0 ≤ i ∧ i < (ctx.relplt_sh_size / sizeof_ElfRela : Nat) then ⟨0, 0, 0, 0⟩
        else table i) (by omega)
    simp only [Nat.cast_zero, Nat.zero_add] at hrec
    rw [hcc] at hrec
    have hrec2 : RelPltSection.copy_buf ctx.relplt_sh_size ctx.syms ctx.plt.symbols table
        ((pre.countP (fun x => decide ((ctx.syms x).gotplt_idx ≠ -1)) : Nat) : Int)
          = RelPltSection.make_rela (ctx.syms s) := by
      unfold RelPltSection.copy_buf
      rw [hdec]
      exact hrec
    refine ⟨?_, hrec2, ?_⟩
    · simp only [PltSection.copy_buf, hdec, h16]
      exact hpush _
    · rw [hrec2]
      exact make_rela_r_offset _

/-- C21, for PLT requests on the symbols 0, 1, 2 where symbol 1 has a GOT slot
already: .rela.plt has 48 bytes, the push immediates of the entries 1 and 3
are 0 and 1, the records 0 and 1 of .rela.plt carry the GOTPLT addresses
0x3018 and 0x3020, and the statement holds of that state. -/
theorem plt_push_matches_relplt_witness :
    (PltSection.add_symbols pltFreshCtx [0, 1, 2]).map
        (fun c => (c.plt.symbols, c.relplt_sh_size,
          read_u32 (c.plt.copy_buf 0x3000 c.syms fun _ => 0) 23,
          read_u32 (c.plt.copy_buf 0x3000 c.syms fun _ => 0) 55,
          (RelPltSection.copy_buf c.relplt_sh_size c.syms c.plt.symbols
            (fun _ => ⟨0, 0, 0, 0⟩) 0).r_offset,
          (RelPltSection.copy_buf c.relplt_sh_size c.syms c.plt.symbols
            (fun _ => ⟨0, 0, 0, 0⟩) 1).r_offset))
      = some ([0, 1, 2], 48, 0, 1, 0x3018, 0x3020)
    ∧ ∀ c, PltSection.add_symbols pltFreshCtx [0, 1, 2] = some c →
      c.relplt_sh_size
          = sizeof_ElfRela
            * c.plt.symbols.countP (fun x => decide ((c.syms x).gotplt_idx ≠ -1))
      ∧ ∀ (pre post : List SymId) (s : SymId),
          c.plt.symbols = pre ++ s :: post → (c.syms s).gotplt_idx ≠ -1 →
          read_u32 (c.plt.copy_buf 0x3000 c.syms fun _ => 0)
              ((c.syms s).plt_idx * PLT_SIZE + 7)
            = pre.countP (fun x => decide ((c.syms x).gotplt_idx ≠ -1))
          ∧ RelPltSection.copy_buf c.relplt_sh_size c.syms c.plt.symbols
              (fun _ => ⟨0, 0, 0, 0⟩)
              ((pre.countP (fun x => decide ((c.syms x).gotplt_idx ≠ -1)) : Nat) : Int)
            = RelPltSection.make_rela (c.syms s)
          ∧ (RelPltSection.copy_buf c.relplt_sh_size c.syms c.plt.symbols
              (fun _ => ⟨0, 0, 0, 0⟩)
              ((pre.countP (fun x => decide ((c.syms x).gotplt_idx ≠ -1)) : Nat) : Int)).r_offset
            = (c.syms s).gotplt_addr :=
  ⟨by decide, fun c hc =>
    plt_push_matches_relplt pltFreshCtx c [0, 1, 2] 0x3000 (fun _ => 0)
      (fun _ => ⟨0, 0, 0, 0⟩) rfl rfl (fun _ => ⟨rfl, rfl⟩) (by decide) (by decide) hc⟩

end Mold
